import Mathlib

/-!
The dbhub.io web UI: commit history page and cache-key tags.

A shallow embedding of `commitsPage` and of the row-data cache tag built by
`databasePage` (both in `webui/pages.go`), followed by theorems about them.

Conventions of the embedding
* A Go `error` is a `GoError`: `none` is `nil`, `some msg` is an error whose
  `Error()` text is `msg`.
* A Go `map[string]T` is an association list read with `List.lookup`; reading a
  missing key yields the zero value of `T` and `ok = false`.
* The functions of package `com` and the request are collaborators whose results
  are the fields of `World`; they return Go-style `(value, err)` tuples.
* Every call to a collaborator that touches the metadata store is recorded in
  `Result.calls`, in program order.
* The `for` loop of the history walk is run with a fuel that counts executions
  of the loop body; `none` means the loop has not ended within the fuel.
-/

namespace DBHub

/-! ## Data model -/

/-- A Go error value: `none` is nil, `some msg` carries the text of `Error()`. -/
abbrev GoError := Option String

/-- The tree reference of a commit (`com.DBTree`); only copied by this code. -/
structure DBTree where
  ID : String
  Entries : List String
deriving DecidableEq, Repr

instance : Inhabited DBTree := ⟨⟨"", []⟩⟩

/-- One commit record (`com.CommitEntry`), with the fields read by `commitsPage`. -/
structure CommitEntry where
  AuthorEmail : String
  AuthorName : String
  CommitterEmail : String
  CommitterName : String
  ID : String
  Message : String
  Parent : String
  Timestamp : Int
  Tree : DBTree
deriving DecidableEq, Repr

/-- The zero value of `com.CommitEntry`. -/
instance : Inhabited CommitEntry := ⟨⟨"", "", "", "", "", "", "", 0, default⟩⟩

/-- One branch head (`com.BranchEntry`). -/
structure BranchEntry where
  Commit : String
  Description : String
deriving DecidableEq, Repr

instance : Inhabited BranchEntry := ⟨⟨"", ""⟩⟩

/-- The commit map of one database: commit id to commit record. -/
abbrev CommitMap := List (String × CommitEntry)

/-- The branch registry of one database: branch name to branch head. -/
abbrev BranchMap := List (String × BranchEntry)

/-- Go's two-result map read `v, ok := m[k]`. -/
def mapGet {α : Type} [Inhabited α] (m : List (String × α)) (k : String) : α × Bool :=
  match m.lookup k with
  | some v => (v, true)
  | none => (default, false)

/-- Go's one-result map read `m[k]`: the zero value when the key is missing. -/
def mapIndex {α : Type} [Inhabited α] (m : List (String × α)) (k : String) : α :=
  (mapGet m k).1

/-- Go's `len(m)`: the number of distinct keys. -/
def mapLen {α : Type} (m : List (String × α)) : Nat :=
  (m.map Prod.fst).dedup.length

/-- The entry type local to `commitsPage`. -/
structure HistEntry where
  AuthorEmail : String
  AuthorName : String
  AuthorUserName : String
  CommitterEmail : String
  CommitterName : String
  ID : String
  Message : String
  Parent : String
  Timestamp : Int
  Tree : DBTree
deriving DecidableEq, Repr

structure Auth0Set where
  CallbackURL : String
  ClientID : String
  Domain : String
deriving DecidableEq, Repr

instance : Inhabited Auth0Set := ⟨⟨"", "", ""⟩⟩

structure MetaInfo where
  Database : String
  ForkDatabase : String
  ForkFolder : String
  ForkOwner : String
  LoggedInUser : String
  Owner : String
  Server : String
  Title : String
deriving DecidableEq, Repr

instance : Inhabited MetaInfo := ⟨⟨"", "", "", "", "", "", "", ""⟩⟩

structure DBEntry where
  Sha256 : String
deriving DecidableEq, Repr

structure DBInfo where
  DBEntry : DBEntry
  DefaultTable : String
  Forks : Int
  FullDesc : String
  Stars : Int
  Tables : List String
deriving DecidableEq, Repr

/-- The database details filled by `com.DBDetails` (`com.SQLiteDBinfo`). -/
structure SQLiteDBinfo where
  Info : DBInfo
  MaxRows : Int
deriving DecidableEq, Repr

instance : Inhabited SQLiteDBinfo := ⟨⟨⟨⟨""⟩, "", 0, "", 0, []⟩, 0⟩⟩

/-- The `pageData` of `commitsPage`. -/
structure CommitsPageData where
  Auth0 : Auth0Set
  Branch : String
  Branches : List String
  DB : SQLiteDBinfo
  History : List HistEntry
  Meta : MetaInfo
deriving DecidableEq, Repr

/-! ## Collaborators and results -/

def StatusBadRequest : Nat := 400
def StatusInternalServerError : Nat := 500

/-- A recorded call to a collaborator of package `com`. -/
inductive Call where
  | GetOD
  | GetFormBranch
  | CheckDBExists
  | DBDetails
  | GetBranches
  | GetDefaultBranchName
  | GetCommitList
  | GetUsernameFromEmail (email : String)
deriving DecidableEq, Repr

/-- How a handler ends: `errorPage(w, r, httpcode, msg)` followed by `return`, the
page template executed with the page data, or a runtime fault (a method call on a
nil error). -/
inductive Outcome where
  | errorPage (httpcode : Nat) (msg : String)
  | rendered (pageData : CommitsPageData)
  | fault
deriving DecidableEq, Repr

/-- The collaborator calls made, in order, and how the handler ended. -/
structure Result where
  calls : List Call
  outcome : Outcome
deriving DecidableEq, Repr

/-- The request and the collaborators of `commitsPage`, as seen by one request.
`sessionUser` is `none` without a session, `some none` for a session without a
`UserName` attribute, `some (some u)` for a logged-in user `u`. -/
structure World where
  sessionUser : Option (Option String)
  GetOD : String × String × GoError
  GetFormBranch : String × GoError
  CheckDBExists : String → String → String → Bool × GoError
  DBDetails : String → String → String → String → String → SQLiteDBinfo × GoError
  GetBranches : String → String → String → BranchMap × GoError
  GetDefaultBranchName : String → String → String → String × GoError
  GetCommitList : String → String → String → CommitMap × GoError
  GetUsernameFromEmail : String → String × GoError
  Md2Html : String → String
  WebServer : String
  Auth0ClientID : String
  Auth0Domain : String

/-- The call `errorPage(w, r, httpcode, err.Error())`: evaluating `err.Error()` on a
nil error is a nil dereference, so nothing is rendered. -/
def errorPageErr (httpcode : Nat) (err : GoError) : Outcome :=
  match err with
  | some msg => Outcome.errorPage httpcode msg
  | none => Outcome.fault

/-- The `HistEntry` literal built from a commit record and its author user name
(lines 275-287 and 301-312). -/
def histEntry (w : World) (c : CommitEntry) (eml : String) : HistEntry :=
  { AuthorEmail := c.AuthorEmail
    AuthorName := c.AuthorName
    AuthorUserName := eml
    CommitterEmail := c.CommitterEmail
    CommitterName := c.CommitterName
    ID := c.ID
    Message := w.Md2Html c.Message
    Parent := c.Parent
    Timestamp := c.Timestamp
    Tree := c.Tree }

/-! ## `commitsPage` -/

/-- How the walk loop ends: with a `return` after an error page, or by leaving the
loop with the history assembled so far. -/
inductive LoopExit where
  | returned (o : Outcome)
  | done (history : List HistEntry)
deriving DecidableEq, Repr

/-- The loop `for commitData.Parent != "" { ... }` (lines 290-314). `fuel` bounds the
number of executions of the body; the loop condition is tested before the fuel. -/
def walkLoop (w : World) (rawList : CommitMap) :
    Nat → CommitEntry → List HistEntry → List Call → Option (List Call × LoopExit)
  | fuel, commitData, history, calls =>
    if commitData.Parent = "" then
      some (calls, LoopExit.done history)
    else
      match fuel with
      | 0 => none
      | fuel + 1 =>
        let (commitData, ok) := mapGet rawList commitData.Parent
        if !ok then
          some (calls, LoopExit.returned (Outcome.errorPage StatusInternalServerError
            "Internal error when retrieving commit data"))
        else
          let (eml, err) := w.GetUsernameFromEmail commitData.AuthorEmail
          let calls := calls ++ [Call.GetUsernameFromEmail commitData.AuthorEmail]
          if err.isSome then
            some (calls, LoopExit.returned (errorPageErr StatusInternalServerError err))
          else
            let newEntry := histEntry w commitData eml
            walkLoop w rawList fuel commitData (history ++ [newEntry]) calls

/-- The local state of `commitsPage` once the branch list is loaded (line 235). -/
structure Checked where
  loggedInUser : String
  dbOwner : String
  dbFolder : String
  dbName : String
  branchName : String
  branches : BranchMap
  DB : SQLiteDBinfo
  calls : List Call
deriving DecidableEq, Repr

/-- The local state of `commitsPage` once the head commit is resolved (line 258). -/
structure Resolved where
  loggedInUser : String
  dbOwner : String
  dbFolder : String
  dbName : String
  branchName : String
  branches : BranchMap
  DB : SQLiteDBinfo
  headID : String
  calls : List Call
deriving DecidableEq, Repr

/-- Lines 176-235 of `commitsPage`: session, request parsing, existence and access
checks, branch list. An early `return` is `Except.error`. -/
def commitsPageChecks (w : World) : Except Result Checked :=
  -- Retrieve session data (if any)
  let loggedInUser : String :=
    match w.sessionUser with
    | some (some u) => u
    | _ => ""
  -- Retrieve the database owner & name, and branch name
  let dbFolder := "/"
  let (dbOwner, dbName, err) := w.GetOD
  let calls := [Call.GetOD]
  if err.isSome then
    Except.error ⟨calls, errorPageErr StatusBadRequest err⟩
  else
  let (branchName, err) := w.GetFormBranch
  let calls := calls ++ [Call.GetFormBranch]
  if err.isSome then
    Except.error ⟨calls, errorPageErr StatusBadRequest err⟩
  else
  -- Validate the supplied information
  if dbOwner = "" ∨ dbName = "" then
    Except.error ⟨calls, Outcome.errorPage StatusBadRequest
      "Missing database owner or database name"⟩
  else
  -- Check if the requested database exists
  let (exists_, err) := w.CheckDBExists dbOwner dbFolder dbName
  let calls := calls ++ [Call.CheckDBExists]
  if err.isSome then
    Except.error ⟨calls, errorPageErr StatusBadRequest err⟩
  else
  if !exists_ then
    Except.error ⟨calls, Outcome.errorPage StatusBadRequest
      ("Database '" ++ dbOwner ++ dbFolder ++ dbName ++ "' doesn't exist")⟩
  else
  -- Check if the user has access to the requested database
  let (db, err) := w.DBDetails loggedInUser dbOwner "/" dbName ""
  let calls := calls ++ [Call.DBDetails]
  if err.isSome then
    Except.error ⟨calls, errorPageErr StatusBadRequest err⟩
  else
  -- Read the branch heads list from the database
  let (branches, err) := w.GetBranches dbOwner dbFolder dbName
  let calls := calls ++ [Call.GetBranches]
  if err.isSome then
    Except.error ⟨calls, errorPageErr StatusInternalServerError err⟩
  else
    Except.ok ⟨loggedInUser, dbOwner, dbFolder, dbName, branchName, branches, db, calls⟩

/-- Lines 237-258 of `commitsPage`: default-branch fallback and head commit of the
branch. At this point the variable `err` is nil (every earlier error returned); it
is assigned again only by the default-branch lookup, so the test of line 240 is a
no-op when that lookup is skipped. -/
def commitsPageHead (w : World) (ck : Checked) : Except Result Resolved :=
  let err : GoError := none
  -- If no branch name was given, we use the default branch
  let (branchName, err, calls) :=
    if ck.branchName = "" then
      let (d, e) := w.GetDefaultBranchName ck.dbOwner ck.dbFolder ck.dbName
      (d, e, ck.calls ++ [Call.GetDefaultBranchName])
    else
      (ck.branchName, err, ck.calls)
  if err.isSome then
    Except.error ⟨calls, errorPageErr StatusInternalServerError err⟩
  else
  -- Work out the head commit ID for the requested branch
  let (headCom, ok) := mapGet ck.branches branchName
  let headID := headCom.Commit
  if !ok then
    -- Unknown branch
    Except.error ⟨calls, Outcome.errorPage StatusInternalServerError
      ("Branch '" ++ branchName ++ "' not found")⟩
  else
  if headID = "" then
    -- The requested branch wasn't found.  Bad request?
    Except.error ⟨calls, errorPageErr StatusBadRequest err⟩
  else
    Except.ok ⟨ck.loggedInUser, ck.dbOwner, ck.dbFolder, ck.dbName, branchName, ck.branches,
      ck.DB, headID, calls⟩

/-- Lines 176-258 of `commitsPage`: the checks, then the head commit. -/
def commitsPageResolve (w : World) : Except Result Resolved :=
  match commitsPageChecks w with
  | Except.error r => Except.error r
  | Except.ok ck => commitsPageHead w ck

/-- Lines 316-327 of `commitsPage`: the page data handed to the template. The
branch names are listed in the order of the association list (Go ranges over the
map in an unspecified order). -/
def fillPageData (w : World) (s : Resolved) (history : List HistEntry) : CommitsPageData :=
  { Auth0 :=
      { CallbackURL := "https://" ++ w.WebServer ++ "/x/callback"
        ClientID := w.Auth0ClientID
        Domain := w.Auth0Domain }
    Branch := s.branchName
    Branches := s.branches.map Prod.fst
    DB := s.DB
    History := history
    Meta :=
      { (default : MetaInfo) with
        Title := "Commits settings"
        LoggedInUser := s.loggedInUser
        Owner := s.dbOwner
        Database := s.dbName } }

/-- Lines 260-334 of `commitsPage`: load the commit list, walk the history back from
the head commit, fill the metadata and render. -/
def commitsPageWalk (w : World) (s : Resolved) (fuel : Nat) : Option Result :=
  let (rawList, err) := w.GetCommitList s.dbOwner s.dbFolder s.dbName
  let calls := s.calls ++ [Call.GetCommitList]
  if err.isSome then
    some ⟨calls, errorPageErr StatusInternalServerError err⟩
  else
  let (eml, err) := w.GetUsernameFromEmail (mapIndex rawList s.headID).AuthorEmail
  let calls := calls ++ [Call.GetUsernameFromEmail (mapIndex rawList s.headID).AuthorEmail]
  if err.isSome then
    some ⟨calls, errorPageErr StatusInternalServerError err⟩
  else
  let history := [histEntry w (mapIndex rawList s.headID) eml]
  let commitData : CommitEntry :=
    { (default : CommitEntry) with Parent := (mapIndex rawList s.headID).Parent }
  match walkLoop w rawList fuel commitData history calls with
  | none => none
  | some (calls, LoopExit.returned o) => some ⟨calls, o⟩
  | some (calls, LoopExit.done history) =>
    -- Fill out the metadata, add Auth0 info, render the page
    some ⟨calls, Outcome.rendered (fillPageData w s history)⟩

/-- The handler `commitsPage` (lines 154-335). -/
def commitsPage (w : World) (fuel : Nat) : Option Result :=
  match commitsPageResolve w with
  | Except.error r => some r
  | Except.ok s => commitsPageWalk w s fuel


/-! ## Parent chains -/

/-- `Follows rawList p cs`: the list `cs` holds the commits met, in order, by reading
the map at the reference `p` and then at the parent reference of each commit met;
it may stop after any of them. -/
def Follows (rawList : CommitMap) : String → List CommitEntry → Prop
  | _, [] => True
  | p, c :: rest => p ≠ "" ∧ rawList.lookup p = some c ∧ Follows rawList c.Parent rest

instance decFollows (rawList : CommitMap) : ∀ p cs, Decidable (Follows rawList p cs)
  | _, [] => isTrue trivial
  | p, c :: rest =>
    have := decFollows rawList c.Parent rest
    inferInstanceAs (Decidable (p ≠ "" ∧ rawList.lookup p = some c ∧ Follows rawList c.Parent rest))

/-- The reference a walk stands at after meeting `cs` from `p`: the parent
reference of the last commit met, or `p` itself when none was met. -/
def endRef (p : String) : List CommitEntry → String
  | [] => p
  | c :: rest => endRef c.Parent rest

/-- The references read to meet `cs` from `p`, one per commit. -/
def refsRead (p : String) : List CommitEntry → List String
  | [] => []
  | c :: rest => p :: refsRead c.Parent rest

/-- A reference at which the walk ends: empty (root reached) or missing from the map. -/
def Terminal (rawList : CommitMap) (p : String) : Prop :=
  p = "" ∨ rawList.lookup p = none

instance (rawList : CommitMap) (p : String) : Decidable (Terminal rawList p) :=
  inferInstanceAs (Decidable (p = "" ∨ rawList.lookup p = none))

/-- The value of `commitData` after the loop body ran once for each commit of `cs`. -/
def lastCommit (cd : CommitEntry) : List CommitEntry → CommitEntry
  | [] => cd
  | c :: rest => lastCommit c rest

/-- The history entry the walk builds for a commit. -/
def enrich (w : World) (c : CommitEntry) : HistEntry :=
  histEntry w c (w.GetUsernameFromEmail c.AuthorEmail).1

/-- The identity lookup the walk records for a commit. -/
def userCall (c : CommitEntry) : Call :=
  Call.GetUsernameFromEmail c.AuthorEmail

/-- The value of `commitData` before the loop (line 289). -/
def headData (c : CommitEntry) : CommitEntry :=
  { (default : CommitEntry) with Parent := c.Parent }


/-! ## Example inputs -/

/-- A commit record with the given id, parent reference and author email. -/
def exCommit (id parent email : String) : CommitEntry :=
  { AuthorEmail := email
    AuthorName := ""
    CommitterEmail := ""
    CommitterName := ""
    ID := id
    Message := "commit " ++ id
    Parent := parent
    Timestamp := 0
    Tree := default }

/-- The commit map of the scenario: `c3 -> c2 -> c1`, `c1` being the root. -/
def exLinear : CommitMap :=
  [("c3", exCommit "c3" "c2" "a@example.org"), ("c2", exCommit "c2" "c1" "b@example.org"),
    ("c1", exCommit "c1" "" "c@example.org")]

/-- The same map with commit `c2` omitted. -/
def exBroken : CommitMap :=
  [("c3", exCommit "c3" "c2" "a@example.org"), ("c1", exCommit "c1" "" "c@example.org")]

/-- A corrupted map whose parent references form the cycle `c3 -> c2 -> c3`. -/
def exCycle : CommitMap :=
  [("c3", exCommit "c3" "c2" "a@example.org"), ("c2", exCommit "c2" "c3" "b@example.org")]

/-- A map that does not hold the head commit `c3`. -/
def exNoHead : CommitMap :=
  [("c1", exCommit "c1" "" "c@example.org")]

/-- A request for `alice/db.sqlite` on the given branch, with the branches
`main -> c3` and `empty -> ""`, default branch `main`, the given commit map, and an
identity lookup that fails for `b@example.org` when `strict` is set. -/
def exWorld (branch : String) (rawList : CommitMap) (strict : Bool) : World :=
  { sessionUser := none
    GetOD := ("alice", "db.sqlite", none)
    GetFormBranch := (branch, none)
    CheckDBExists := fun _ _ _ => (true, none)
    DBDetails := fun _ _ _ _ _ => (default, none)
    GetBranches := fun _ _ _ => ([("main", ⟨"c3", ""⟩), ("empty", ⟨"", ""⟩)], none)
    GetDefaultBranchName := fun _ _ _ => ("main", none)
    GetCommitList := fun _ _ _ => (rawList, none)
    GetUsernameFromEmail := fun e =>
      if strict && e == "b@example.org" then ("", some "no such user") else ("u-" ++ e, none)
    Md2Html := fun m => "<p>" ++ m ++ "</p>"
    WebServer := "dbhub.io"
    Auth0ClientID := "client"
    Auth0Domain := "auth.example.org" }

/-- The state of `commitsPage` at line 258 for `exWorld` on branch `main`. -/
def exResolved (branch : String) (calls : List Call) : Resolved :=
  { loggedInUser := ""
    dbOwner := "alice"
    dbFolder := "/"
    dbName := "db.sqlite"
    branchName := branch
    branches := [("main", ⟨"c3", ""⟩), ("empty", ⟨"", ""⟩)]
    DB := default
    headID := "c3"
    calls := calls }

/-- Go's `%d` verb for an `int`: the decimal digits, after a `-` when negative. -/
def fmtInt (n : Int) : String :=
  toString n

/-- The namespace tag of the row-data cache key built by `databasePage` (line 472):
`fmt.Sprintf("tablejson/%s/%s/%d", sortCol, sortDir, rowOffset)`. -/
def tableRowsTag (sortCol sortDir : String) (rowOffset : Int) : String :=
  "tablejson/" ++ sortCol ++ "/" ++ sortDir ++ "/" ++ fmtInt rowOffset

/-- The value of a decimal digit character, the inverse of `Nat.digitChar` below ten. -/
def digitValue (c : Char) : Nat :=
  c.toNat - 48

/-- The decimal digits of a natural number as printed, least significant first: the
single digit `0` for zero. -/
def printedDigits (n : Nat) : List Nat :=
  if n = 0 then [0] else Nat.digits 10 n

/-! ## `databasePage` -/

/-- A cache key. The key derivation functions of package `com` are modelled below as
the list of the components the key is derived from. -/
abbrev CacheKey := List String

/-- Modelled from the spec: `com.MetadataCacheKey` is not among the sources. The
metadata key is derived from a fixed namespace tag, the viewer's identity (the empty
string being the marker of an anonymous viewer), owner, folder, database name and
commit identifier; identical tuples give identical keys and any differing element
gives a different key. The key is kept as the list of these components. -/
def MetadataCacheKey (tag loggedInUser dbOwner dbFolder dbName commitID : String) : CacheKey :=
  [tag, loggedInUser, dbOwner, dbFolder, dbName, commitID]

/-- Modelled from the spec: `com.TableRowsCacheKey` is not among the sources. The
row-data key is derived from the namespace tag of the operation shape, the same
identity, owner, folder, database and commit tuple, the table, and the effective
maximum number of rows. The key is kept as the list of these components. -/
def TableRowsCacheKey (tag loggedInUser dbOwner dbFolder dbName commitID dbTable : String)
    (rowCount : Int) : CacheKey :=
  [tag, loggedInUser, dbOwner, dbFolder, dbName, commitID, dbTable, fmtInt rowCount]

/-- A page of table rows (`com.SQLiteRecordSet`). -/
structure SQLiteRecordSet where
  ColNames : List String
  Offset : Int
  Records : List (List String)
  SortCol : String
  SortDir : String
  Tablename : String
  TotalRows : Int
deriving DecidableEq, Repr

instance : Inhabited SQLiteRecordSet := ⟨⟨[], 0, [], "", "", "", 0⟩⟩

/-- The `pageData` of `databasePage`. -/
structure DatabasePageData where
  Auth0 : Auth0Set
  Data : SQLiteRecordSet
  DB : SQLiteDBinfo
  Meta : MetaInfo
  MyStar : Bool
deriving DecidableEq, Repr

instance : Inhabited DatabasePageData := ⟨⟨default, default, default, default, false⟩⟩

/-- The arguments of `databasePage` other than the response writer and the request. -/
structure DatabaseRequest where
  dbOwner : String
  dbName : String
  commitID : String
  dbTable : String
  sortCol : String
  sortDir : String
  rowOffset : Int
deriving DecidableEq, Repr

/-- What a cache read decodes into: the whole page data, or the table rows. -/
inductive CacheTarget where
  | page
  | rows
deriving DecidableEq, Repr

/-- A recorded call of `databasePage` to a collaborator, or a line it logs. A cache
read is recorded with its key, its target and the found flag it returned; a cache
write with its key, the kind of value written and the expiry passed. -/
inductive DbCall where
  | DBDetails
  | CheckDBStarred
  | PrefUserMaxRows
  | GetCachedData (key : CacheKey) (target : CacheTarget) (found : Bool)
  | SocialStats
  | OpenMinioObject
  | Tables
  | Columns
  | ValidatePGTable
  | ForkedFrom
  | CacheData (key : CacheKey) (target : CacheTarget) (ttl : Nat)
  | ReadSQLiteDB
  | LogCacheGetError (err : String)
  | LogCachePutError (err : String)
  | LogTableNotPresent (dbOwner dbName dbTable : String)
  | LogColumnsError (dbTable err : String)
  | LogValidationFailed (dbTable err : String)
deriving DecidableEq, Repr

/-- Whether a recorded item is a logged line rather than a collaborator call. -/
def DbCall.isLog : DbCall → Bool
  | DbCall.LogCacheGetError _ => true
  | DbCall.LogCachePutError _ => true
  | DbCall.LogTableNotPresent _ _ _ => true
  | DbCall.LogColumnsError _ _ => true
  | DbCall.LogValidationFailed _ _ => true
  | _ => false

/-- Whether a recorded item is a cache write. -/
def DbCall.isPut : DbCall → Bool
  | DbCall.CacheData _ _ _ => true
  | _ => false

/-- Whether a recorded item is a cache read. -/
def DbCall.isGet : DbCall → Bool
  | DbCall.GetCachedData _ _ _ => true
  | _ => false

/-- Whether a recorded item is the logged line of the failed table check (line 547). -/
def DbCall.isTableLog : DbCall → Bool
  | DbCall.LogTableNotPresent _ _ _ => true
  | _ => false

/-- How `databasePage` ends: `errorPage(w, r, httpcode, msg)` followed by `return`,
the page template executed with the page data, or a runtime fault (an index or a
slice bound out of range). -/
inductive DbOutcome where
  | errorPage (httpcode : Nat) (msg : String)
  | rendered (pageData : DatabasePageData)
  | fault
deriving DecidableEq, Repr

/-- The calls made and lines logged, in order, and how the handler ended. -/
structure DbResult where
  calls : List DbCall
  outcome : DbOutcome
deriving DecidableEq, Repr

/-- The result of a later part of the handler, after the calls made before it. -/
def DbResult.after (calls : List DbCall) (r : DbResult) : DbResult :=
  ⟨calls ++ r.calls, r.outcome⟩

/-- A handle on an opened SQLite database. -/
abbrev SQLiteHandle := String

/-- The request and the collaborators of `databasePage`, as seen by one request. A
cache read answers, for a key, the found flag, the error, and what it decodes into
its target. The row-data key is read at two places, line 482 and line 628, and each
read has its own answer: another request may write the key in between. The constants
`com.DefaultNumDisplayRows`, `com.MinioFolderChars` and `com.CacheTime` are fields. -/
structure DBWorld where
  sessionUser : Option (Option String)
  DBDetails : String → String → String → String → String → SQLiteDBinfo × GoError
  CheckDBStarred : String → String → String → String → Bool × GoError
  PrefUserMaxRows : String → Int
  DefaultNumDisplayRows : Int
  GetCachedPage : CacheKey → Bool × GoError × (DatabasePageData → DatabasePageData)
  GetCachedRows : CacheKey → Bool × GoError × (SQLiteRecordSet → SQLiteRecordSet)
  GetCachedRowsAgain : CacheKey → Bool × GoError × (SQLiteRecordSet → SQLiteRecordSet)
  SocialStats : String → String → String → Int × Int × Int × GoError
  MinioFolderChars : Nat
  OpenMinioObject : String → String → SQLiteHandle × String × GoError
  Tables : SQLiteHandle → String → List String × GoError
  Columns : SQLiteHandle → String → String → List String × GoError
  ValidatePGTable : String → GoError
  ForkedFrom : String → String → String → String × String × String × GoError
  Md2Html : String → String
  WebServer : String
  Auth0ClientID : String
  Auth0Domain : String
  CacheDataPage : CacheKey → DatabasePageData → Nat → GoError
  CacheDataRows : CacheKey → SQLiteRecordSet → Nat → GoError
  CacheTime : Nat
  ReadSQLiteDB : SQLiteHandle → String → Int → String → String → Int → SQLiteRecordSet × GoError

/-- The viewer of a request (lines 423-434): the user name of the session, empty
without a session or without a user name in it. -/
def viewerOf (w : DBWorld) : String :=
  match w.sessionUser with
  | some (some u) => u
  | _ => ""

/-- The call `errorPage(w, r, httpcode, err.Error())` of `databasePage`. -/
def dbErrorPageErr (httpcode : Nat) (err : GoError) : DbOutcome :=
  match err with
  | some msg => DbOutcome.errorPage httpcode msg
  | none => DbOutcome.fault

/-- The line logged after a cache read when it reported an error (lines 477-479,
483-485, 629-631). -/
def logCacheGet (err : GoError) : List DbCall :=
  match err with
  | some msg => [DbCall.LogCacheGetError msg]
  | none => []

/-- The line logged after a cache write when it reported an error (lines 623-625,
646-648). -/
def logCachePut (err : GoError) : List DbCall :=
  match err with
  | some msg => [DbCall.LogCachePutError msg]
  | none => []

/-- The local state of `databasePage` once the cache keys are derived (line 473). -/
structure Prepared where
  loggedInUser : String
  myStar : Bool
  dbTable : String
  tempMaxRows : Int
  mdataCacheKey : CacheKey
  rowCacheKey : CacheKey
  pageData : DatabasePageData
  calls : List DbCall

/-- Lines 423-473 of `databasePage`: session, access check, star status, default
table, row limit and cache keys. An early `return` is `Except.error`. -/
def databasePagePrepare (w : DBWorld) (q : DatabaseRequest) : Except DbResult Prepared :=
  -- Retrieve session data (if any)
  let loggedInUser : String := viewerOf w
  let pageData : DatabasePageData :=
    { (default : DatabasePageData) with
      Meta := { (default : MetaInfo) with LoggedInUser := loggedInUser } }
  -- Check if the user has access to the requested database
  let (db, err) := w.DBDetails loggedInUser q.dbOwner "/" q.dbName q.commitID
  let pageData := { pageData with DB := db }
  let calls := [DbCall.DBDetails]
  if err.isSome then
    Except.error ⟨calls, dbErrorPageErr StatusBadRequest err⟩
  else
  -- Check if the database was starred by the logged in user
  let (myStar, err) := w.CheckDBStarred loggedInUser q.dbOwner "/" q.dbName
  let calls := calls ++ [DbCall.CheckDBStarred]
  if err.isSome then
    Except.error ⟨calls, DbOutcome.errorPage StatusInternalServerError
      "Couldn't retrieve latest social stats"⟩
  else
  -- If a specific table wasn't requested, use the user specified default (if present)
  let dbTable := if q.dbTable = "" then pageData.DB.Info.DefaultTable else q.dbTable
  -- Determine the number of rows to display
  let (tempMaxRows, calls) :=
    if loggedInUser ≠ "" then
      (w.PrefUserMaxRows loggedInUser, calls ++ [DbCall.PrefUserMaxRows])
    else
      (w.DefaultNumDisplayRows, calls)
  let pageData := { pageData with DB := { pageData.DB with MaxRows := tempMaxRows } }
  -- Generate predictable cache keys for the metadata and sqlite table rows
  let mdataCacheKey := MetadataCacheKey "dwndb-meta" loggedInUser q.dbOwner "/" q.dbName
    q.commitID
  let rowCacheKey := TableRowsCacheKey (tableRowsTag q.sortCol q.sortDir q.rowOffset)
    loggedInUser q.dbOwner "/" q.dbName q.commitID dbTable pageData.DB.MaxRows
  Except.ok ⟨loggedInUser, myStar, dbTable, tempMaxRows, mdataCacheKey, rowCacheKey, pageData,
    calls⟩

/-- Lines 475-512 of `databasePage`: the cached version of the page. `Except.error`
is a `return` (the page rendered from the caches, or an error page); `Except.ok` is
the fall through to the rest of the function with the page data as it stands. The
calls listed are those of these lines. -/
def databasePageCached (w : DBWorld) (q : DatabaseRequest) (p : Prepared) :
    Except DbResult (DatabasePageData × List DbCall) :=
  -- If a cached version of the page data exists, use it
  let (ok, err, decode) := w.GetCachedPage p.mdataCacheKey
  let pageData := decode p.pageData
  let calls := [DbCall.GetCachedData p.mdataCacheKey CacheTarget.page ok] ++ logCacheGet err
  if ok then
    -- Grab the cached table data as well
    let (ok, err, decode) := w.GetCachedRows p.rowCacheKey
    let pageData := { pageData with Data := decode pageData.Data }
    let calls := calls ++ [DbCall.GetCachedData p.rowCacheKey CacheTarget.rows ok] ++
      logCacheGet err
    -- Restore the correct MaxRow value
    let pageData := { pageData with DB := { pageData.DB with MaxRows := p.tempMaxRows } }
    -- Restore the correct username
    let pageData :=
      { pageData with Meta := { pageData.Meta with LoggedInUser := p.loggedInUser } }
    -- Get latest star and fork count
    let (_, stars, forks, err) := w.SocialStats q.dbOwner "/" q.dbName
    let pageData :=
      { pageData with
        DB := { pageData.DB with Info := { pageData.DB.Info with Stars := stars, Forks := forks } } }
    let calls := calls ++ [DbCall.SocialStats]
    if err.isSome then
      Except.error ⟨calls, dbErrorPageErr StatusInternalServerError err⟩
    else
    -- Render the page (using the caches)
    if ok then
      Except.error ⟨calls, DbOutcome.rendered pageData⟩
    else
      Except.ok (pageData, calls)
  else
    Except.ok (pageData, calls)

/-- The local state of `databasePage` once the table name is validated (line 592). -/
structure Opened where
  sdb : SQLiteHandle
  dbTable : String
  sortCol : String
  pageData : DatabasePageData
  calls : List DbCall

/-- Lines 559-578 of `databasePage`: a requested sort column that is not a column
of the table falls back to no sorting. The calls listed are those of these lines. -/
def databasePageSortCol (w : DBWorld) (q : DatabaseRequest) (sdb : SQLiteHandle)
    (dbTable : String) : Except DbResult (String × List DbCall) :=
  -- If a sort column was requested, verify it exists
  if q.sortCol ≠ "" then
    let (colList, err) := w.Columns sdb "" dbTable
    let calls := [DbCall.Columns]
    match err with
    | some msg =>
      Except.error ⟨calls ++ [DbCall.LogColumnsError dbTable msg],
        DbOutcome.errorPage StatusInternalServerError "Error when reading from the database"⟩
    | none =>
      -- The requested sort column doesn't exist, so we fall back to no sorting
      Except.ok (if q.sortCol ∈ colList then q.sortCol else "", calls)
  else
    Except.ok (q.sortCol, [])

/-- Lines 580-592 of `databasePage`: validate the table name. The AngularJS
placeholder requested by search bots is not logged. -/
def databasePageValidate (w : DBWorld) (dbTable : String) : Except DbResult (List DbCall) :=
  let err := w.ValidatePGTable dbTable
  let calls := [DbCall.ValidatePGTable]
  match err with
  | some msg =>
    Except.error ⟨calls ++
        (if dbTable ≠ "\x7b\x7b db.Tablename \x7d\x7d" then
          [DbCall.LogValidationFailed dbTable msg] else []),
      DbOutcome.errorPage StatusBadRequest "Validation failed for table name"⟩
  | none => Except.ok calls

/-- Lines 514-592 of `databasePage`: open the database object, list its tables,
check the requested table, fall back to the first table, check the sort column and
validate the table name. Slicing the SHA256 below `MinioFolderChars` characters and
indexing an empty table list are runtime faults. The calls listed are those of these
lines. -/
def databasePageOpen (w : DBWorld) (q : DatabaseRequest) (p : Prepared)
    (pageData : DatabasePageData) : Except DbResult Opened :=
  -- Get a handle from Minio for the database object
  let sha := pageData.DB.Info.DBEntry.Sha256
  if sha.length < w.MinioFolderChars then
    Except.error ⟨[], DbOutcome.fault⟩
  else
  let (sdb, _, err) := w.OpenMinioObject (sha.take w.MinioFolderChars)
    (sha.drop w.MinioFolderChars)
  let calls := [DbCall.OpenMinioObject]
  if err.isSome then
    Except.error ⟨calls, dbErrorPageErr StatusInternalServerError err⟩
  else
  -- Retrieve the list of tables in the database
  let (tables, err) := w.Tables sdb q.dbName
  let calls := calls ++ [DbCall.Tables]
  if err.isSome then
    Except.error ⟨calls, dbErrorPageErr StatusInternalServerError err⟩
  else
  let pageData :=
    { pageData with DB := { pageData.DB with Info := { pageData.DB.Info with Tables := tables } } }
  -- If a specific table was requested, check that it's present
  if p.dbTable ≠ "" ∧ p.dbTable ∉ tables then
    -- The requested table doesn't exist in the database
    Except.error ⟨calls ++ [DbCall.LogTableNotPresent q.dbOwner q.dbName p.dbTable],
      DbOutcome.errorPage StatusBadRequest "Requested table not present"⟩
  else
  -- If a specific table wasn't requested, use the first table in the database
  match (if p.dbTable = "" then pageData.DB.Info.Tables.head? else some p.dbTable) with
  | none => Except.error ⟨calls, DbOutcome.fault⟩
  | some dbTable =>
    match databasePageSortCol w q sdb dbTable with
    | Except.error r => Except.error (r.after calls)
    | Except.ok (sortCol, calls') =>
      match databasePageValidate w dbTable with
      | Except.error r => Except.error (r.after (calls ++ calls'))
      | Except.ok calls'' =>
        Except.ok ⟨sdb, dbTable, sortCol, pageData, calls ++ calls' ++ calls''⟩

/-- Lines 594-619 of `databasePage`: metadata fields, fork information, Auth0 info,
star status and rendered description. The calls listed are those of these lines. -/
def databasePageFill (w : DBWorld) (q : DatabaseRequest) (p : Prepared) (o : Opened) :
    Except DbResult (DatabasePageData × List DbCall) :=
  -- Fill out various metadata fields
  let pageData := o.pageData
  let pageData :=
    { pageData with
      Meta :=
        { pageData.Meta with
          Owner := q.dbOwner
          Database := q.dbName
          Server := w.WebServer
          Title := q.dbOwner ++ " / " ++ q.dbName } }
  -- Retrieve the "forked from" information
  let (frkOwn, frkFol, frkDB, err) := w.ForkedFrom q.dbOwner "/" q.dbName
  let calls := [DbCall.ForkedFrom]
  if err.isSome then
    Except.error ⟨calls, DbOutcome.errorPage StatusInternalServerError "Database query failure"⟩
  else
  let pageData :=
    { pageData with
      Meta :=
        { pageData.Meta with ForkOwner := frkOwn, ForkFolder := frkFol, ForkDatabase := frkDB } }
  -- Add Auth0 info to the page data
  let pageData :=
    { pageData with
      Auth0 :=
        { CallbackURL := "https://" ++ w.WebServer ++ "/x/callback"
          ClientID := w.Auth0ClientID
          Domain := w.Auth0Domain } }
  -- Update database star status for the logged in user
  let pageData := { pageData with MyStar := p.myStar }
  -- Render the full description as markdown / CommonMark
  let pageData :=
    { pageData with
      DB :=
        { pageData.DB with
          Info := { pageData.DB.Info with FullDesc := w.Md2Html pageData.DB.Info.FullDesc } } }
  Except.ok (pageData, calls)

/-- Lines 621-656 of `databasePage`: cache the page metadata, look the table rows up
in the cache with the separate read of line 628, read them from the database on a
miss, cache them and render the page. The calls listed are those of these lines. -/
def databasePageStore (w : DBWorld) (q : DatabaseRequest) (p : Prepared) (o : Opened)
    (pageData : DatabasePageData) : DbResult :=
  -- Cache the page metadata
  let err := w.CacheDataPage p.mdataCacheKey pageData w.CacheTime
  let calls := [DbCall.CacheData p.mdataCacheKey CacheTarget.page w.CacheTime] ++
    logCachePut err
  -- Grab the cached table data if it's available
  let (ok, err, decode) := w.GetCachedRowsAgain p.rowCacheKey
  let pageData := { pageData with Data := decode pageData.Data }
  let calls := calls ++ [DbCall.GetCachedData p.rowCacheKey CacheTarget.rows ok] ++
    logCacheGet err
  -- If the row data wasn't in cache, read it from the database
  let readStep : Except DbResult (DatabasePageData × List DbCall) :=
    if !ok then
      let (data, err) := w.ReadSQLiteDB o.sdb o.dbTable pageData.DB.MaxRows o.sortCol q.sortDir
        q.rowOffset
      let pageData := { pageData with Data := data }
      let calls := calls ++ [DbCall.ReadSQLiteDB]
      if err.isSome then
        -- Some kind of error when reading the database data
        Except.error ⟨calls, dbErrorPageErr StatusBadRequest err⟩
      else
        Except.ok ({ pageData with Data := { pageData.Data with Tablename := o.dbTable } }, calls)
    else
      Except.ok (pageData, calls)
  match readStep with
  | Except.error r => r
  | Except.ok (pageData, calls) =>
    -- Cache the table row data
    let err := w.CacheDataRows p.rowCacheKey pageData.Data w.CacheTime
    let calls := calls ++ [DbCall.CacheData p.rowCacheKey CacheTarget.rows w.CacheTime] ++
      logCachePut err
    -- Render the page
    ⟨calls, DbOutcome.rendered pageData⟩

/-- Lines 514-656 of `databasePage`: the computation of the page from the database
file, which is the three parts above in sequence. -/
def databasePageFresh (w : DBWorld) (q : DatabaseRequest) (p : Prepared)
    (pageData : DatabasePageData) : DbResult :=
  match databasePageOpen w q p pageData with
  | Except.error r => r
  | Except.ok o =>
    match databasePageFill w q p o with
    | Except.error r => r.after o.calls
    | Except.ok (pageData, calls) =>
      (databasePageStore w q p o pageData).after (o.calls ++ calls)

/-- The handler `databasePage` (lines 412-656): the parts above in sequence, each
`return` ending the handler with the calls made so far. -/
def databasePage (w : DBWorld) (q : DatabaseRequest) : DbResult :=
  match databasePagePrepare w q with
  | Except.error r => r
  | Except.ok p =>
    match databasePageCached w q p with
    | Except.error r => r.after p.calls
    | Except.ok (pageData, calls) =>
      (databasePageFresh w q p pageData).after (p.calls ++ calls)

/-- The row limit of a request: the preference of a logged-in viewer, the default
number of display rows for an anonymous one. -/
def rowLimitOf (w : DBWorld) : Int :=
  if viewerOf w ≠ "" then w.PrefUserMaxRows (viewerOf w) else w.DefaultNumDisplayRows

/-- The world in which every cache read reports no error, with the same found flags
and decoded data. -/
def silenceGets (w : DBWorld) : DBWorld :=
  { w with
    GetCachedPage := fun k => ((w.GetCachedPage k).1, none, (w.GetCachedPage k).2.2)
    GetCachedRows := fun k => ((w.GetCachedRows k).1, none, (w.GetCachedRows k).2.2)
    GetCachedRowsAgain := fun k =>
      ((w.GetCachedRowsAgain k).1, none, (w.GetCachedRowsAgain k).2.2) }

/-- The calls of a trace, without the logged lines. -/
def callsOnly (calls : List DbCall) : List DbCall :=
  calls.filter (fun c => !c.isLog)

/-! ## Example inputs for `databasePage` -/

/-- A cached page payload, stored for the viewer `bob` with 99 rows per page. -/
def exCachedPage : DatabasePageData :=
  { Auth0 := default
    Data := default
    DB := ⟨⟨⟨"0123456789abcdef"⟩, "t1", 1, "cached", 2, ["t1", "t2"]⟩, 99⟩
    Meta :=
      { (default : MetaInfo) with
        LoggedInUser := "bob"
        Owner := "alice"
        Database := "db.sqlite" }
    MyStar := true }

/-- Cached rows of table `t1`. -/
def exCachedRows : SQLiteRecordSet :=
  ⟨["id"], 0, [["1"], ["2"]], "id", "ASC", "t1", 2⟩

/-- The rows read from the database file. -/
def exFreshRows : SQLiteRecordSet :=
  ⟨["id"], 0, [["7"]], "id", "ASC", "", 1⟩

/-- A world for `alice/db.sqlite` at commit `c3`: the viewer is `user` (anonymous
when `none`), the metadata key hits according to `metaHit` and both reads of the
row-data key according to `rowHit`, every cache read reports `getErr`, every cache
write reports `putErr`, and the star lookup answers `starred`. -/
def exDBWorld (user : Option String) (metaHit rowHit : Bool) (getErr putErr : GoError)
    (starred : Bool) : DBWorld :=
  { sessionUser := user.map some
    DBDetails := fun _ _ _ _ _ =>
      (⟨⟨⟨"0123456789abcdef"⟩, "t1", 0, "fresh", 0, []⟩, 0⟩, none)
    CheckDBStarred := fun _ _ _ _ => (starred, none)
    PrefUserMaxRows := fun _ => 25
    DefaultNumDisplayRows := 10
    GetCachedPage := fun _ => (metaHit, getErr, if metaHit then fun _ => exCachedPage else id)
    GetCachedRows := fun _ => (rowHit, getErr, if rowHit then fun _ => exCachedRows else id)
    GetCachedRowsAgain := fun _ =>
      (rowHit, getErr, if rowHit then fun _ => exCachedRows else id)
    SocialStats := fun _ _ _ => (3, 5, 7, none)
    MinioFolderChars := 6
    OpenMinioObject := fun _ _ => ("sdb", "/tmp/db", none)
    Tables := fun _ _ => (["t1", "t2"], none)
    Columns := fun _ _ _ => (["id", "name"], none)
    ValidatePGTable := fun _ => none
    ForkedFrom := fun _ _ _ => ("", "", "", none)
    Md2Html := fun m => "<p>" ++ m ++ "</p>"
    WebServer := "dbhub.io"
    Auth0ClientID := "client"
    Auth0Domain := "auth.example.org"
    CacheDataPage := fun _ _ _ => putErr
    CacheDataRows := fun _ _ _ => putErr
    CacheTime := 1800
    ReadSQLiteDB := fun _ _ _ _ _ _ => (exFreshRows, none) }

/-- The world of the viewer `carol` in which the metadata key hits, the read of the
row-data key at line 482 misses, and the read at line 628 hits: another request has
stored the rows in between. -/
def exRaceWorld : DBWorld :=
  { exDBWorld (some "carol") true false none none false with
    GetCachedRowsAgain := fun _ => (true, none, fun _ => exCachedRows) }

/-- A request for table `t1` of `alice/db.sqlite` at commit `c3`, sorted by `id`. -/
def exRequest : DatabaseRequest :=
  ⟨"alice", "db.sqlite", "c3", "t1", "id", "ASC", 0⟩

/-! ## Specification-side descriptions of the cached path -/

/-- The page data after a metadata hit (lines 480-494): the decoded page and rows,
with the row limit and the user name of this request restored and the star and fork
counts just returned by `SocialStats`. -/
def cachedPageData (w : DBWorld) (q : DatabaseRequest) (p : Prepared) : DatabasePageData :=
  let decoded := (w.GetCachedPage p.mdataCacheKey).2.2 p.pageData
  { decoded with
    Data := (w.GetCachedRows p.rowCacheKey).2.2 decoded.Data
    DB :=
      { decoded.DB with
        MaxRows := p.tempMaxRows
        Info :=
          { decoded.DB.Info with
            Stars := (w.SocialStats q.dbOwner "/" q.dbName).2.1
            Forks := (w.SocialStats q.dbOwner "/" q.dbName).2.2.1 } }
    Meta := { decoded.Meta with LoggedInUser := p.loggedInUser } }

/-- The calls and logged lines of lines 475-498 after a metadata hit. -/
def cachedCalls (w : DBWorld) (p : Prepared) : List DbCall :=
  [DbCall.GetCachedData p.mdataCacheKey CacheTarget.page true] ++
    logCacheGet (w.GetCachedPage p.mdataCacheKey).2.1 ++
    [DbCall.GetCachedData p.rowCacheKey CacheTarget.rows (w.GetCachedRows p.rowCacheKey).1] ++
    logCacheGet (w.GetCachedRows p.rowCacheKey).2.1 ++ [DbCall.SocialStats]

/-! ## Variations of a world -/

/-- The world in which the star lookup answers the opposite flag. -/
def flipStar (w : DBWorld) : DBWorld :=
  { w with
    CheckDBStarred := fun a b c d =>
      (!(w.CheckDBStarred a b c d).1, (w.CheckDBStarred a b c d).2) }

/-- The world in which the cache writes answer `f` and `g`. -/
def withPuts (w : DBWorld) (f : CacheKey → DatabasePageData → Nat → GoError)
    (g : CacheKey → SQLiteRecordSet → Nat → GoError) : DBWorld :=
  { w with CacheDataPage := f, CacheDataRows := g }

/-- Two results with the same response and the same collaborator calls, whatever
they logged. -/
def SameResponse (r r' : DbResult) : Prop :=
  r.outcome = r'.outcome ∧ callsOnly r.calls = callsOnly r'.calls

/-- Whether the handler ended by rendering the page. -/
def DbOutcome.isRendered : DbOutcome → Bool
  | DbOutcome.rendered _ => true
  | _ => false
/-! ## Lemmas on the walk loop -/

theorem lastCommit_parent (cd : CommitEntry) (cs : List CommitEntry) :
    (lastCommit cd cs).Parent = endRef cd.Parent cs := by
  induction cs generalizing cd with
  | nil => rfl
  | cons c rest ih => simpa [lastCommit, endRef] using ih c

theorem walkLoop_root (w : World) (rawList : CommitMap) (fuel : Nat) (cd : CommitEntry)
    (hist : List HistEntry) (calls : List Call) (hp : cd.Parent = "") :
    walkLoop w rawList fuel cd hist calls = some (calls, LoopExit.done hist) := by
  unfold walkLoop
  simp [hp]

theorem walkLoop_missing (w : World) (rawList : CommitMap) (fuel : Nat) (cd : CommitEntry)
    (hist : List HistEntry) (calls : List Call) (hp : cd.Parent ≠ "")
    (hl : rawList.lookup cd.Parent = none) :
    walkLoop w rawList (fuel + 1) cd hist calls =
      some (calls, LoopExit.returned (Outcome.errorPage StatusInternalServerError
        "Internal error when retrieving commit data")) := by
  unfold walkLoop
  simp [hp, mapGet, hl]

theorem walkLoop_step (w : World) (rawList : CommitMap) (fuel : Nat) (cd c : CommitEntry)
    (hist : List HistEntry) (calls : List Call) (hp : cd.Parent ≠ "")
    (hl : rawList.lookup cd.Parent = some c)
    (hu : (w.GetUsernameFromEmail c.AuthorEmail).2 = none) :
    walkLoop w rawList (fuel + 1) cd hist calls =
      walkLoop w rawList fuel c (hist ++ [enrich w c]) (calls ++ [userCall c]) := by
  conv_lhs => unfold walkLoop
  simp [hp, mapGet, hl, hu, enrich, userCall]

theorem walkLoop_user_error (w : World) (rawList : CommitMap) (fuel : Nat) (cd c : CommitEntry)
    (hist : List HistEntry) (calls : List Call) (msg : String) (hp : cd.Parent ≠ "")
    (hl : rawList.lookup cd.Parent = some c)
    (hu : (w.GetUsernameFromEmail c.AuthorEmail).2 = some msg) :
    walkLoop w rawList (fuel + 1) cd hist calls =
      some (calls ++ [userCall c],
        LoopExit.returned (Outcome.errorPage StatusInternalServerError msg)) := by
  conv_lhs => unfold walkLoop
  simp [hp, mapGet, hl, hu, errorPageErr, userCall]

/-- Running the loop body along a stretch of the parent chain whose identity
lookups all succeed. -/
theorem walkLoop_follows (w : World) (rawList : CommitMap) (fuel : Nat) (cs : List CommitEntry) :
    ∀ (cd : CommitEntry) (hist : List HistEntry) (calls : List Call),
      Follows rawList cd.Parent cs →
      (∀ c ∈ cs, (w.GetUsernameFromEmail c.AuthorEmail).2 = none) →
      walkLoop w rawList (fuel + cs.length) cd hist calls =
        walkLoop w rawList fuel (lastCommit cd cs) (hist ++ cs.map (enrich w))
          (calls ++ cs.map userCall) := by
  induction cs with
  | nil => intro cd hist calls _ _; simp [lastCommit]
  | cons c rest ih =>
    intro cd hist calls hf hu
    obtain ⟨hp, hl, hrest⟩ := hf
    have hc := hu c (List.mem_cons_self c rest)
    have hstep := walkLoop_step w rawList (fuel + rest.length) cd c hist calls hp hl hc
    have hrec := ih c (hist ++ [enrich w c]) (calls ++ [userCall c]) hrest
      (fun x hx => hu x (List.mem_cons_of_mem c hx))
    have hlen : fuel + (c :: rest).length = fuel + rest.length + 1 := by simp; omega
    rw [hlen, hstep, hrec]
    simp [lastCommit]


/-! ## Lemmas on `commitsPage` -/

theorem commitsPage_of_resolve (w : World) (s : Resolved) (fuel : Nat)
    (hres : commitsPageResolve w = Except.ok s) :
    commitsPage w fuel = commitsPageWalk w s fuel := by
  simp [commitsPage, hres]

theorem commitsPageHead_headID (w : World) (ck : Checked) (s : Resolved)
    (h : commitsPageHead w ck = Except.ok s) : s.headID ≠ "" := by
  unfold commitsPageHead at h
  simp only at h
  split_ifs at h <;> cases h <;> assumption

theorem commitsPageResolve_headID (w : World) (s : Resolved)
    (h : commitsPageResolve w = Except.ok s) : s.headID ≠ "" := by
  unfold commitsPageResolve at h
  split at h
  · cases h
  · exact commitsPageHead_headID w _ s h

theorem mapIndex_of_lookup {α : Type} [Inhabited α] (m : List (String × α)) (k : String) (v : α)
    (h : m.lookup k = some v) : mapIndex m k = v := by
  simp [mapIndex, mapGet, h]

theorem mapIndex_of_missing {α : Type} [Inhabited α] (m : List (String × α)) (k : String)
    (h : m.lookup k = none) : mapIndex m k = default := by
  simp [mapIndex, mapGet, h]

/-- The walk, once the commit list is loaded and the identity lookup of the head
commit has succeeded, is the loop started from the head entry. -/
theorem commitsPageWalk_head (w : World) (s : Resolved) (rawList : CommitMap) (fuel : Nat)
    (hlist : w.GetCommitList s.dbOwner s.dbFolder s.dbName = (rawList, none))
    (hu : (w.GetUsernameFromEmail (mapIndex rawList s.headID).AuthorEmail).2 = none) :
    commitsPageWalk w s fuel =
      match walkLoop w rawList fuel (headData (mapIndex rawList s.headID))
          [enrich w (mapIndex rawList s.headID)]
          (s.calls ++ [Call.GetCommitList] ++ [userCall (mapIndex rawList s.headID)]) with
      | none => none
      | some (calls, LoopExit.returned o) => some ⟨calls, o⟩
      | some (calls, LoopExit.done history) =>
        some ⟨calls, Outcome.rendered (fillPageData w s history)⟩ := by
  unfold commitsPageWalk
  simp [hlist, hu, headData, enrich, userCall]

theorem commitsPageWalk_head_error (w : World) (s : Resolved) (rawList : CommitMap) (fuel : Nat)
    (msg : String)
    (hlist : w.GetCommitList s.dbOwner s.dbFolder s.dbName = (rawList, none))
    (hu : (w.GetUsernameFromEmail (mapIndex rawList s.headID).AuthorEmail).2 = some msg) :
    commitsPageWalk w s fuel =
      some ⟨s.calls ++ [Call.GetCommitList] ++ [userCall (mapIndex rawList s.headID)],
        Outcome.errorPage StatusInternalServerError msg⟩ := by
  unfold commitsPageWalk
  simp [hlist, hu, errorPageErr, userCall]

/-- A complete chain whose identity lookups succeed is rendered whole. -/
theorem commitsPageWalk_complete (w : World) (s : Resolved) (rawList : CommitMap)
    (chain : List CommitEntry) (fuel : Nat)
    (hhead : s.headID ≠ "")
    (hlist : w.GetCommitList s.dbOwner s.dbFolder s.dbName = (rawList, none))
    (hchain : Follows rawList s.headID chain) (hroot : endRef s.headID chain = "")
    (husers : ∀ c ∈ chain, (w.GetUsernameFromEmail c.AuthorEmail).2 = none)
    (hfuel : chain.length ≤ fuel + 1) :
    commitsPageWalk w s fuel =
      some ⟨s.calls ++ [Call.GetCommitList] ++ chain.map userCall,
        Outcome.rendered (fillPageData w s (chain.map (enrich w)))⟩ := by
  cases chain with
  | nil => exact absurd hroot hhead
  | cons c rest =>
    obtain ⟨_, hl, hrest⟩ := hchain
    have hidx := mapIndex_of_lookup rawList s.headID c hl
    have hc := husers c (List.mem_cons_self c rest)
    rw [commitsPageWalk_head w s rawList fuel hlist (by rw [hidx]; exact hc), hidx]
    have hlen : fuel = (fuel - rest.length) + rest.length := by
      simp at hfuel; omega
    have hf := walkLoop_follows w rawList (fuel - rest.length) rest (headData c) [enrich w c]
      (s.calls ++ [Call.GetCommitList] ++ [userCall c]) hrest
      (fun x hx => husers x (List.mem_cons_of_mem c hx))
    rw [← hlen] at hf
    have hend : (lastCommit (headData c) rest).Parent = "" := by
      rw [lastCommit_parent]; exact hroot
    rw [hf, walkLoop_root w rawList _ _ _ _ hend]
    simp


/-- Along a stretch of the parent chain on which some identity lookup fails, the
loop returns the error of the first failing lookup. -/
theorem walkLoop_first_failure (w : World) (rawList : CommitMap) (fuel : Nat)
    (cs : List CommitEntry) :
    ∀ (cd : CommitEntry) (hist : List HistEntry) (calls : List Call),
      Follows rawList cd.Parent cs →
      (∃ c ∈ cs, (w.GetUsernameFromEmail c.AuthorEmail).2 ≠ none) →
      ∃ pre c post msg, cs = pre ++ c :: post ∧
        (∀ x ∈ pre, (w.GetUsernameFromEmail x.AuthorEmail).2 = none) ∧
        (w.GetUsernameFromEmail c.AuthorEmail).2 = some msg ∧
        walkLoop w rawList (fuel + cs.length) cd hist calls =
          some (calls ++ (pre ++ [c]).map userCall,
            LoopExit.returned (Outcome.errorPage StatusInternalServerError msg)) := by
  induction cs with
  | nil => intro cd hist calls _ hex; obtain ⟨c, hc, _⟩ := hex; cases hc
  | cons c rest ih =>
    intro cd hist calls hf hex
    obtain ⟨hp, hl, hrest⟩ := hf
    have hlen : fuel + (c :: rest).length = fuel + rest.length + 1 := by simp; omega
    rw [hlen]
    cases hu : (w.GetUsernameFromEmail c.AuthorEmail).2 with
    | some msg =>
      refine ⟨[], c, rest, msg, rfl, (fun x hx => by cases hx), hu, ?_⟩
      simpa using walkLoop_user_error w rawList _ cd c hist calls msg hp hl hu
    | none =>
      have hex' : ∃ x ∈ rest, (w.GetUsernameFromEmail x.AuthorEmail).2 ≠ none := by
        obtain ⟨x, hx, hne⟩ := hex
        rcases List.mem_cons.mp hx with rfl | hx'
        · exact absurd hu hne
        · exact ⟨x, hx', hne⟩
      obtain ⟨pre, x, post, msg, hsplit, hpre, hxm, hrun⟩ :=
        ih c (hist ++ [enrich w c]) (calls ++ [userCall c]) hrest hex'
      refine ⟨c :: pre, x, post, msg, by simp [hsplit], ?_, hxm, ?_⟩
      · intro y hy
        rcases List.mem_cons.mp hy with rfl | hy'
        · exact hu
        · exact hpre y hy'
      · rw [walkLoop_step w rawList _ cd c hist calls hp hl hu, hrun]
        simp

/-- A stretch of the parent chain that ends at a reference missing from the map:
the loop returns an error page, whatever the identity lookups answer. -/
theorem walkLoop_broken (w : World) (rawList : CommitMap) (fuel : Nat) (cs : List CommitEntry) :
    ∀ (cd : CommitEntry) (hist : List HistEntry) (calls : List Call),
      Follows rawList cd.Parent cs →
      endRef cd.Parent cs ≠ "" → rawList.lookup (endRef cd.Parent cs) = none →
      ∃ calls' msg,
        walkLoop w rawList (fuel + cs.length + 1) cd hist calls =
          some (calls', LoopExit.returned (Outcome.errorPage StatusInternalServerError msg)) ∧
        ((∀ c ∈ cs, (w.GetUsernameFromEmail c.AuthorEmail).2 = none) →
          msg = "Internal error when retrieving commit data") := by
  intro cd hist calls hf hne hmiss
  by_cases hall : ∀ c ∈ cs, (w.GetUsernameFromEmail c.AuthorEmail).2 = none
  · refine ⟨calls ++ cs.map userCall, "Internal error when retrieving commit data", ?_,
      fun _ => rfl⟩
    have h1 := walkLoop_follows w rawList (fuel + 1) cs cd hist calls hf hall
    have hlen : fuel + cs.length + 1 = fuel + 1 + cs.length := by omega
    rw [hlen, h1]
    apply walkLoop_missing
    · rw [lastCommit_parent]; exact hne
    · rw [lastCommit_parent]; exact hmiss
  · have hex : ∃ c ∈ cs, (w.GetUsernameFromEmail c.AuthorEmail).2 ≠ none := by
      push_neg at hall; exact hall
    obtain ⟨pre, c, post, msg, _, _, _, hrun⟩ :=
      walkLoop_first_failure w rawList (fuel + 1) cs cd hist calls hf hex
    have hlen : fuel + cs.length + 1 = fuel + 1 + cs.length := by omega
    exact ⟨_, msg, by rw [hlen]; exact hrun, fun h => absurd h hall⟩

/-- A head commit that is not a key of the commit map is read as the zero record:
when the identity lookup of the empty email succeeds, a one-entry history is
rendered. -/
theorem commitsPageWalk_missing_head (w : World) (s : Resolved) (rawList : CommitMap)
    (fuel : Nat)
    (hlist : w.GetCommitList s.dbOwner s.dbFolder s.dbName = (rawList, none))
    (hmiss : rawList.lookup s.headID = none)
    (hu : (w.GetUsernameFromEmail "").2 = none) :
    commitsPageWalk w s fuel =
      some ⟨s.calls ++ [Call.GetCommitList] ++ [userCall default],
        Outcome.rendered (fillPageData w s [enrich w default])⟩ := by
  have hidx := mapIndex_of_missing rawList s.headID hmiss
  rw [commitsPageWalk_head w s rawList fuel hlist (by rw [hidx]; exact hu), hidx,
    walkLoop_root w rawList fuel _ _ _ rfl]

/-- A walk that meets a broken parent reference ends with an error page. -/
theorem commitsPageWalk_broken (w : World) (s : Resolved) (rawList : CommitMap)
    (path : List CommitEntry) (fuel : Nat)
    (hlist : w.GetCommitList s.dbOwner s.dbFolder s.dbName = (rawList, none))
    (hpath : Follows rawList s.headID path) (hne : path ≠ [])
    (hend : endRef s.headID path ≠ "")
    (hmiss : rawList.lookup (endRef s.headID path) = none)
    (hfuel : path.length ≤ fuel) :
    ∃ r msg, commitsPageWalk w s fuel = some r ∧
      r.outcome = Outcome.errorPage StatusInternalServerError msg ∧
      ((∀ c ∈ path, (w.GetUsernameFromEmail c.AuthorEmail).2 = none) →
        msg = "Internal error when retrieving commit data") := by
  cases path with
  | nil => exact absurd rfl hne
  | cons c rest =>
    obtain ⟨_, hl, hrest⟩ := hpath
    have hidx := mapIndex_of_lookup rawList s.headID c hl
    cases hu : (w.GetUsernameFromEmail c.AuthorEmail).2 with
    | some msg =>
      refine ⟨_, msg, commitsPageWalk_head_error w s rawList fuel msg hlist
        (by rw [hidx]; exact hu), rfl, fun h => ?_⟩
      have := h c (List.mem_cons_self c rest)
      rw [hu] at this; cases this
    | none =>
      have hfuel' : fuel = (fuel - rest.length - 1) + rest.length + 1 := by
        simp at hfuel; omega
      obtain ⟨calls', msg, hrun, hmsg⟩ :=
        walkLoop_broken w rawList (fuel - rest.length - 1) rest (headData c) [enrich w c]
          (s.calls ++ [Call.GetCommitList] ++ [userCall c]) hrest hend hmiss
      rw [← hfuel'] at hrun
      refine ⟨⟨calls', _⟩, msg, ?_, rfl, fun h => hmsg (fun x hx => h x (List.mem_cons_of_mem c hx))⟩
      rw [commitsPageWalk_head w s rawList fuel hlist (by rw [hidx]; exact hu), hidx, hrun]

/-- A walk on which some identity lookup fails ends with the error of the first
failing lookup. -/
theorem commitsPageWalk_user_failure (w : World) (s : Resolved) (rawList : CommitMap)
    (path : List CommitEntry) (fuel : Nat)
    (hlist : w.GetCommitList s.dbOwner s.dbFolder s.dbName = (rawList, none))
    (hpath : Follows rawList s.headID path)
    (hex : ∃ c ∈ path, (w.GetUsernameFromEmail c.AuthorEmail).2 ≠ none)
    (hfuel : path.length ≤ fuel + 1) :
    ∃ pre c post msg, path = pre ++ c :: post ∧
      (∀ x ∈ pre, (w.GetUsernameFromEmail x.AuthorEmail).2 = none) ∧
      (w.GetUsernameFromEmail c.AuthorEmail).2 = some msg ∧
      commitsPageWalk w s fuel =
        some ⟨s.calls ++ [Call.GetCommitList] ++ (pre ++ [c]).map userCall,
          Outcome.errorPage StatusInternalServerError msg⟩ := by
  cases path with
  | nil => obtain ⟨c, hc, _⟩ := hex; cases hc
  | cons c rest =>
    obtain ⟨_, hl, hrest⟩ := hpath
    have hidx := mapIndex_of_lookup rawList s.headID c hl
    cases hu : (w.GetUsernameFromEmail c.AuthorEmail).2 with
    | some msg =>
      refine ⟨[], c, rest, msg, rfl, (fun x hx => by cases hx), hu, ?_⟩
      have := commitsPageWalk_head_error w s rawList fuel msg hlist (by rw [hidx]; exact hu)
      rw [hidx] at this
      simpa using this
    | none =>
      have hex' : ∃ x ∈ rest, (w.GetUsernameFromEmail x.AuthorEmail).2 ≠ none := by
        obtain ⟨x, hx, hxne⟩ := hex
        rcases List.mem_cons.mp hx with rfl | hx'
        · exact absurd hu hxne
        · exact ⟨x, hx', hxne⟩
      have hfuel' : fuel = (fuel - rest.length) + rest.length := by
        simp at hfuel; omega
      obtain ⟨pre, x, post, msg, hsplit, hpre, hxm, hrun⟩ :=
        walkLoop_first_failure w rawList (fuel - rest.length) rest (headData c) [enrich w c]
          (s.calls ++ [Call.GetCommitList] ++ [userCall c]) hrest hex'
      rw [← hfuel'] at hrun
      refine ⟨c :: pre, x, post, msg, by simp [hsplit], ?_, hxm, ?_⟩
      · intro y hy
        rcases List.mem_cons.mp hy with rfl | hy'
        · exact hu
        · exact hpre y hy'
      · rw [commitsPageWalk_head w s rawList fuel hlist (by rw [hidx]; exact hu), hidx, hrun]
        simp

/-! ## Lemmas on parent chains -/

theorem follows_ids (rawList : CommitMap)
    (hid : ∀ k c, rawList.lookup k = some c → c.ID = k) (cs : List CommitEntry) :
    ∀ p, Follows rawList p cs → cs.map (fun c => c.ID) = refsRead p cs := by
  induction cs with
  | nil => intro p _; rfl
  | cons c rest ih =>
    intro p hf
    obtain ⟨_, hl, hrest⟩ := hf
    simp [refsRead, hid p c hl, ih c.Parent hrest]

theorem follows_linked (rawList : CommitMap)
    (hid : ∀ k c, rawList.lookup k = some c → c.ID = k) (cs : List CommitEntry) :
    ∀ p, Follows rawList p cs → List.Chain' (fun a b : CommitEntry => b.ID = a.Parent) cs := by
  induction cs with
  | nil => intro p _; exact List.chain'_nil
  | cons c rest ih =>
    intro p hf
    obtain ⟨_, _, hrest⟩ := hf
    cases rest with
    | nil => exact List.chain'_singleton c
    | cons c' rest' =>
      refine List.chain'_cons.mpr ⟨?_, ih c.Parent hrest⟩
      exact hid c.Parent c' hrest.2.1

theorem getLast_parent (cs : List CommitEntry) :
    ∀ p, cs ≠ [] → cs.getLast?.map (fun c => c.Parent) = some (endRef p cs) := by
  induction cs with
  | nil => intro p h; exact absurd rfl h
  | cons c rest ih =>
    intro p _
    cases rest with
    | nil => simp [endRef]
    | cons c' rest' =>
      have := ih c.Parent (by simp)
      simpa [endRef, List.getLast?_cons_cons] using this

theorem lookup_id_of_forall (rawList : CommitMap) (h : ∀ p ∈ rawList, p.2.ID = p.1) :
    ∀ k c, rawList.lookup k = some c → c.ID = k := by
  induction rawList with
  | nil => intro k c hl; cases hl
  | cons p rest ih =>
    intro k c hl
    obtain ⟨a, b⟩ := p
    rw [List.lookup_cons] at hl
    by_cases hk : k = a
    · subst hk
      simp at hl
      subst hl
      exact h (k, b) (List.mem_cons_self _ _)
    · have : (k == a) = false := by simpa using hk
      rw [this] at hl
      exact ih (fun q hq => h q (List.mem_cons_of_mem _ hq)) k c hl

/-! ## A chain that ends is no longer than the map -/

theorem lookup_mem_keys {α : Type} (m : List (String × α)) (k : String) (v : α)
    (h : m.lookup k = some v) : k ∈ m.map Prod.fst := by
  obtain ⟨l₁, l₂, rfl, _⟩ := List.lookup_eq_some_iff.mp h
  simp

theorem refsRead_length (cs : List CommitEntry) :
    ∀ p, (refsRead p cs).length = cs.length := by
  induction cs with
  | nil => intro p; rfl
  | cons c rest ih => intro p; simp [refsRead, ih c.Parent]

theorem refsRead_subset (rawList : CommitMap) (cs : List CommitEntry) :
    ∀ p, Follows rawList p cs → ∀ k ∈ refsRead p cs, k ∈ rawList.map Prod.fst := by
  induction cs with
  | nil => intro p _ k hk; cases hk
  | cons c rest ih =>
    intro p hf k hk
    obtain ⟨_, hl, hrest⟩ := hf
    rcases List.mem_cons.mp hk with rfl | hk'
    · exact lookup_mem_keys rawList k c hl
    · exact ih c.Parent hrest k hk'

/-- The walk is deterministic: from one reference there is one chain that ends. -/
theorem follows_unique (rawList : CommitMap) (cs : List CommitEntry) :
    ∀ p cs', Follows rawList p cs → Terminal rawList (endRef p cs) →
      Follows rawList p cs' → Terminal rawList (endRef p cs') → cs = cs' := by
  induction cs with
  | nil =>
    intro p cs' _ ht hf' _
    cases cs' with
    | nil => rfl
    | cons c' rest' =>
      obtain ⟨hp, hl, _⟩ := hf'
      rcases ht with h | h
      · exact absurd h hp
      · simp only [endRef] at h
        rw [hl] at h
        cases h
  | cons c rest ih =>
    intro p cs' hf ht hf' ht'
    obtain ⟨hp, hl, hrest⟩ := hf
    cases cs' with
    | nil =>
      rcases ht' with h | h
      · exact absurd h hp
      · simp only [endRef] at h
        rw [hl] at h
        cases h
    | cons c' rest' =>
      obtain ⟨_, hl', hrest'⟩ := hf'
      have hcc : c = c' := by
        rw [hl] at hl'
        exact Option.some.inj hl'
      subst hcc
      rw [ih c.Parent rest' hrest ht hrest' ht']

/-- Every reference read on a chain that ends starts a chain that ends and is not
longer. -/
theorem follows_from_ref (rawList : CommitMap) (cs : List CommitEntry) :
    ∀ p k, Follows rawList p cs → Terminal rawList (endRef p cs) → k ∈ refsRead p cs →
      ∃ b, b.length ≤ cs.length ∧ Follows rawList k b ∧ Terminal rawList (endRef k b) := by
  induction cs with
  | nil => intro p k _ _ hk; cases hk
  | cons c rest ih =>
    intro p k hf ht hk
    rcases List.mem_cons.mp hk with rfl | hk'
    · exact ⟨c :: rest, le_refl _, hf, ht⟩
    · obtain ⟨b, hb, hfb, htb⟩ := ih c.Parent k hf.2.2 ht hk'
      exact ⟨b, by simp; omega, hfb, htb⟩

theorem refsRead_nodup (rawList : CommitMap) (cs : List CommitEntry) :
    ∀ p, Follows rawList p cs → Terminal rawList (endRef p cs) → (refsRead p cs).Nodup := by
  induction cs with
  | nil => intro p _ _; exact List.nodup_nil
  | cons c rest ih =>
    intro p hf ht
    refine List.nodup_cons.mpr ⟨?_, ih c.Parent hf.2.2 ht⟩
    intro hmem
    obtain ⟨b, hb, hfb, htb⟩ := follows_from_ref rawList rest c.Parent p hf.2.2 ht hmem
    have := follows_unique rawList b p (c :: rest) hfb htb hf ht
    subst this
    simp at hb

/-- A chain that ends holds at most as many commits as the map has keys. -/
theorem follows_length_le_mapLen (rawList : CommitMap) (cs : List CommitEntry) (p : String)
    (hf : Follows rawList p cs) (ht : Terminal rawList (endRef p cs)) :
    cs.length ≤ mapLen rawList := by
  have hsub : refsRead p cs ⊆ (rawList.map Prod.fst).dedup := fun k hk =>
    List.mem_dedup.mpr (refsRead_subset rawList cs p hf k hk)
  have := ((refsRead_nodup rawList cs p hf ht).subperm hsub).length_le
  rwa [refsRead_length] at this

/-- A walk whose parent chain ends (at a root or at a missing reference) ends, with
a rendered page or an error page. -/
theorem commitsPageWalk_terminates (w : World) (s : Resolved) (rawList : CommitMap)
    (cs : List CommitEntry) (fuel : Nat)
    (hhead : s.headID ≠ "")
    (hlist : w.GetCommitList s.dbOwner s.dbFolder s.dbName = (rawList, none))
    (hpath : Follows rawList s.headID cs) (hterm : Terminal rawList (endRef s.headID cs))
    (hfuel : cs.length ≤ fuel) :
    ∃ r, commitsPageWalk w s fuel = some r ∧
      ((∃ pd, r.outcome = Outcome.rendered pd) ∨
        ∃ msg, r.outcome = Outcome.errorPage StatusInternalServerError msg) := by
  by_cases hall : ∀ c ∈ cs, (w.GetUsernameFromEmail c.AuthorEmail).2 = none
  · by_cases hroot : endRef s.headID cs = ""
    · exact ⟨_, commitsPageWalk_complete w s rawList cs fuel hhead hlist hpath hroot hall
        (by omega), Or.inl ⟨_, rfl⟩⟩
    · have hmiss : rawList.lookup (endRef s.headID cs) = none := by
        rcases hterm with h | h
        · exact absurd h hroot
        · exact h
      cases cs with
      | nil =>
        have hidx := mapIndex_of_missing rawList s.headID hmiss
        cases hu : (w.GetUsernameFromEmail (default : CommitEntry).AuthorEmail).2 with
        | some msg =>
          exact ⟨_, commitsPageWalk_head_error w s rawList fuel msg hlist
            (by rw [hidx]; exact hu), Or.inr ⟨msg, rfl⟩⟩
        | none =>
          refine ⟨⟨s.calls ++ [Call.GetCommitList] ++ [userCall default],
            Outcome.rendered (fillPageData w s [enrich w default])⟩, ?_, Or.inl ⟨_, rfl⟩⟩
          rw [commitsPageWalk_head w s rawList fuel hlist (by rw [hidx]; exact hu), hidx,
            walkLoop_root w rawList fuel _ _ _ rfl]
      | cons c rest =>
        obtain ⟨r, msg, hrun, hout, _⟩ :=
          commitsPageWalk_broken w s rawList (c :: rest) fuel hlist hpath (by simp) hroot hmiss
            hfuel
        exact ⟨r, hrun, Or.inr ⟨msg, hout⟩⟩
  · have hex : ∃ c ∈ cs, (w.GetUsernameFromEmail c.AuthorEmail).2 ≠ none := by
      push_neg at hall; exact hall
    obtain ⟨pre, c, post, msg, _, _, _, hrun⟩ :=
      commitsPageWalk_user_failure w s rawList cs fuel hlist hpath hex (by omega)
    exact ⟨_, hrun, Or.inr ⟨msg, rfl⟩⟩

/-- On the cyclic example map the loop never ends. -/
theorem walkLoop_exCycle (fuel : Nat) :
    ∀ (cd : CommitEntry) (hist : List HistEntry) (calls : List Call),
      cd.Parent = "c2" ∨ cd.Parent = "c3" →
      walkLoop (exWorld "main" exCycle false) exCycle fuel cd hist calls = none := by
  induction fuel with
  | zero =>
    intro cd hist calls h
    unfold walkLoop
    rcases h with h | h <;> simp [h]
  | succ n ih =>
    intro cd hist calls h
    unfold walkLoop
    rcases h with h | h
    · have hl : mapGet exCycle "c2" = (exCommit "c2" "c3" "b@example.org", true) := by decide
      have hu : (exWorld "main" exCycle false).GetUsernameFromEmail "b@example.org" =
          ("u-b@example.org", none) := by decide
      simp [h, hl, exCommit, hu]
      exact ih _ _ _ (Or.inr rfl)
    · have hl : mapGet exCycle "c3" = (exCommit "c3" "c2" "a@example.org", true) := by decide
      have hu : (exWorld "main" exCycle false).GetUsernameFromEmail "a@example.org" =
          ("u-a@example.org", none) := by decide
      simp [h, hl, exCommit, hu]
      exact ih _ _ _ (Or.inl rfl)

/-! ## Lemmas on the checks and the branch resolution -/

theorem errorPageErr_of_isSome (code : Nat) (err : GoError) (h : err.isSome = true) :
    ∃ msg, errorPageErr code err = Outcome.errorPage code msg := by
  cases err with
  | none => cases h
  | some m => exact ⟨m, rfl⟩

/-- What the checks of lines 176-235 leave behind: an error page after calls that
do not touch the commit list, or the parsed request and the branch list. -/
theorem commitsPageChecks_spec (w : World) :
    (∃ r, commitsPageChecks w = Except.error r ∧
      (∃ code msg, r.outcome = Outcome.errorPage code msg) ∧
      r.calls ⊆ [Call.GetOD, Call.GetFormBranch, Call.CheckDBExists, Call.DBDetails,
        Call.GetBranches]) ∨
    (∃ ck, commitsPageChecks w = Except.ok ck ∧
      ck.dbOwner = w.GetOD.1 ∧ ck.dbFolder = "/" ∧ ck.dbName = w.GetOD.2.1 ∧
      ck.branchName = w.GetFormBranch.1 ∧
      ck.branches = (w.GetBranches w.GetOD.1 "/" w.GetOD.2.1).1 ∧
      ck.calls = [Call.GetOD, Call.GetFormBranch, Call.CheckDBExists, Call.DBDetails,
        Call.GetBranches]) := by
  unfold commitsPageChecks
  simp only
  split_ifs with h1 h2 h3 h4 h5 h6 h7
  · obtain ⟨m, hm⟩ := errorPageErr_of_isSome StatusBadRequest _ h1
    exact Or.inl ⟨_, rfl, ⟨_, m, hm⟩, by simp⟩
  · obtain ⟨m, hm⟩ := errorPageErr_of_isSome StatusBadRequest _ h2
    exact Or.inl ⟨_, rfl, ⟨_, m, hm⟩, by simp⟩
  · exact Or.inl ⟨_, rfl, ⟨_, _, rfl⟩, by simp⟩
  · obtain ⟨m, hm⟩ := errorPageErr_of_isSome StatusBadRequest _ h4
    exact Or.inl ⟨_, rfl, ⟨_, m, hm⟩, by simp⟩
  · exact Or.inl ⟨_, rfl, ⟨_, _, rfl⟩, by simp⟩
  · obtain ⟨m, hm⟩ := errorPageErr_of_isSome StatusBadRequest _ h6
    exact Or.inl ⟨_, rfl, ⟨_, m, hm⟩, by simp⟩
  · obtain ⟨m, hm⟩ := errorPageErr_of_isSome StatusInternalServerError _ h7
    exact Or.inl ⟨_, rfl, ⟨_, m, hm⟩, by simp⟩
  · exact Or.inr ⟨_, rfl, rfl, rfl, rfl, rfl, rfl, rfl⟩

/-- A branch name (the requested one, or the default when none was requested) that
is not a key of the branch list ends the handler with the error page of line 251. -/
theorem commitsPageHead_unknown (w : World) (ck : Checked) (name : String)
    (hname : name = if ck.branchName = "" then
      (w.GetDefaultBranchName ck.dbOwner ck.dbFolder ck.dbName).1 else ck.branchName)
    (hdef : ck.branchName = "" →
      (w.GetDefaultBranchName ck.dbOwner ck.dbFolder ck.dbName).2 = none)
    (habsent : ck.branches.lookup name = none) :
    commitsPageHead w ck =
      Except.error ⟨if ck.branchName = "" then ck.calls ++ [Call.GetDefaultBranchName]
          else ck.calls,
        Outcome.errorPage StatusInternalServerError ("Branch '" ++ name ++ "' not found")⟩ := by
  unfold commitsPageHead
  by_cases hb : ck.branchName = ""
  · simp only [hb, if_true] at hname ⊢
    subst hname
    simp [hdef hb, mapGet, habsent]
  · simp only [hb, if_false] at hname ⊢
    subst hname
    simp [mapGet, habsent]

/-- An empty head commit identifier makes line 256 evaluate `err.Error()` on a nil
error. -/
theorem commitsPageHead_empty_head (w : World) (ck : Checked) (name : String) (b : BranchEntry)
    (hname : name = if ck.branchName = "" then
      (w.GetDefaultBranchName ck.dbOwner ck.dbFolder ck.dbName).1 else ck.branchName)
    (hdef : ck.branchName = "" →
      (w.GetDefaultBranchName ck.dbOwner ck.dbFolder ck.dbName).2 = none)
    (hfound : ck.branches.lookup name = some b) (hempty : b.Commit = "") :
    commitsPageHead w ck =
      Except.error ⟨if ck.branchName = "" then ck.calls ++ [Call.GetDefaultBranchName]
          else ck.calls, Outcome.fault⟩ := by
  unfold commitsPageHead
  by_cases hb : ck.branchName = ""
  · simp only [hb, if_true] at hname ⊢
    subst hname
    simp [hdef hb, mapGet, hfound, hempty, errorPageErr]
  · simp only [hb, if_false] at hname ⊢
    subst hname
    simp [mapGet, hfound, hempty, errorPageErr]

/-- The outcome of the loop does not depend on the calls recorded so far, nor on
collaborators other than the identity lookup and the markdown renderer. -/
theorem walkLoop_outcome_congr (w w' : World) (rawList : CommitMap)
    (hU : w.GetUsernameFromEmail = w'.GetUsernameFromEmail) (hM : w.Md2Html = w'.Md2Html)
    (fuel : Nat) :
    ∀ (cd : CommitEntry) (hist : List HistEntry) (calls calls' : List Call),
      (walkLoop w rawList fuel cd hist calls).map Prod.snd =
        (walkLoop w' rawList fuel cd hist calls').map Prod.snd := by
  induction fuel with
  | zero =>
    intro cd hist calls calls'
    unfold walkLoop
    by_cases hp : cd.Parent = "" <;> simp [hp]
  | succ n ih =>
    intro cd hist calls calls'
    conv_lhs => unfold walkLoop
    conv_rhs => unfold walkLoop
    by_cases hp : cd.Parent = ""
    · simp [hp]
    · cases hl : rawList.lookup cd.Parent with
      | none => simp [hp, mapGet, hl]
      | some c =>
        cases hu : (w'.GetUsernameFromEmail c.AuthorEmail).2 with
        | some m => simp [hp, mapGet, hl, hU, hu]
        | none =>
          simp only [hp, mapGet, hl, hU, hu, histEntry, hM]
          simpa using ih c _ _ _

/-- The outcome of the walk depends on the resolved state only through its fields
other than `calls`, and on the world only through the collaborators the walk calls. -/
theorem commitsPageWalk_outcome_congr (w w' : World) (s s' : Resolved) (fuel : Nat)
    (hL : w.GetCommitList = w'.GetCommitList)
    (hU : w.GetUsernameFromEmail = w'.GetUsernameFromEmail) (hM : w.Md2Html = w'.Md2Html)
    (hW : w.WebServer = w'.WebServer) (hC : w.Auth0ClientID = w'.Auth0ClientID)
    (hD : w.Auth0Domain = w'.Auth0Domain)
    (hs : s' = { s with calls := s'.calls }) :
    (commitsPageWalk w s fuel).map (fun r => r.outcome) =
      (commitsPageWalk w' s' fuel).map (fun r => r.outcome) := by
  rw [hs]
  rcases hl : w.GetCommitList s.dbOwner s.dbFolder s.dbName with ⟨rawList, e⟩
  have hl' : w'.GetCommitList s.dbOwner s.dbFolder s.dbName = (rawList, e) := by
    rw [← hL]; exact hl
  rcases hu : w.GetUsernameFromEmail (mapIndex rawList s.headID).AuthorEmail with ⟨eml, e'⟩
  have hu' : w'.GetUsernameFromEmail (mapIndex rawList s.headID).AuthorEmail = (eml, e') := by
    rw [← hU]; exact hu
  unfold commitsPageWalk
  simp only [hl, hl', hu, hu']
  cases e with
  | some m => simp
  | none =>
    cases e' with
    | some m => simp
    | none =>
      simp only [Option.isSome_none, Bool.false_eq_true, if_false]
      have hloop := walkLoop_outcome_congr w w' rawList hU hM fuel
        { (default : CommitEntry) with Parent := (mapIndex rawList s.headID).Parent }
        [histEntry w (mapIndex rawList s.headID) eml]
        (s.calls ++ [Call.GetCommitList] ++
          [Call.GetUsernameFromEmail (mapIndex rawList s.headID).AuthorEmail])
        (s'.calls ++ [Call.GetCommitList] ++
          [Call.GetUsernameFromEmail (mapIndex rawList s.headID).AuthorEmail])
      have hh : histEntry w' (mapIndex rawList s.headID) eml =
          histEntry w (mapIndex rawList s.headID) eml := by
        simp [histEntry, hM]
      rw [hh]
      generalize walkLoop w rawList fuel _ _ _ = x at hloop ⊢
      generalize walkLoop w' rawList fuel _ _ _ = y at hloop ⊢
      rcases x with _ | ⟨c1, e1⟩ <;> rcases y with _ | ⟨c2, e2⟩ <;> simp at hloop
      · rfl
      · subst hloop
        cases e1 <;> simp [fillPageData, hW, hC, hD]

/-- With no branch requested, the checks leave the same state as with the default
branch requested, up to the branch name. -/
theorem commitsPageChecks_requested (w : World) (d : String)
    (hreq : w.GetFormBranch = ("", none)) :
    commitsPageChecks { w with GetFormBranch := (d, none) } =
      match commitsPageChecks w with
      | Except.error r => Except.error r
      | Except.ok ck => Except.ok { ck with branchName := d } := by
  unfold commitsPageChecks
  simp only [hreq]
  split_ifs <;> rfl

/-- Head resolution with no branch requested and with the default branch requested:
the same error outcome, or the same resolved state up to the recorded calls. -/
theorem commitsPageHead_default (w : World) (ck : Checked) (d : String)
    (hb : ck.branchName = "")
    (hdef : w.GetDefaultBranchName ck.dbOwner ck.dbFolder ck.dbName = (d, none)) :
    match commitsPageHead w ck,
      commitsPageHead { w with GetFormBranch := (d, none) } { ck with branchName := d } with
    | Except.error r, Except.error r' => r.outcome = r'.outcome
    | Except.ok s, Except.ok s' => s' = { s with calls := s'.calls }
    | _, _ => False := by
  unfold commitsPageHead
  simp only [hb, hdef, if_true]
  by_cases hd : d = ""
  · subst hd
    simp only [hdef, if_true]
    split_ifs <;> simp
  · simp only [hd, if_false]
    split_ifs <;> simp

/-! ## Decimal rendering -/

theorem digitChar_facts :
    ∀ d, d < 10 → digitValue (Nat.digitChar d) = d ∧ Nat.digitChar d ≠ '/' ∧
      Nat.digitChar d ≠ '-' := by
  decide

theorem toDigitsCore_digits (f : Nat) :
    ∀ (n : Nat) (ds : List Char), n < f → 0 < n →
      Nat.toDigitsCore 10 f n ds = ((Nat.digits 10 n).reverse.map Nat.digitChar) ++ ds := by
  induction f with
  | zero => intro n ds h; omega
  | succ f ih =>
    intro n ds hlt hpos
    rw [Nat.digits_def' (by norm_num) hpos]
    unfold Nat.toDigitsCore
    by_cases h0 : n / 10 = 0
    · simp [h0]
    · have hlt' : n / 10 < f := by omega
      have hpos' : 0 < n / 10 := Nat.pos_of_ne_zero h0
      simp [h0, ih (n / 10) _ hlt' hpos']

theorem repr_data (n : Nat) :
    (Nat.repr n).data = (printedDigits n).reverse.map Nat.digitChar := by
  unfold printedDigits
  by_cases h : n = 0
  · subst h; rfl
  · simp only [h, if_false]
    have := toDigitsCore_digits (n + 1) n [] (by omega) (Nat.pos_of_ne_zero h)
    simpa [Nat.repr, Nat.toDigits, List.asString] using this

theorem printedDigits_lt (n : Nat) : ∀ d ∈ printedDigits n, d < 10 := by
  intro d hd
  unfold printedDigits at hd
  by_cases h : n = 0
  · simp [h] at hd; omega
  · simp only [h, if_false] at hd
    exact Nat.digits_lt_base (by norm_num) hd

theorem printedDigits_value (n : Nat) : Nat.ofDigits 10 (printedDigits n) = n := by
  unfold printedDigits
  by_cases h : n = 0
  · subst h; simp
  · simp only [h, if_false]
    exact Nat.ofDigits_digits 10 n

theorem repr_injective (n m : Nat) (h : Nat.repr n = Nat.repr m) : n = m := by
  have hd := congrArg String.data h
  rw [repr_data, repr_data] at hd
  have hv := congrArg (List.map digitValue) hd
  have hback : ∀ k, ((printedDigits k).reverse.map Nat.digitChar).map digitValue =
      (printedDigits k).reverse := by
    intro k
    rw [List.map_map]
    conv_rhs => rw [← List.map_id (printedDigits k).reverse]
    apply List.map_congr_left
    intro d hd'
    exact (digitChar_facts d (printedDigits_lt k d (List.mem_reverse.mp hd'))).1
  rw [hback, hback] at hv
  have := List.reverse_injective hv
  rw [← printedDigits_value n, ← printedDigits_value m, this]

theorem repr_chars (n : Nat) : ∀ c ∈ (Nat.repr n).data, c ≠ '/' ∧ c ≠ '-' := by
  intro c hc
  rw [repr_data] at hc
  obtain ⟨d, hd, rfl⟩ := List.mem_map.mp hc
  exact (digitChar_facts d (printedDigits_lt n d (List.mem_reverse.mp hd))).2

theorem repr_ne_nil (n : Nat) : (Nat.repr n).data ≠ [] := by
  rw [repr_data]
  unfold printedDigits
  by_cases h : n = 0
  · simp [h]
  · simp [h, Nat.digits_ne_nil_iff_ne_zero]

theorem fmtInt_ofNat (m : Nat) : (fmtInt (Int.ofNat m)).data = (Nat.repr m).data := rfl

theorem fmtInt_negSucc (m : Nat) :
    (fmtInt (Int.negSucc m)).data = '-' :: (Nat.repr (m + 1)).data := rfl

theorem fmtInt_no_slash (n : Int) : '/' ∉ (fmtInt n).data := by
  intro h
  cases n with
  | ofNat m =>
    rw [fmtInt_ofNat] at h
    exact (repr_chars m _ h).1 rfl
  | negSucc m =>
    rw [fmtInt_negSucc] at h
    rcases List.mem_cons.mp h with h' | h'
    · cases h'
    · exact (repr_chars (m + 1) _ h').1 rfl

theorem fmtInt_injective (n m : Int) (h : (fmtInt n).data = (fmtInt m).data) : n = m := by
  cases n with
  | ofNat a =>
    cases m with
    | ofNat b =>
      rw [fmtInt_ofNat, fmtInt_ofNat] at h
      rw [repr_injective a b (String.ext h)]
    | negSucc b =>
      rw [fmtInt_ofNat, fmtInt_negSucc] at h
      have : '-' ∈ (Nat.repr a).data := by rw [h]; exact List.mem_cons_self _ _
      exact absurd rfl (repr_chars a _ this).2
  | negSucc a =>
    cases m with
    | ofNat b =>
      rw [fmtInt_ofNat, fmtInt_negSucc] at h
      have : '-' ∈ (Nat.repr b).data := by rw [← h]; exact List.mem_cons_self _ _
      exact absurd rfl (repr_chars b _ this).2
    | negSucc b =>
      rw [fmtInt_negSucc, fmtInt_negSucc] at h
      have := repr_injective (a + 1) (b + 1) (String.ext (List.cons.inj h).2)
      have hab : a = b := by omega
      rw [hab]

/-! ## Splitting a list at a separator -/

theorem split_at_first {α : Type} (x : α) (a₁ : List α) :
    ∀ (a₂ b₁ b₂ : List α), x ∉ a₁ → x ∉ a₂ → a₁ ++ x :: b₁ = a₂ ++ x :: b₂ →
      a₁ = a₂ ∧ b₁ = b₂ := by
  induction a₁ with
  | nil =>
    intro a₂ b₁ b₂ _ h2 h
    cases a₂ with
    | nil => exact ⟨rfl, (List.cons.inj h).2⟩
    | cons y a₂ =>
      have := (List.cons.inj h).1
      subst this
      exact absurd (List.mem_cons_self _ _) h2
  | cons y a₁ ih =>
    intro a₂ b₁ b₂ h1 h2 h
    cases a₂ with
    | nil =>
      have := (List.cons.inj h).1
      subst this
      exact absurd (List.mem_cons_self _ _) h1
    | cons z a₂ =>
      obtain ⟨hyz, hrest⟩ := List.cons.inj h
      obtain ⟨ha, hb⟩ := ih a₂ b₁ b₂ (fun hm => h1 (List.mem_cons_of_mem _ hm))
        (fun hm => h2 (List.mem_cons_of_mem _ hm)) hrest
      exact ⟨by rw [hyz, ha], hb⟩

theorem split_at_last {α : Type} (x : α) (a₁ a₂ b₁ b₂ : List α) (h1 : x ∉ b₁) (h2 : x ∉ b₂)
    (h : a₁ ++ x :: b₁ = a₂ ++ x :: b₂) : a₁ = a₂ ∧ b₁ = b₂ := by
  have hr := congrArg List.reverse h
  simp only [List.reverse_append, List.reverse_cons, List.append_assoc, List.singleton_append]
    at hr
  obtain ⟨hb, ha⟩ := split_at_first x b₁.reverse b₂.reverse a₁.reverse a₂.reverse
    (by simpa using h1) (by simpa using h2) hr
  exact ⟨List.reverse_injective ha, List.reverse_injective hb⟩

theorem tableRowsTag_data (sortCol sortDir : String) (rowOffset : Int) :
    (tableRowsTag sortCol sortDir rowOffset).data =
      "tablejson/".data ++ (sortCol.data ++ '/' :: (sortDir.data ++ '/' ::
        (fmtInt rowOffset).data)) := by
  simp [tableRowsTag, String.data_append]

/-! ## Lemmas on the parts of `databasePage` -/

theorem dbErrorPageErr_of_isSome (code : Nat) (err : GoError) (h : err.isSome = true) :
    ∃ msg, dbErrorPageErr code err = DbOutcome.errorPage code msg := by
  cases err with
  | none => cases h
  | some m => exact ⟨m, rfl⟩

/-- What lines 423-473 leave behind: an error page after the access and star
lookups, or the viewer, the row limit and the two cache keys. -/
theorem databasePagePrepare_spec (w : DBWorld) (q : DatabaseRequest) :
    (∃ r, databasePagePrepare w q = Except.error r ∧
      (∃ code msg, r.outcome = DbOutcome.errorPage code msg) ∧
      r.calls ⊆ [DbCall.DBDetails, DbCall.CheckDBStarred, DbCall.PrefUserMaxRows]) ∨
    (∃ p, databasePagePrepare w q = Except.ok p ∧
      p.loggedInUser = viewerOf w ∧
      p.myStar = (w.CheckDBStarred (viewerOf w) q.dbOwner "/" q.dbName).1 ∧
      p.tempMaxRows = rowLimitOf w ∧
      p.mdataCacheKey =
        MetadataCacheKey "dwndb-meta" (viewerOf w) q.dbOwner "/" q.dbName q.commitID ∧
      p.rowCacheKey =
        TableRowsCacheKey (tableRowsTag q.sortCol q.sortDir q.rowOffset) (viewerOf w) q.dbOwner
          "/" q.dbName q.commitID p.dbTable (rowLimitOf w) ∧
      p.pageData =
        { (default : DatabasePageData) with
          Meta := { (default : MetaInfo) with LoggedInUser := viewerOf w }
          DB := { (w.DBDetails (viewerOf w) q.dbOwner "/" q.dbName q.commitID).1 with
            MaxRows := rowLimitOf w } } ∧
      p.calls ⊆ [DbCall.DBDetails, DbCall.CheckDBStarred, DbCall.PrefUserMaxRows]) := by
  unfold databasePagePrepare
  simp only
  split_ifs with h1 h2 h3 h4 h5
  · obtain ⟨m, hm⟩ := dbErrorPageErr_of_isSome StatusBadRequest _ h1
    exact Or.inl ⟨_, rfl, ⟨_, m, hm⟩, by simp⟩
  · exact Or.inl ⟨_, rfl, ⟨_, _, rfl⟩, by simp⟩
  all_goals
    refine Or.inr ⟨_, rfl, rfl, rfl, ?_, rfl, ?_, ?_, by simp⟩ <;>
    simp [rowLimitOf, *]

theorem databasePageCached_miss (w : DBWorld) (q : DatabaseRequest) (p : Prepared)
    (h : (w.GetCachedPage p.mdataCacheKey).1 = false) :
    databasePageCached w q p =
      Except.ok ((w.GetCachedPage p.mdataCacheKey).2.2 p.pageData,
        [DbCall.GetCachedData p.mdataCacheKey CacheTarget.page false] ++
          logCacheGet (w.GetCachedPage p.mdataCacheKey).2.1) := by
  unfold databasePageCached
  simp [h]

theorem databasePageCached_hit (w : DBWorld) (q : DatabaseRequest) (p : Prepared)
    (h : (w.GetCachedPage p.mdataCacheKey).1 = true) :
    databasePageCached w q p =
      if (w.SocialStats q.dbOwner "/" q.dbName).2.2.2.isSome then
        Except.error ⟨cachedCalls w p,
          dbErrorPageErr StatusInternalServerError (w.SocialStats q.dbOwner "/" q.dbName).2.2.2⟩
      else if (w.GetCachedRows p.rowCacheKey).1 then
        Except.error ⟨cachedCalls w p, DbOutcome.rendered (cachedPageData w q p)⟩
      else
        Except.ok (cachedPageData w q p, cachedCalls w p) := by
  unfold databasePageCached
  simp only [h, if_true, cachedCalls, cachedPageData, List.append_assoc]

theorem dbErrorPageErr_ne_rendered (code : Nat) (err : GoError) (pd : DatabasePageData) :
    dbErrorPageErr code err ≠ DbOutcome.rendered pd := by
  cases err <;> simp [dbErrorPageErr]

theorem databasePageSortCol_spec (w : DBWorld) (q : DatabaseRequest) (sdb : SQLiteHandle)
    (dbTable : String) :
    (∃ r, databasePageSortCol w q sdb dbTable = Except.error r ∧
      (∀ pd', r.outcome ≠ DbOutcome.rendered pd') ∧
      r.calls.filter DbCall.isGet = [] ∧ r.calls.filter DbCall.isPut = [] ∧
      r.calls.filter DbCall.isTableLog = []) ∨
    (∃ sortCol calls, databasePageSortCol w q sdb dbTable = Except.ok (sortCol, calls) ∧
      calls.filter DbCall.isGet = [] ∧ calls.filter DbCall.isPut = [] ∧
      calls.filter DbCall.isTableLog = []) := by
  unfold databasePageSortCol
  by_cases h : q.sortCol = ""
  · simp only [ne_eq, h, not_true_eq_false, if_false]
    exact Or.inr ⟨_, _, rfl, rfl, rfl, rfl⟩
  · simp only [ne_eq, h, not_false_eq_true, if_true]
    cases (w.Columns sdb "" dbTable).2 with
    | some m => exact Or.inl ⟨_, rfl, by simp, by simp [DbCall.isGet], by simp [DbCall.isPut],
        by simp [DbCall.isTableLog]⟩
    | none => exact Or.inr ⟨_, _, rfl, by simp [DbCall.isGet], by simp [DbCall.isPut],
        by simp [DbCall.isTableLog]⟩

theorem databasePageValidate_spec (w : DBWorld) (dbTable : String) :
    (∃ r, databasePageValidate w dbTable = Except.error r ∧
      (∀ pd', r.outcome ≠ DbOutcome.rendered pd') ∧
      r.calls.filter DbCall.isGet = [] ∧ r.calls.filter DbCall.isPut = [] ∧
      r.calls.filter DbCall.isTableLog = []) ∨
    databasePageValidate w dbTable = Except.ok [DbCall.ValidatePGTable] := by
  unfold databasePageValidate
  cases w.ValidatePGTable dbTable with
  | none => exact Or.inr rfl
  | some m =>
    refine Or.inl ⟨_, rfl, by simp, ?_, ?_, ?_⟩ <;>
      by_cases h : dbTable = "\x7b\x7b db.Tablename \x7d\x7d" <;>
      simp [h, DbCall.isGet, DbCall.isPut, DbCall.isTableLog]

/-- What lines 514-592 leave behind: a `return` that renders nothing and touches no
cache entry, or the opened database after `OpenMinioObject` and further calls that
touch no cache entry. -/
theorem databasePageOpen_spec (w : DBWorld) (q : DatabaseRequest) (p : Prepared)
    (pd : DatabasePageData) :
    (∃ r, databasePageOpen w q p pd = Except.error r ∧
      (∀ pd', r.outcome ≠ DbOutcome.rendered pd') ∧
      r.calls.filter DbCall.isGet = [] ∧ r.calls.filter DbCall.isPut = [] ∧
      (r.calls.filter DbCall.isTableLog ≠ [] →
        r.outcome = DbOutcome.errorPage StatusBadRequest "Requested table not present")) ∨
    (∃ o rest, databasePageOpen w q p pd = Except.ok o ∧
      o.pageData =
        { pd with
          DB := { pd.DB with Info := { pd.DB.Info with Tables := (w.Tables o.sdb q.dbName).1 } } } ∧
      o.calls = DbCall.OpenMinioObject :: rest ∧
      rest.filter DbCall.isGet = [] ∧ rest.filter DbCall.isPut = [] ∧
      rest.filter DbCall.isTableLog = []) := by
  unfold databasePageOpen
  simp only
  split_ifs with h1 h2 h3 h4
  · exact Or.inl ⟨_, rfl, by simp, by simp, by simp, by simp⟩
  · exact Or.inl ⟨_, rfl, by simp [dbErrorPageErr_ne_rendered], by simp [DbCall.isGet],
      by simp [DbCall.isPut], by simp [DbCall.isTableLog]⟩
  · exact Or.inl ⟨_, rfl, by simp [dbErrorPageErr_ne_rendered], by simp [DbCall.isGet],
      by simp [DbCall.isPut], by simp [DbCall.isTableLog]⟩
  · exact Or.inl ⟨_, rfl, by simp, by simp [DbCall.isGet], by simp [DbCall.isPut], by simp⟩
  all_goals
    split
    · exact Or.inl ⟨_, rfl, by simp, by simp [DbCall.isGet], by simp [DbCall.isPut],
        by simp [DbCall.isTableLog]⟩
    · rename_i dbTable _
      rcases databasePageSortCol_spec w q
          (w.OpenMinioObject (pd.DB.Info.DBEntry.Sha256.take w.MinioFolderChars)
            (pd.DB.Info.DBEntry.Sha256.drop w.MinioFolderChars)).1 dbTable with
        ⟨r, hr, h5, h6, h7, h8⟩ | ⟨sortCol, calls, hc, h6, h7, h8⟩
      · simp only [hr]
        exact Or.inl ⟨_, rfl, h5, by simp [DbResult.after, h6, DbCall.isGet],
          by simp [DbResult.after, h7, DbCall.isPut],
          by simp [DbResult.after, h8, DbCall.isTableLog]⟩
      · simp only [hc]
        rcases databasePageValidate_spec w dbTable with ⟨r, hr, h9, h10, h11, h12⟩ | hv
        · simp only [hr]
          exact Or.inl ⟨_, rfl, h9,
            by simp [DbResult.after, h6, h10, DbCall.isGet],
            by simp [DbResult.after, h7, h11, DbCall.isPut],
            by simp [DbResult.after, h8, h12, DbCall.isTableLog]⟩
        · simp only [hv]
          exact Or.inr ⟨_, [DbCall.Tables] ++ calls ++ [DbCall.ValidatePGTable], rfl, rfl,
            by simp, by simp [h6, DbCall.isGet], by simp [h7, DbCall.isPut],
            by simp [h8, DbCall.isTableLog]⟩

theorem databasePageFill_spec (w : DBWorld) (q : DatabaseRequest) (p : Prepared) (o : Opened) :
    databasePageFill w q p o =
        Except.error ⟨[DbCall.ForkedFrom],
          DbOutcome.errorPage StatusInternalServerError "Database query failure"⟩ ∨
    (∃ pd', databasePageFill w q p o = Except.ok (pd', [DbCall.ForkedFrom]) ∧
      pd'.MyStar = p.myStar ∧ pd'.Meta.LoggedInUser = o.pageData.Meta.LoggedInUser ∧
      pd'.DB.MaxRows = o.pageData.DB.MaxRows ∧
      pd'.DB.Info.Stars = o.pageData.DB.Info.Stars ∧
      pd'.DB.Info.Forks = o.pageData.DB.Info.Forks) := by
  unfold databasePageFill
  simp only
  split_ifs
  · exact Or.inl rfl
  · exact Or.inr ⟨_, rfl, rfl, rfl, rfl, rfl, rfl⟩

/-- The calls and logged lines of lines 621-631: the metadata write and the second
read of the row-data key. -/
theorem databasePageStore_hit (w : DBWorld) (q : DatabaseRequest) (p : Prepared) (o : Opened)
    (pd : DatabasePageData) (h : (w.GetCachedRowsAgain p.rowCacheKey).1 = true) :
    databasePageStore w q p o pd =
      ⟨[DbCall.CacheData p.mdataCacheKey CacheTarget.page w.CacheTime] ++
          logCachePut (w.CacheDataPage p.mdataCacheKey pd w.CacheTime) ++
          [DbCall.GetCachedData p.rowCacheKey CacheTarget.rows true] ++
          logCacheGet (w.GetCachedRowsAgain p.rowCacheKey).2.1 ++
          [DbCall.CacheData p.rowCacheKey CacheTarget.rows w.CacheTime] ++
          logCachePut (w.CacheDataRows p.rowCacheKey
            ((w.GetCachedRowsAgain p.rowCacheKey).2.2 pd.Data) w.CacheTime),
        DbOutcome.rendered { pd with Data := (w.GetCachedRowsAgain p.rowCacheKey).2.2 pd.Data }⟩ := by
  unfold databasePageStore
  simp [h]

theorem databasePageStore_read_error (w : DBWorld) (q : DatabaseRequest) (p : Prepared)
    (o : Opened) (pd : DatabasePageData) (msg : String)
    (h : (w.GetCachedRowsAgain p.rowCacheKey).1 = false)
    (hr : (w.ReadSQLiteDB o.sdb o.dbTable pd.DB.MaxRows o.sortCol q.sortDir q.rowOffset).2 =
      some msg) :
    databasePageStore w q p o pd =
      ⟨[DbCall.CacheData p.mdataCacheKey CacheTarget.page w.CacheTime] ++
          logCachePut (w.CacheDataPage p.mdataCacheKey pd w.CacheTime) ++
          [DbCall.GetCachedData p.rowCacheKey CacheTarget.rows false] ++
          logCacheGet (w.GetCachedRowsAgain p.rowCacheKey).2.1 ++ [DbCall.ReadSQLiteDB],
        DbOutcome.errorPage StatusBadRequest msg⟩ := by
  unfold databasePageStore
  simp [h, hr, dbErrorPageErr]

theorem databasePageStore_read (w : DBWorld) (q : DatabaseRequest) (p : Prepared)
    (o : Opened) (pd : DatabasePageData)
    (h : (w.GetCachedRowsAgain p.rowCacheKey).1 = false)
    (hr : (w.ReadSQLiteDB o.sdb o.dbTable pd.DB.MaxRows o.sortCol q.sortDir q.rowOffset).2 =
      none) :
    databasePageStore w q p o pd =
      ⟨[DbCall.CacheData p.mdataCacheKey CacheTarget.page w.CacheTime] ++
          logCachePut (w.CacheDataPage p.mdataCacheKey pd w.CacheTime) ++
          [DbCall.GetCachedData p.rowCacheKey CacheTarget.rows false] ++
          logCacheGet (w.GetCachedRowsAgain p.rowCacheKey).2.1 ++ [DbCall.ReadSQLiteDB] ++
          [DbCall.CacheData p.rowCacheKey CacheTarget.rows w.CacheTime] ++
          logCachePut (w.CacheDataRows p.rowCacheKey
            { (w.ReadSQLiteDB o.sdb o.dbTable pd.DB.MaxRows o.sortCol q.sortDir q.rowOffset).1
              with Tablename := o.dbTable } w.CacheTime),
        DbOutcome.rendered
          { pd with
            Data :=
              { (w.ReadSQLiteDB o.sdb o.dbTable pd.DB.MaxRows o.sortCol q.sortDir q.rowOffset).1
                with Tablename := o.dbTable } }⟩ := by
  unfold databasePageStore
  simp [h, hr]

theorem logCacheGet_isGet (err : GoError) : (logCacheGet err).filter DbCall.isGet = [] := by
  cases err <;> simp [logCacheGet, DbCall.isGet]

theorem logCacheGet_isPut (err : GoError) : (logCacheGet err).filter DbCall.isPut = [] := by
  cases err <;> simp [logCacheGet, DbCall.isPut]

theorem logCacheGet_isTableLog (err : GoError) :
    (logCacheGet err).filter DbCall.isTableLog = [] := by
  cases err <;> simp [logCacheGet, DbCall.isTableLog]

theorem logCacheGet_callsOnly (err : GoError) : callsOnly (logCacheGet err) = [] := by
  cases err <;> simp [logCacheGet, callsOnly, DbCall.isLog]

theorem logCacheGet_open (err : GoError) : DbCall.OpenMinioObject ∉ logCacheGet err := by
  cases err <;> simp [logCacheGet]

theorem logCachePut_isGet (err : GoError) : (logCachePut err).filter DbCall.isGet = [] := by
  cases err <;> simp [logCachePut, DbCall.isGet]

theorem logCachePut_isPut (err : GoError) : (logCachePut err).filter DbCall.isPut = [] := by
  cases err <;> simp [logCachePut, DbCall.isPut]

theorem logCachePut_isTableLog (err : GoError) :
    (logCachePut err).filter DbCall.isTableLog = [] := by
  cases err <;> simp [logCachePut, DbCall.isTableLog]

theorem logCachePut_callsOnly (err : GoError) : callsOnly (logCachePut err) = [] := by
  cases err <;> simp [logCachePut, callsOnly, DbCall.isLog]

theorem callsOnly_append (a b : List DbCall) : callsOnly (a ++ b) = callsOnly a ++ callsOnly b := by
  simp [callsOnly]

theorem mem_filter_isGet (calls : List DbCall) (h : calls.filter DbCall.isGet = [])
    (c : DbCall) (hc : c ∈ calls) : c.isGet = false := by
  cases hg : c.isGet with
  | false => rfl
  | true =>
    have : c ∈ calls.filter DbCall.isGet := List.mem_filter.mpr ⟨hc, hg⟩
    rw [h] at this
    cases this

/-- What the computation from the database file (lines 514-656) does: the failed
table check writes no cache entry; the only cache read is that of the row-data key;
a rendered page comes after `OpenMinioObject` and after exactly the two cache writes,
keeps the star flag, user name, row limit and star and fork counts it was given, and
on a miss of the row-data key at line 628 carries the rows read from the database,
read before they are written to the cache. -/
theorem databasePageFresh_spec (w : DBWorld) (q : DatabaseRequest) (p : Prepared)
    (pd : DatabasePageData) (r : DbResult) (hr : databasePageFresh w q p pd = r) :
    (r.calls.filter DbCall.isTableLog ≠ [] →
      r.calls.filter DbCall.isPut = [] ∧
        r.outcome = DbOutcome.errorPage StatusBadRequest "Requested table not present") ∧
    (∀ c ∈ r.calls, c.isGet = true →
      c = DbCall.GetCachedData p.rowCacheKey CacheTarget.rows (w.GetCachedRowsAgain p.rowCacheKey).1) ∧
    (∀ pd', r.outcome = DbOutcome.rendered pd' →
      (∃ rest, r.calls = DbCall.OpenMinioObject :: rest) ∧
      r.calls.filter DbCall.isPut =
        [DbCall.CacheData p.mdataCacheKey CacheTarget.page w.CacheTime,
          DbCall.CacheData p.rowCacheKey CacheTarget.rows w.CacheTime] ∧
      pd'.MyStar = p.myStar ∧ pd'.Meta.LoggedInUser = pd.Meta.LoggedInUser ∧
      pd'.DB.MaxRows = pd.DB.MaxRows ∧ pd'.DB.Info.Stars = pd.DB.Info.Stars ∧
      pd'.DB.Info.Forks = pd.DB.Info.Forks ∧
      ((w.GetCachedRowsAgain p.rowCacheKey).1 = false →
        ∃ x z sdb tbl col,
          r.calls = DbCall.OpenMinioObject :: x ++ DbCall.ReadSQLiteDB ::
            DbCall.CacheData p.rowCacheKey CacheTarget.rows w.CacheTime :: z ∧
          pd'.Data =
            { (w.ReadSQLiteDB sdb tbl pd.DB.MaxRows col q.sortDir q.rowOffset).1 with
              Tablename := tbl })) := by
  subst hr
  unfold databasePageFresh
  rcases databasePageOpen_spec w q p pd with ⟨r, hr, h1, h2, h3, h4⟩ |
    ⟨o, rest, ho, hpd, hcalls, h2, h3, h4⟩
  · simp only [hr]
    refine ⟨fun h => ⟨h3, h4 h⟩, fun c hc hg => ?_, fun pd' hpd' => absurd hpd' (h1 pd')⟩
    rw [mem_filter_isGet r.calls h2 c hc] at hg
    cases hg
  · simp only [ho]
    rcases databasePageFill_spec w q p o with hf | ⟨pd1, hf, hs, hu, hm, hst, hfk⟩
    · simp only [hf, DbResult.after, hcalls]
      refine ⟨?_, ?_, ?_⟩
      · simp [List.filter_cons, h4, DbCall.isTableLog]
      · intro c hc hg
        have : c.isGet = false := mem_filter_isGet _ (by
          simp [List.filter_cons, h2, DbCall.isGet]) c hc
        rw [this] at hg
        cases hg
      · intro pd' hpd'
        cases hpd'
    · simp only [hf]
      have hfields : pd1.Meta.LoggedInUser = pd.Meta.LoggedInUser ∧
          pd1.DB.MaxRows = pd.DB.MaxRows ∧ pd1.DB.Info.Stars = pd.DB.Info.Stars ∧
          pd1.DB.Info.Forks = pd.DB.Info.Forks := by
        rw [hu, hm, hst, hfk, hpd]
        exact ⟨rfl, rfl, rfl, rfl⟩
      obtain ⟨hu', hm', hst', hfk'⟩ := hfields
      cases hok : (w.GetCachedRowsAgain p.rowCacheKey).1 with
      | true =>
        rw [databasePageStore_hit w q p o pd1 hok]
        simp only [DbResult.after, hcalls]
        refine ⟨?_, ?_, ?_⟩
        · simp [List.filter_cons, List.filter_append, h4, DbCall.isTableLog,
            logCachePut_isTableLog, logCacheGet_isTableLog]
        · intro c hc hg
          have hmem : c ∈ List.filter DbCall.isGet
              (DbCall.OpenMinioObject :: rest ++ [DbCall.ForkedFrom] ++
                ([DbCall.CacheData p.mdataCacheKey CacheTarget.page w.CacheTime] ++
                  logCachePut (w.CacheDataPage p.mdataCacheKey pd1 w.CacheTime) ++
                  [DbCall.GetCachedData p.rowCacheKey CacheTarget.rows true] ++
                  logCacheGet (w.GetCachedRowsAgain p.rowCacheKey).2.1 ++
                  [DbCall.CacheData p.rowCacheKey CacheTarget.rows w.CacheTime] ++
                  logCachePut (w.CacheDataRows p.rowCacheKey
                    ((w.GetCachedRowsAgain p.rowCacheKey).2.2 pd1.Data) w.CacheTime))) :=
            List.mem_filter.mpr ⟨hc, hg⟩
          simpa [List.filter_cons, List.filter_append, h2, DbCall.isGet, logCachePut_isGet,
            logCacheGet_isGet] using hmem
        · intro pd' hpd'
          cases hpd'
          refine ⟨⟨_, rfl⟩, ?_, hs, hu', hm', hst', hfk', fun h => by cases h⟩
          simp [List.filter_cons, List.filter_append, h3, DbCall.isPut, logCachePut_isPut,
            logCacheGet_isPut]
      | false =>
        cases hread : (w.ReadSQLiteDB o.sdb o.dbTable pd1.DB.MaxRows o.sortCol q.sortDir
            q.rowOffset).2 with
        | some msg =>
          rw [databasePageStore_read_error w q p o pd1 msg hok hread]
          simp only [DbResult.after, hcalls]
          refine ⟨?_, ?_, ?_⟩
          · simp [List.filter_cons, List.filter_append, h4, DbCall.isTableLog,
              logCachePut_isTableLog, logCacheGet_isTableLog]
          · intro c hc hg
            have hmem := List.mem_filter.mpr ⟨hc, hg⟩
            simpa [List.filter_cons, List.filter_append, h2, DbCall.isGet, logCachePut_isGet,
              logCacheGet_isGet] using hmem
          · intro pd' hpd'
            cases hpd'
        | none =>
          rw [databasePageStore_read w q p o pd1 hok hread]
          simp only [DbResult.after, hcalls]
          refine ⟨?_, ?_, ?_⟩
          · simp [List.filter_cons, List.filter_append, h4, DbCall.isTableLog,
              logCachePut_isTableLog, logCacheGet_isTableLog]
          · intro c hc hg
            have hmem := List.mem_filter.mpr ⟨hc, hg⟩
            simpa [List.filter_cons, List.filter_append, h2, DbCall.isGet, logCachePut_isGet,
              logCacheGet_isGet] using hmem
          · intro pd' hpd'
            cases hpd'
            refine ⟨⟨_, rfl⟩, ?_, hs, hu', hm', hst', hfk', fun _ => ?_⟩
            · simp [List.filter_cons, List.filter_append, h3, DbCall.isPut, logCachePut_isPut,
                logCacheGet_isPut]
            · refine ⟨rest ++ [DbCall.ForkedFrom] ++
                  ([DbCall.CacheData p.mdataCacheKey CacheTarget.page w.CacheTime] ++
                    logCachePut (w.CacheDataPage p.mdataCacheKey pd1 w.CacheTime) ++
                    [DbCall.GetCachedData p.rowCacheKey CacheTarget.rows false] ++
                    logCacheGet (w.GetCachedRowsAgain p.rowCacheKey).2.1),
                  logCachePut (w.CacheDataRows p.rowCacheKey
                    { (w.ReadSQLiteDB o.sdb o.dbTable pd1.DB.MaxRows o.sortCol q.sortDir
                        q.rowOffset).1 with Tablename := o.dbTable } w.CacheTime),
                  o.sdb, o.dbTable, o.sortCol, ?_, ?_⟩
              · simp
              · rw [← hm']

theorem mem_logCacheGet (err : GoError) (c : DbCall) (h : c ∈ logCacheGet err) :
    c.isLog = true := by
  cases err with
  | none => cases h
  | some m =>
    simp only [logCacheGet, List.mem_singleton] at h
    subst h
    rfl

theorem mem_logCachePut (err : GoError) (c : DbCall) (h : c ∈ logCachePut err) :
    c.isLog = true := by
  cases err with
  | none => cases h
  | some m =>
    simp only [logCachePut, List.mem_singleton] at h
    subst h
    rfl

/-- The calls of lines 423-473 are neither cache operations nor the opening of the
database object, and log nothing. -/
theorem prepared_calls_plain (calls : List DbCall)
    (h : calls ⊆ [DbCall.DBDetails, DbCall.CheckDBStarred, DbCall.PrefUserMaxRows]) :
    (∀ c ∈ calls, c.isGet = false) ∧ DbCall.OpenMinioObject ∉ calls ∧
      calls.filter DbCall.isPut = [] ∧ calls.filter DbCall.isTableLog = [] ∧
      callsOnly calls = calls := by
  have hall : ∀ c ∈ calls,
      c = DbCall.DBDetails ∨ c = DbCall.CheckDBStarred ∨ c = DbCall.PrefUserMaxRows := by
    intro c hc
    simpa using h hc
  refine ⟨?_, ?_, ?_, ?_, ?_⟩
  · intro c hc
    rcases hall c hc with rfl | rfl | rfl <;> rfl
  · intro hc
    rcases hall _ hc with h | h | h <;> cases h
  · rw [List.filter_eq_nil_iff]
    intro c hc
    rcases hall c hc with rfl | rfl | rfl <;> simp [DbCall.isPut]
  · rw [List.filter_eq_nil_iff]
    intro c hc
    rcases hall c hc with rfl | rfl | rfl <;> simp [DbCall.isTableLog]
  · unfold callsOnly
    rw [List.filter_eq_self]
    intro c hc
    rcases hall c hc with rfl | rfl | rfl <;> rfl

/-- The four ways `databasePage` goes on once the cache keys are derived: metadata
miss, metadata hit with a failing `SocialStats`, hit of both keys, and metadata hit
with a miss of the row-data key. -/
theorem databasePage_of_prepared (w : DBWorld) (q : DatabaseRequest) (p : Prepared)
    (hp : databasePagePrepare w q = Except.ok p) :
    ((w.GetCachedPage p.mdataCacheKey).1 = false ∧
      databasePage w q =
        (databasePageFresh w q p ((w.GetCachedPage p.mdataCacheKey).2.2 p.pageData)).after
          (p.calls ++ ([DbCall.GetCachedData p.mdataCacheKey CacheTarget.page false] ++
            logCacheGet (w.GetCachedPage p.mdataCacheKey).2.1))) ∨
    ((w.GetCachedPage p.mdataCacheKey).1 = true ∧
      (∃ msg, (w.SocialStats q.dbOwner "/" q.dbName).2.2.2 = some msg ∧
        databasePage w q =
          ⟨p.calls ++ cachedCalls w p, DbOutcome.errorPage StatusInternalServerError msg⟩)) ∨
    ((w.GetCachedPage p.mdataCacheKey).1 = true ∧
      (w.SocialStats q.dbOwner "/" q.dbName).2.2.2 = none ∧
      (w.GetCachedRows p.rowCacheKey).1 = true ∧
      databasePage w q =
        ⟨p.calls ++ cachedCalls w p, DbOutcome.rendered (cachedPageData w q p)⟩) ∨
    ((w.GetCachedPage p.mdataCacheKey).1 = true ∧
      (w.SocialStats q.dbOwner "/" q.dbName).2.2.2 = none ∧
      (w.GetCachedRows p.rowCacheKey).1 = false ∧
      databasePage w q =
        (databasePageFresh w q p (cachedPageData w q p)).after (p.calls ++ cachedCalls w p)) := by
  unfold databasePage
  simp only [hp]
  cases h1 : (w.GetCachedPage p.mdataCacheKey).1 with
  | false =>
    rw [databasePageCached_miss w q p h1]
    exact Or.inl ⟨rfl, rfl⟩
  | true =>
    rw [databasePageCached_hit w q p h1]
    cases hs : (w.SocialStats q.dbOwner "/" q.dbName).2.2.2 with
    | some msg =>
      exact Or.inr (Or.inl ⟨rfl, msg, rfl, by simp [DbResult.after, dbErrorPageErr]⟩)
    | none =>
      cases h2 : (w.GetCachedRows p.rowCacheKey).1 with
      | true => exact Or.inr (Or.inr (Or.inl ⟨rfl, rfl, rfl, by simp [DbResult.after]⟩))
      | false => exact Or.inr (Or.inr (Or.inr ⟨rfl, rfl, rfl, by simp⟩))

/-- The cache reads recorded after a metadata hit are those of the two keys. -/
theorem cachedCalls_get (w : DBWorld) (p : Prepared) (c : DbCall) (hc : c ∈ cachedCalls w p)
    (hg : c.isGet = true) :
    c = DbCall.GetCachedData p.mdataCacheKey CacheTarget.page true ∨
      c = DbCall.GetCachedData p.rowCacheKey CacheTarget.rows (w.GetCachedRows p.rowCacheKey).1 := by
  simp only [cachedCalls, List.mem_append, List.mem_singleton] at hc
  rcases hc with (((hc | hc) | hc) | hc) | hc
  · exact Or.inl hc
  · have hl := mem_logCacheGet _ _ hc
    cases c <;> simp [DbCall.isLog, DbCall.isGet] at hl hg
  · exact Or.inr hc
  · have hl := mem_logCacheGet _ _ hc
    cases c <;> simp [DbCall.isLog, DbCall.isGet] at hl hg
  · subst hc
    cases hg

/-- After a metadata hit, lines 475-498 neither open the database object nor write
to the cache. -/
theorem cachedCalls_plain (w : DBWorld) (p : Prepared) :
    DbCall.OpenMinioObject ∉ cachedCalls w p ∧ (cachedCalls w p).filter DbCall.isPut = [] ∧
      (cachedCalls w p).filter DbCall.isTableLog = [] := by
  refine ⟨?_, ?_, ?_⟩
  · intro hc
    simp only [cachedCalls, List.mem_append, List.mem_singleton] at hc
    rcases hc with (((hc | hc) | hc) | hc) | hc
    · cases hc
    · exact absurd hc (logCacheGet_open _)
    · cases hc
    · exact absurd hc (logCacheGet_open _)
    · cases hc
  · simp [cachedCalls, List.filter_append, List.filter_cons, DbCall.isPut, logCacheGet_isPut]
  · simp [cachedCalls, List.filter_append, List.filter_cons, DbCall.isTableLog,
      logCacheGet_isTableLog]

/-- The cache reads recorded by a whole run of `databasePage` are the read of the
metadata key into the page data and reads of the row-data key into the rows, each
with the found flag the cache answers to that read. -/
theorem databasePage_gets (w : DBWorld) (q : DatabaseRequest) (p : Prepared)
    (hp : databasePagePrepare w q = Except.ok p) (hsub : ∀ c ∈ p.calls, c.isGet = false)
    (c : DbCall) (hc : c ∈ (databasePage w q).calls) (hg : c.isGet = true) :
    c = DbCall.GetCachedData p.mdataCacheKey CacheTarget.page (w.GetCachedPage p.mdataCacheKey).1 ∨
      (∃ f, c = DbCall.GetCachedData p.rowCacheKey CacheTarget.rows f) := by
  have hplain : c ∉ p.calls := by
    intro h
    rw [hsub c h] at hg
    cases hg
  rcases databasePage_of_prepared w q p hp with ⟨h1, hrun⟩ | ⟨h1, msg, hs, hrun⟩ |
    ⟨h1, hs, h2, hrun⟩ | ⟨h1, hs, h2, hrun⟩
  · rw [hrun] at hc
    simp only [DbResult.after, List.mem_append, List.mem_singleton] at hc
    rcases hc with (hc | hc | hc) | hc
    · exact absurd hc hplain
    · rw [h1]; exact Or.inl hc
    · have hl := mem_logCacheGet _ _ hc
      cases c <;> simp [DbCall.isLog, DbCall.isGet] at hl hg
    · exact Or.inr ⟨_, (databasePageFresh_spec w q p _ _ rfl).2.1 c hc hg⟩
  · rw [hrun] at hc
    rcases List.mem_append.mp hc with hc | hc
    · exact absurd hc hplain
    · rw [h1]
      exact (cachedCalls_get w p c hc hg).imp_right (fun h => ⟨_, h⟩)
  · rw [hrun] at hc
    rcases List.mem_append.mp hc with hc | hc
    · exact absurd hc hplain
    · rw [h1]
      exact (cachedCalls_get w p c hc hg).imp_right (fun h => ⟨_, h⟩)
  · rw [hrun] at hc
    simp only [DbResult.after, List.mem_append] at hc
    rcases hc with (hc | hc) | hc
    · exact absurd hc hplain
    · rw [h1]
      exact (cachedCalls_get w p c hc hg).imp_right (fun h => ⟨_, h⟩)
    · exact Or.inr ⟨_, (databasePageFresh_spec w q p _ _ rfl).2.1 c hc hg⟩

theorem viewerOf_flipStar (w : DBWorld) : viewerOf (flipStar w) = viewerOf w := rfl

theorem databasePagePrepare_flipStar (w : DBWorld) (q : DatabaseRequest) (p : Prepared)
    (hp : databasePagePrepare w q = Except.ok p) :
    databasePagePrepare (flipStar w) q = Except.ok { p with myStar := !p.myStar } := by
  unfold databasePagePrepare at hp ⊢
  simp only at hp
  simp only [viewerOf_flipStar]
  simp only [flipStar]
  split_ifs at hp ⊢ <;> cases hp <;> rfl


/-! ## The same response under variations of the cache -/

theorem callsOnly_cons (c : DbCall) (l : List DbCall) :
    callsOnly (c :: l) = (if c.isLog then [] else [c]) ++ callsOnly l := by
  cases h : c.isLog <;> simp [callsOnly, h]

theorem sameResponse_refl (r : DbResult) : SameResponse r r :=
  ⟨rfl, rfl⟩

theorem sameResponse_after (r r' : DbResult) (a a' : List DbCall) (h : SameResponse r r')
    (ha : callsOnly a = callsOnly a') : SameResponse (r.after a) (r'.after a') := by
  obtain ⟨ho, hc⟩ := h
  exact ⟨ho, by simp [DbResult.after, callsOnly_append, ha, hc]⟩

/-- The computation from the database file gives the same response in two worlds
that open, check and fill alike and store alike up to what is logged. -/
theorem databasePageFresh_congr (w w' : DBWorld) (q : DatabaseRequest) (p : Prepared)
    (pd : DatabasePageData)
    (hopen : databasePageOpen w' q p pd = databasePageOpen w q p pd)
    (hfill : ∀ o, databasePageFill w' q p o = databasePageFill w q p o)
    (hstore : ∀ o pd1, SameResponse (databasePageStore w' q p o pd1)
      (databasePageStore w q p o pd1)) :
    SameResponse (databasePageFresh w' q p pd) (databasePageFresh w q p pd) := by
  unfold databasePageFresh
  rw [hopen]
  cases databasePageOpen w q p pd with
  | error r => exact sameResponse_refl r
  | ok o =>
    simp only [hfill]
    cases databasePageFill w q p o with
    | error r => exact sameResponse_refl _
    | ok x =>
      obtain ⟨pd1, calls⟩ := x
      exact sameResponse_after _ _ _ _ (hstore o pd1) rfl

/-- The handler gives the same response in two worlds that prepare alike, look the
cache up alike up to what is logged, and compute from the database file alike. -/
theorem databasePage_congr (w w' : DBWorld) (q : DatabaseRequest)
    (hprep : databasePagePrepare w' q = databasePagePrepare w q)
    (hcached : ∀ p,
      match databasePageCached w' q p, databasePageCached w q p with
      | Except.error r', Except.error r => SameResponse r' r
      | Except.ok (pd', c'), Except.ok (pd, c) => pd' = pd ∧ callsOnly c' = callsOnly c
      | _, _ => False)
    (hfresh : ∀ p pd, SameResponse (databasePageFresh w' q p pd) (databasePageFresh w q p pd)) :
    SameResponse (databasePage w' q) (databasePage w q) := by
  unfold databasePage
  rw [hprep]
  cases databasePagePrepare w q with
  | error r => exact sameResponse_refl r
  | ok p =>
    have hc := hcached p
    simp only
    generalize databasePageCached w' q p = x at hc ⊢
    generalize databasePageCached w q p = y at hc ⊢
    rcases x with r' | ⟨pd', c'⟩ <;> rcases y with r | ⟨pd, c⟩ <;> simp only at hc
    · exact sameResponse_after _ _ _ _ hc rfl
    · obtain ⟨hpd, hcc⟩ := hc
      subst hpd
      exact sameResponse_after _ _ _ _ (hfresh p pd') (by simp [callsOnly_append, hcc])

theorem databasePageStore_withPuts (w : DBWorld) (f : CacheKey → DatabasePageData → Nat → GoError)
    (g : CacheKey → SQLiteRecordSet → Nat → GoError) (q : DatabaseRequest) (p : Prepared)
    (o : Opened) (pd : DatabasePageData) :
    SameResponse (databasePageStore (withPuts w f g) q p o pd) (databasePageStore w q p o pd) := by
  cases hok : (w.GetCachedRowsAgain p.rowCacheKey).1 with
  | true =>
    rw [databasePageStore_hit w q p o pd hok, databasePageStore_hit (withPuts w f g) q p o pd hok]
    exact ⟨rfl, by simp [callsOnly_append, callsOnly_cons, DbCall.isLog, logCachePut_callsOnly,
      logCacheGet_callsOnly, withPuts]⟩
  | false =>
    cases hread : (w.ReadSQLiteDB o.sdb o.dbTable pd.DB.MaxRows o.sortCol q.sortDir
        q.rowOffset).2 with
    | some msg =>
      rw [databasePageStore_read_error w q p o pd msg hok hread,
        databasePageStore_read_error (withPuts w f g) q p o pd msg hok hread]
      exact ⟨rfl, by simp [callsOnly_append, callsOnly_cons, DbCall.isLog,
        logCachePut_callsOnly, logCacheGet_callsOnly, withPuts]⟩
    | none =>
      rw [databasePageStore_read w q p o pd hok hread,
        databasePageStore_read (withPuts w f g) q p o pd hok hread]
      exact ⟨rfl, by simp [callsOnly_append, callsOnly_cons, DbCall.isLog,
        logCachePut_callsOnly, logCacheGet_callsOnly, withPuts]⟩

theorem databasePageStore_silenceGets (w : DBWorld) (q : DatabaseRequest) (p : Prepared)
    (o : Opened) (pd : DatabasePageData) :
    SameResponse (databasePageStore (silenceGets w) q p o pd) (databasePageStore w q p o pd) := by
  cases hok : (w.GetCachedRowsAgain p.rowCacheKey).1 with
  | true =>
    rw [databasePageStore_hit w q p o pd hok,
      databasePageStore_hit (silenceGets w) q p o pd hok]
    exact ⟨rfl, by simp [callsOnly_append, callsOnly_cons, DbCall.isLog, logCachePut_callsOnly,
      logCacheGet_callsOnly, silenceGets]⟩
  | false =>
    cases hread : (w.ReadSQLiteDB o.sdb o.dbTable pd.DB.MaxRows o.sortCol q.sortDir
        q.rowOffset).2 with
    | some msg =>
      rw [databasePageStore_read_error w q p o pd msg hok hread,
        databasePageStore_read_error (silenceGets w) q p o pd msg hok hread]
      exact ⟨rfl, by simp [callsOnly_append, callsOnly_cons, DbCall.isLog,
        logCachePut_callsOnly, logCacheGet_callsOnly, silenceGets]⟩
    | none =>
      rw [databasePageStore_read w q p o pd hok hread,
        databasePageStore_read (silenceGets w) q p o pd hok hread]
      exact ⟨rfl, by simp [callsOnly_append, callsOnly_cons, DbCall.isLog,
        logCachePut_callsOnly, logCacheGet_callsOnly, silenceGets]⟩

theorem databasePageCached_silenceGets (w : DBWorld) (q : DatabaseRequest) (p : Prepared) :
    match databasePageCached (silenceGets w) q p, databasePageCached w q p with
    | Except.error r', Except.error r => SameResponse r' r
    | Except.ok (pd', c'), Except.ok (pd, c) => pd' = pd ∧ callsOnly c' = callsOnly c
    | _, _ => False := by
  cases h1 : (w.GetCachedPage p.mdataCacheKey).1 with
  | false =>
    rw [databasePageCached_miss w q p h1, databasePageCached_miss (silenceGets w) q p h1]
    exact ⟨rfl, by simp [callsOnly_append, callsOnly_cons, DbCall.isLog, logCacheGet_callsOnly,
      silenceGets]⟩
  | true =>
    rw [databasePageCached_hit w q p h1, databasePageCached_hit (silenceGets w) q p h1]
    have hcalls : callsOnly (cachedCalls (silenceGets w) p) = callsOnly (cachedCalls w p) := by
      simp [cachedCalls, callsOnly_append, callsOnly_cons, DbCall.isLog, logCacheGet_callsOnly,
        silenceGets]
    have hpage : cachedPageData (silenceGets w) q p = cachedPageData w q p := rfl
    have hstats : (silenceGets w).SocialStats = w.SocialStats := rfl
    have hrows : ((silenceGets w).GetCachedRows p.rowCacheKey).1 =
        (w.GetCachedRows p.rowCacheKey).1 := rfl
    rw [hstats, hrows, hpage]
    split_ifs
    · exact ⟨rfl, hcalls⟩
    · exact ⟨rfl, hcalls⟩
    · exact ⟨rfl, hcalls⟩

/-- A page rendered after a miss of the metadata key or of the row-data key, or after
opening the database object, is the result of the computation from the database file. -/
theorem databasePage_rendered_fresh (w : DBWorld) (q : DatabaseRequest) (p : Prepared)
    (pd : DatabasePageData)
    (hp : databasePagePrepare w q = Except.ok p)
    (hout : (databasePage w q).outcome = DbOutcome.rendered pd)
    (hwhy : (w.GetCachedPage p.mdataCacheKey).1 = false ∨
      (w.GetCachedRows p.rowCacheKey).1 = false ∨
      DbCall.OpenMinioObject ∈ (databasePage w q).calls) :
    ∃ pd0 pre, databasePage w q = (databasePageFresh w q p pd0).after pre ∧
      (databasePageFresh w q p pd0).outcome = DbOutcome.rendered pd := by
  rcases databasePagePrepare_spec w q with ⟨r, hr, _⟩ | ⟨p', hp', _, _, _, _, _, _, hsub⟩
  · rw [hr] at hp
    cases hp
  · rw [hp] at hp'
    cases hp'
    obtain ⟨_, hpo, _⟩ := prepared_calls_plain p.calls hsub
    rcases databasePage_of_prepared w q p hp with ⟨h1, hrun⟩ | ⟨h1, msg, hs, hrun⟩ |
      ⟨h1, hs, h2, hrun⟩ | ⟨h1, hs, h2, hrun⟩
    · exact ⟨_, _, hrun, by rw [hrun] at hout; exact hout⟩
    · rw [hrun] at hout
      cases hout
    · rcases hwhy with h | h | h
      · rw [h1] at h
        cases h
      · rw [h2] at h
        cases h
      · rw [hrun] at h
        rcases List.mem_append.mp h with h | h
        · exact absurd h hpo
        · exact absurd h (cachedCalls_plain w p).1
    · exact ⟨_, _, hrun, by rw [hrun] at hout; exact hout⟩

/-! ## What the computation from the database file has read and stored -/

theorem databasePageSortCol_ok (w : DBWorld) (q : DatabaseRequest) (sdb : SQLiteHandle)
    (dbTable sortCol : String) (calls : List DbCall)
    (h : databasePageSortCol w q sdb dbTable = Except.ok (sortCol, calls)) :
    sortCol =
        (if q.sortCol ≠ "" ∧ q.sortCol ∈ (w.Columns sdb "" dbTable).1 then q.sortCol else "") ∧
      (q.sortCol ≠ "" → (w.Columns sdb "" dbTable).2 = none) ∧
      calls = (if q.sortCol ≠ "" then [DbCall.Columns] else []) := by
  unfold databasePageSortCol at h
  by_cases hs : q.sortCol = ""
  · simp only [ne_eq, hs, not_true_eq_false, if_false] at h
    cases h
    simp [hs]
  · simp only [ne_eq, hs, not_false_eq_true, if_true] at h
    cases hc : (w.Columns sdb "" dbTable).2 with
    | some m =>
      rw [hc] at h
      cases h
    | none =>
      rw [hc] at h
      cases h
      simp [hs]

theorem databasePageValidate_ok (w : DBWorld) (dbTable : String) (calls : List DbCall)
    (h : databasePageValidate w dbTable = Except.ok calls) :
    w.ValidatePGTable dbTable = none ∧ calls = [DbCall.ValidatePGTable] := by
  unfold databasePageValidate at h
  cases hv : w.ValidatePGTable dbTable with
  | some m =>
    simp only [hv] at h
    cases h
  | none =>
    simp only [hv] at h
    cases h
    exact ⟨rfl, rfl⟩

/-- What lines 514-592 have done when they do not `return`: the database object
named by the SHA256 of the page data is open, its tables are listed, the table is the
requested one, present in the list, or the first of the list, the sort column is the
requested one when it is a column of that table, and the table name is validated. -/
theorem databasePageOpen_ok (w : DBWorld) (q : DatabaseRequest) (p : Prepared)
    (pd : DatabasePageData) (o : Opened) (h : databasePageOpen w q p pd = Except.ok o) :
    w.MinioFolderChars ≤ pd.DB.Info.DBEntry.Sha256.length ∧
    o.sdb = (w.OpenMinioObject (pd.DB.Info.DBEntry.Sha256.take w.MinioFolderChars)
      (pd.DB.Info.DBEntry.Sha256.drop w.MinioFolderChars)).1 ∧
    (w.OpenMinioObject (pd.DB.Info.DBEntry.Sha256.take w.MinioFolderChars)
      (pd.DB.Info.DBEntry.Sha256.drop w.MinioFolderChars)).2.2 = none ∧
    (w.Tables o.sdb q.dbName).2 = none ∧
    (if p.dbTable = "" then (w.Tables o.sdb q.dbName).1.head? else some p.dbTable) =
      some o.dbTable ∧
    o.dbTable ∈ (w.Tables o.sdb q.dbName).1 ∧
    o.sortCol =
      (if q.sortCol ≠ "" ∧ q.sortCol ∈ (w.Columns o.sdb "" o.dbTable).1 then q.sortCol
        else "") ∧
    (q.sortCol ≠ "" → (w.Columns o.sdb "" o.dbTable).2 = none) ∧
    w.ValidatePGTable o.dbTable = none ∧
    o.calls = [DbCall.OpenMinioObject, DbCall.Tables] ++
      (if q.sortCol ≠ "" then [DbCall.Columns] else []) ++ [DbCall.ValidatePGTable] ∧
    o.pageData.Data = pd.Data ∧ o.pageData.DB.MaxRows = pd.DB.MaxRows := by
  unfold databasePageOpen at h
  simp only at h
  split_ifs at h with h1 h2 h3 h4 h5
  all_goals
    split at h
    · cases h
    · rename_i dbTable htbl
      split at h
      · cases h
      · rename_i sortCol calls1 hsort
        split at h
        · cases h
        · rename_i calls2 hval
          cases h
          obtain ⟨hcol, hcerr, hcalls1⟩ := databasePageSortCol_ok w q _ _ _ _ hsort
          obtain ⟨hv, hcalls2⟩ := databasePageValidate_ok w _ _ hval
          refine ⟨by omega, rfl, by simpa using h2, by simpa using h3, ?_, ?_, hcol, hcerr,
            hv, by simp [hcalls1, hcalls2], rfl, rfl⟩
          · first
              | (rw [if_pos h5]; exact htbl)
              | (rw [if_neg h5]; exact htbl)
          · first
              | exact List.mem_of_mem_head? htbl
              | (cases htbl; by_contra hmem; exact h4 ⟨h5, hmem⟩)

theorem databasePageFill_ok (w : DBWorld) (q : DatabaseRequest) (p : Prepared) (o : Opened)
    (pd1 : DatabasePageData) (calls : List DbCall)
    (h : databasePageFill w q p o = Except.ok (pd1, calls)) :
    pd1.Data = o.pageData.Data ∧ pd1.DB.MaxRows = o.pageData.DB.MaxRows ∧
      calls = [DbCall.ForkedFrom] := by
  unfold databasePageFill at h
  simp only at h
  split_ifs at h
  cases h
  exact ⟨rfl, rfl, rfl⟩

/-- A page rendered by the computation from the database file went through the
three parts: the database was opened, the page data filled with the rows and the row
limit it was given untouched, and the page rendered by lines 621-656. -/
theorem databasePageFresh_rendered (w : DBWorld) (q : DatabaseRequest) (p : Prepared)
    (pd0 pd : DatabasePageData)
    (h : (databasePageFresh w q p pd0).outcome = DbOutcome.rendered pd) :
    ∃ o pd1, databasePageOpen w q p pd0 = Except.ok o ∧
      pd1.Data = pd0.Data ∧ pd1.DB.MaxRows = pd0.DB.MaxRows ∧
      databasePageFresh w q p pd0 =
        (databasePageStore w q p o pd1).after (o.calls ++ [DbCall.ForkedFrom]) := by
  unfold databasePageFresh at h ⊢
  rcases databasePageOpen_spec w q p pd0 with ⟨r, hr, h1, _⟩ | ⟨o, rest, ho, _⟩
  · simp only [hr] at h
    exact absurd h (h1 pd)
  · obtain ⟨_, _, _, _, _, _, _, _, _, _, hd, hm⟩ := databasePageOpen_ok w q p pd0 o ho
    simp only [ho] at h ⊢
    cases hf : databasePageFill w q p o with
    | error r =>
      rcases databasePageFill_spec w q p o with hf' | ⟨pd', hf', _⟩
      · simp only [hf', DbResult.after] at h
        cases h
      · rw [hf] at hf'
        cases hf'
    | ok x =>
      obtain ⟨pd1, calls⟩ := x
      obtain ⟨hd1, hm1, hcalls⟩ := databasePageFill_ok w q p o pd1 calls hf
      subst hcalls
      exact ⟨o, pd1, rfl, by rw [hd1, hd], by rw [hm1, hm], rfl⟩

theorem logCacheGet_read (err : GoError) : DbCall.ReadSQLiteDB ∉ logCacheGet err := by
  cases err <;> simp [logCacheGet]

theorem logCachePut_read (err : GoError) : DbCall.ReadSQLiteDB ∉ logCachePut err := by
  cases err <;> simp [logCachePut]

/-! ## The claims -/

/-- C1: when every key of the commit map maps to a record whose ID is that key and
the parent chain from the head commit reaches a commit with an empty parent, the
history rendered by `commitsPage` is exactly that chain, newest first: the handler
ends, any page it renders carries that history, it does render it when the identity
lookups of the chain succeed, and that history has the length of the chain, its IDs
are the references followed from the head, each entry after the first is the parent
of the entry before it, and the last entry has an empty parent reference. -/
theorem commitsPage_history_is_parent_chain (w : World) (s : Resolved) (rawList : CommitMap)
    (chain : List CommitEntry) (fuel : Nat)
    (hres : commitsPageResolve w = Except.ok s)
    (hlist : w.GetCommitList s.dbOwner s.dbFolder s.dbName = (rawList, none))
    (hid : ∀ k c, rawList.lookup k = some c → c.ID = k)
    (hchain : Follows rawList s.headID chain) (hroot : endRef s.headID chain = "")
    (hfuel : chain.length ≤ fuel + 1) :
    (∃ r, commitsPage w fuel = some r) ∧
    (∀ r pd, commitsPage w fuel = some r → r.outcome = Outcome.rendered pd →
      pd.History = chain.map (enrich w)) ∧
    ((∀ c ∈ chain, (w.GetUsernameFromEmail c.AuthorEmail).2 = none) →
      ∃ r, commitsPage w fuel = some r ∧
        r.outcome = Outcome.rendered (fillPageData w s (chain.map (enrich w)))) ∧
    (chain.map (enrich w)).length = chain.length ∧
    (chain.map (enrich w)).map (fun e => e.ID) = refsRead s.headID chain ∧
    List.Chain' (fun a b : HistEntry => b.ID = a.Parent) (chain.map (enrich w)) ∧
    (chain.map (enrich w)).getLast?.map (fun e => e.Parent) = some "" := by
  have hhead := commitsPageResolve_headID w s hres
  have hne : chain ≠ [] := by
    rintro rfl
    exact hhead hroot
  have hrun := commitsPage_of_resolve w s fuel hres
  have hgood : (∀ c ∈ chain, (w.GetUsernameFromEmail c.AuthorEmail).2 = none) →
      commitsPage w fuel = some ⟨s.calls ++ [Call.GetCommitList] ++ chain.map userCall,
        Outcome.rendered (fillPageData w s (chain.map (enrich w)))⟩ := by
    intro husers
    rw [hrun]
    exact commitsPageWalk_complete w s rawList chain fuel hhead hlist hchain hroot husers hfuel
  have hbad : (¬ ∀ c ∈ chain, (w.GetUsernameFromEmail c.AuthorEmail).2 = none) →
      ∃ calls msg, commitsPage w fuel =
        some ⟨calls, Outcome.errorPage StatusInternalServerError msg⟩ := by
    intro hall
    have hex : ∃ c ∈ chain, (w.GetUsernameFromEmail c.AuthorEmail).2 ≠ none := by
      push_neg at hall; exact hall
    obtain ⟨pre, c, post, msg, _, _, _, hw⟩ :=
      commitsPageWalk_user_failure w s rawList chain fuel hlist hchain hex hfuel
    exact ⟨_, msg, by rw [hrun]; exact hw⟩
  refine ⟨?_, ?_, fun husers => ⟨_, hgood husers, rfl⟩, ?_, ?_, ?_, ?_⟩
  · by_cases hall : ∀ c ∈ chain, (w.GetUsernameFromEmail c.AuthorEmail).2 = none
    · exact ⟨_, hgood hall⟩
    · obtain ⟨calls, msg, h⟩ := hbad hall
      exact ⟨_, h⟩
  · intro r pd hr hpd
    by_cases hall : ∀ c ∈ chain, (w.GetUsernameFromEmail c.AuthorEmail).2 = none
    · rw [hgood hall] at hr
      cases hr
      cases hpd
      rfl
    · obtain ⟨calls, msg, h⟩ := hbad hall
      rw [h] at hr
      cases hr
      cases hpd
  · simp
  · have := follows_ids rawList hid chain s.headID hchain
    simpa [enrich, histEntry, List.map_map, Function.comp_def] using this
  · have := follows_linked rawList hid chain s.headID hchain
    simpa [List.chain'_map, enrich, histEntry] using this
  · have := getLast_parent chain s.headID hne
    rw [hroot] at this
    simpa [List.getLast?_map, enrich, histEntry, Option.map_map, Function.comp_def] using this

/-- C1 at the scenario `c3 -> c2 -> c1` on branch `main`: the history is `[c3, c2, c1]`. -/
theorem commitsPage_history_is_parent_chain_witness :
    (∃ r, commitsPage (exWorld "main" exLinear false) 2 = some r) ∧
    (∀ r pd, commitsPage (exWorld "main" exLinear false) 2 = some r →
      r.outcome = Outcome.rendered pd →
      pd.History = (exLinear.map Prod.snd).map (enrich (exWorld "main" exLinear false))) ∧
    ((∀ c ∈ exLinear.map Prod.snd,
        ((exWorld "main" exLinear false).GetUsernameFromEmail c.AuthorEmail).2 = none) →
      ∃ r, commitsPage (exWorld "main" exLinear false) 2 = some r ∧
        r.outcome = Outcome.rendered (fillPageData (exWorld "main" exLinear false)
          (exResolved "main" [Call.GetOD, Call.GetFormBranch, Call.CheckDBExists,
            Call.DBDetails, Call.GetBranches])
          ((exLinear.map Prod.snd).map (enrich (exWorld "main" exLinear false))))) ∧
    ((exLinear.map Prod.snd).map (enrich (exWorld "main" exLinear false))).length =
      (exLinear.map Prod.snd).length ∧
    ((exLinear.map Prod.snd).map (enrich (exWorld "main" exLinear false))).map (fun e => e.ID) =
      refsRead "c3" (exLinear.map Prod.snd) ∧
    List.Chain' (fun a b : HistEntry => b.ID = a.Parent)
      ((exLinear.map Prod.snd).map (enrich (exWorld "main" exLinear false))) ∧
    ((exLinear.map Prod.snd).map (enrich (exWorld "main" exLinear false))).getLast?.map
      (fun e => e.Parent) = some "" :=
  commitsPage_history_is_parent_chain (exWorld "main" exLinear false)
    (exResolved "main" [Call.GetOD, Call.GetFormBranch, Call.CheckDBExists, Call.DBDetails,
      Call.GetBranches])
    exLinear (exLinear.map Prod.snd) 2 rfl rfl
    (lookup_id_of_forall exLinear (by decide)) (by decide) (by decide) (by decide)

/-- C2: when the walk from the head commit reaches a commit whose non-empty parent
reference is not a key of the commit map, `commitsPage` ends with an error page and
renders no history, not even the commits found before the break; when the identity
lookups of the commits found succeed the error is the internal one of line 293. -/
theorem commitsPage_broken_chain_is_error (w : World) (s : Resolved) (rawList : CommitMap)
    (path : List CommitEntry) (fuel : Nat)
    (hres : commitsPageResolve w = Except.ok s)
    (hlist : w.GetCommitList s.dbOwner s.dbFolder s.dbName = (rawList, none))
    (hpath : Follows rawList s.headID path) (hne : path ≠ [])
    (hend : endRef s.headID path ≠ "")
    (hmiss : rawList.lookup (endRef s.headID path) = none)
    (hfuel : path.length ≤ fuel) :
    ∃ r msg, commitsPage w fuel = some r ∧
      r.outcome = Outcome.errorPage StatusInternalServerError msg ∧
      (∀ pd, r.outcome ≠ Outcome.rendered pd) ∧
      ((∀ c ∈ path, (w.GetUsernameFromEmail c.AuthorEmail).2 = none) →
        msg = "Internal error when retrieving commit data") := by
  obtain ⟨r, msg, hrun, hout, hmsg⟩ :=
    commitsPageWalk_broken w s rawList path fuel hlist hpath hne hend hmiss hfuel
  refine ⟨r, msg, ?_, hout, ?_, hmsg⟩
  · rw [commitsPage_of_resolve w s fuel hres]; exact hrun
  · intro pd hpd
    rw [hout] at hpd
    cases hpd

/-- C2 at the scenario: branch `main -> c3` with `c2` omitted from the map. -/
theorem commitsPage_broken_chain_is_error_witness :
    ∃ r msg, commitsPage (exWorld "main" exBroken false) 1 = some r ∧
      r.outcome = Outcome.errorPage StatusInternalServerError msg ∧
      (∀ pd, r.outcome ≠ Outcome.rendered pd) ∧
      ((∀ c ∈ [exCommit "c3" "c2" "a@example.org"],
          ((exWorld "main" exBroken false).GetUsernameFromEmail c.AuthorEmail).2 = none) →
        msg = "Internal error when retrieving commit data") :=
  commitsPage_broken_chain_is_error (exWorld "main" exBroken false)
    (exResolved "main" [Call.GetOD, Call.GetFormBranch, Call.CheckDBExists, Call.DBDetails,
      Call.GetBranches])
    exBroken [exCommit "c3" "c2" "a@example.org"] 1 rfl rfl (by decide) (by decide) (by decide)
    (by decide) (by decide)

/-- C3 (the code at the failing input): with head `c3` missing from the commit map,
`commitsPage` renders a history made of one entry built from the zero commit record
instead of ending with an error. -/
theorem commitsPage_missing_head_renders_empty_entry :
    exNoHead.lookup "c3" = none ∧
    (commitsPage (exWorld "main" exNoHead false) 0).map (fun r => r.outcome) =
      some (Outcome.rendered (fillPageData (exWorld "main" exNoHead false)
        (exResolved "main" [])
        [{ AuthorEmail := "", AuthorName := "", AuthorUserName := "u-", CommitterEmail := "",
           CommitterName := "", ID := "", Message := "<p></p>", Parent := "", Timestamp := 0,
           Tree := default }])) := by
  decide

/-- C8 (the code at the failing input): on the branch `empty`, whose head commit
identifier is the empty string, line 256 evaluates `err.Error()` on a nil error, so
`commitsPage` faults instead of ending with a Bad Request error page. -/
theorem commitsPage_empty_head_faults :
    commitsPage (exWorld "empty" exLinear false) 0 =
      some ⟨[Call.GetOD, Call.GetFormBranch, Call.CheckDBExists, Call.DBDetails,
        Call.GetBranches], Outcome.fault⟩ := by
  decide

/-- C9: when the identity lookup fails for some commit on the parent chain from the
head (the head or any ancestor), `commitsPage` ends with an error page carrying the
message of the first failing lookup and renders no history. -/
theorem commitsPage_identity_failure_aborts (w : World) (s : Resolved) (rawList : CommitMap)
    (path : List CommitEntry) (fuel : Nat)
    (hres : commitsPageResolve w = Except.ok s)
    (hlist : w.GetCommitList s.dbOwner s.dbFolder s.dbName = (rawList, none))
    (hpath : Follows rawList s.headID path)
    (hex : ∃ c ∈ path, (w.GetUsernameFromEmail c.AuthorEmail).2 ≠ none)
    (hfuel : path.length ≤ fuel + 1) :
    ∃ r pre c post msg, commitsPage w fuel = some r ∧
      path = pre ++ c :: post ∧
      (∀ x ∈ pre, (w.GetUsernameFromEmail x.AuthorEmail).2 = none) ∧
      (w.GetUsernameFromEmail c.AuthorEmail).2 = some msg ∧
      r.outcome = Outcome.errorPage StatusInternalServerError msg ∧
      (∀ pd, r.outcome ≠ Outcome.rendered pd) := by
  obtain ⟨pre, c, post, msg, hsplit, hpre, hc, hrun⟩ :=
    commitsPageWalk_user_failure w s rawList path fuel hlist hpath hex hfuel
  refine ⟨⟨s.calls ++ [Call.GetCommitList] ++ (pre ++ [c]).map userCall,
    Outcome.errorPage StatusInternalServerError msg⟩, pre, c, post, msg, ?_, hsplit, hpre, hc,
    rfl, ?_⟩
  · rw [commitsPage_of_resolve w s fuel hres]; exact hrun
  · intro pd hpd
    cases hpd

/-- C9 at `c3 -> c2 -> c1` with the identity lookup of the author of `c2` failing. -/
theorem commitsPage_identity_failure_aborts_witness :
    ∃ r pre c post msg, commitsPage (exWorld "main" exLinear true) 2 = some r ∧
      exLinear.map Prod.snd = pre ++ c :: post ∧
      (∀ x ∈ pre, ((exWorld "main" exLinear true).GetUsernameFromEmail x.AuthorEmail).2 = none) ∧
      ((exWorld "main" exLinear true).GetUsernameFromEmail c.AuthorEmail).2 = some msg ∧
      r.outcome = Outcome.errorPage StatusInternalServerError msg ∧
      (∀ pd, r.outcome ≠ Outcome.rendered pd) :=
  commitsPage_identity_failure_aborts (exWorld "main" exLinear true)
    (exResolved "main" [Call.GetOD, Call.GetFormBranch, Call.CheckDBExists, Call.DBDetails,
      Call.GetBranches])
    exLinear (exLinear.map Prod.snd) 2 rfl rfl (by decide)
    ⟨exCommit "c2" "c1" "b@example.org", by decide, by decide⟩ (by decide)

/-- C4 fails: on a commit map whose parent references form a cycle reachable from
the head (`c3 -> c2 -> c3`, two commits), the walk of `commitsPage` has not ended
after two executions of the loop body, nor after any number of them. -/
theorem commitsPage_cycle_never_ends :
    mapLen exCycle = 2 ∧
    commitsPage (exWorld "main" exCycle false) (mapLen exCycle) = none ∧
    ∀ fuel, commitsPage (exWorld "main" exCycle false) fuel = none := by
  have hall : ∀ fuel, commitsPage (exWorld "main" exCycle false) fuel = none := by
    intro fuel
    have hres : commitsPageResolve (exWorld "main" exCycle false) =
        Except.ok (exResolved "main" [Call.GetOD, Call.GetFormBranch, Call.CheckDBExists,
          Call.DBDetails, Call.GetBranches]) := rfl
    rw [commitsPage_of_resolve _ _ fuel hres,
      commitsPageWalk_head _ _ exCycle fuel rfl (by decide),
      walkLoop_exCycle fuel _ _ _ (Or.inl (by decide))]
  exact ⟨by decide, hall _, hall⟩

/-- C4 as amended: the walk has no iteration cap, but when the parent chain from the
head ends, at a commit with an empty parent or at a reference missing from the map,
the chain holds at most as many commits as the map, and `commitsPage` ends within
that many executions of the loop body, with the page rendered or an error page. -/
theorem commitsPage_walk_ends_when_chain_ends (w : World) (s : Resolved) (rawList : CommitMap)
    (cs : List CommitEntry)
    (hres : commitsPageResolve w = Except.ok s)
    (hlist : w.GetCommitList s.dbOwner s.dbFolder s.dbName = (rawList, none))
    (hpath : Follows rawList s.headID cs)
    (hterm : Terminal rawList (endRef s.headID cs)) :
    cs.length ≤ mapLen rawList ∧
    ∀ fuel, cs.length ≤ fuel →
      ∃ r, commitsPage w fuel = some r ∧
        ((∃ pd, r.outcome = Outcome.rendered pd) ∨
          ∃ msg, r.outcome = Outcome.errorPage StatusInternalServerError msg) := by
  refine ⟨follows_length_le_mapLen rawList cs s.headID hpath hterm, fun fuel hfuel => ?_⟩
  rw [commitsPage_of_resolve w s fuel hres]
  exact commitsPageWalk_terminates w s rawList cs fuel (commitsPageResolve_headID w s hres)
    hlist hpath hterm hfuel

/-- C4 as amended, at the chain `c3 -> c2 -> c1`. -/
theorem commitsPage_walk_ends_when_chain_ends_witness :
    (exLinear.map Prod.snd).length ≤ mapLen exLinear ∧
    ∀ fuel, (exLinear.map Prod.snd).length ≤ fuel →
      ∃ r, commitsPage (exWorld "main" exLinear false) fuel = some r ∧
        ((∃ pd, r.outcome = Outcome.rendered pd) ∨
          ∃ msg, r.outcome = Outcome.errorPage StatusInternalServerError msg) :=
  commitsPage_walk_ends_when_chain_ends (exWorld "main" exLinear false)
    (exResolved "main" [Call.GetOD, Call.GetFormBranch, Call.CheckDBExists, Call.DBDetails,
      Call.GetBranches])
    exLinear (exLinear.map Prod.snd) rfl rfl (by decide) (by decide)

/-- C5: when the default-branch lookup succeeds with name `d`, a request with no
branch name and a request naming `d` end the same way: the same rendered page, the
same error page or the same fault. -/
theorem commitsPage_empty_branch_is_default (w : World) (d : String) (fuel : Nat)
    (hreq : w.GetFormBranch = ("", none))
    (hdef : w.GetDefaultBranchName w.GetOD.1 "/" w.GetOD.2.1 = (d, none)) :
    (commitsPage w fuel).map (fun r => r.outcome) =
      (commitsPage { w with GetFormBranch := (d, none) } fuel).map (fun r => r.outcome) := by
  have hck' := commitsPageChecks_requested w d hreq
  unfold commitsPage commitsPageResolve
  rw [hck']
  rcases commitsPageChecks_spec w with ⟨r, hr, _⟩ | ⟨ck, hck, ho, hf, hn, hb, _⟩
  · simp [hr]
  · simp only [hck]
    have hb' : ck.branchName = "" := by rw [hb, hreq]
    have hdef' : w.GetDefaultBranchName ck.dbOwner ck.dbFolder ck.dbName = (d, none) := by
      rw [ho, hf, hn]; exact hdef
    have hhead := commitsPageHead_default w ck d hb' hdef'
    generalize commitsPageHead w ck = x at hhead ⊢
    generalize commitsPageHead { w with GetFormBranch := (d, none) }
      { ck with branchName := d } = y at hhead ⊢
    rcases x with r | s <;> rcases y with r' | s' <;> simp only at hhead
    · simp [hhead]
    · exact commitsPageWalk_outcome_congr w _ s s' fuel rfl rfl rfl rfl rfl rfl hhead

/-- C5 at the scenario: no branch requested, default branch `main`. -/
theorem commitsPage_empty_branch_is_default_witness :
    (commitsPage (exWorld "" exLinear false) 2).map (fun r => r.outcome) =
      (commitsPage { exWorld "" exLinear false with GetFormBranch := ("main", none) } 2).map
        (fun r => r.outcome) :=
  commitsPage_empty_branch_is_default (exWorld "" exLinear false) "main" 2 rfl rfl

/-- C6: a non-empty requested branch name that is not a key of the branch list makes
`commitsPage` end with an error page: no head commit is resolved, the commit list is
never loaded, no identity lookup is made and nothing is rendered. -/
theorem commitsPage_unknown_branch_fails (w : World) (fuel : Nat)
    (hreq : w.GetFormBranch.1 ≠ "")
    (habsent : (w.GetBranches w.GetOD.1 "/" w.GetOD.2.1).1.lookup w.GetFormBranch.1 = none) :
    (∀ s, commitsPageResolve w ≠ Except.ok s) ∧
    ∃ r code msg, commitsPage w fuel = some r ∧ r.outcome = Outcome.errorPage code msg ∧
      Call.GetCommitList ∉ r.calls ∧ (∀ e, Call.GetUsernameFromEmail e ∉ r.calls) ∧
      (∀ pd, r.outcome ≠ Outcome.rendered pd) := by
  have key : ∃ r code msg, commitsPageResolve w = Except.error r ∧
      r.outcome = Outcome.errorPage code msg ∧
      r.calls ⊆ [Call.GetOD, Call.GetFormBranch, Call.CheckDBExists, Call.DBDetails,
        Call.GetBranches] := by
    unfold commitsPageResolve
    rcases commitsPageChecks_spec w with ⟨r, hr, ⟨code, msg, hout⟩, hsub⟩ |
      ⟨ck, hck, _, _, _, hb, hbr, hcalls⟩
    · exact ⟨r, code, msg, by simp [hr], hout, hsub⟩
    · have hb' : ck.branchName ≠ "" := by rw [hb]; exact hreq
      have hhead := commitsPageHead_unknown w ck ck.branchName (by simp [hb'])
        (fun h => absurd h hb') (by rw [hbr, hb]; exact habsent)
      simp only [hb', if_false] at hhead
      exact ⟨_, _, _, by simp only [hck]; exact hhead, rfl, by rw [hcalls]; exact fun _ h => h⟩
  obtain ⟨r, code, msg, hres, hout, hsub⟩ := key
  refine ⟨fun s hs => ?_, r, code, msg, by simp [commitsPage, hres], hout, ?_, ?_, ?_⟩
  · rw [hres] at hs
    cases hs
  · intro h
    have := hsub h
    simp at this
  · intro e h
    have := hsub h
    simp at this
  · intro pd hpd
    rw [hout] at hpd
    cases hpd

/-- C6 at the scenario: the registry has no branch named `dev`, which is requested. -/
theorem commitsPage_unknown_branch_fails_witness :
    (∀ s, commitsPageResolve (exWorld "dev" exLinear false) ≠ Except.ok s) ∧
    ∃ r code msg, commitsPage (exWorld "dev" exLinear false) 2 = some r ∧
      r.outcome = Outcome.errorPage code msg ∧
      Call.GetCommitList ∉ r.calls ∧ (∀ e, Call.GetUsernameFromEmail e ∉ r.calls) ∧
      (∀ pd, r.outcome ≠ Outcome.rendered pd) :=
  commitsPage_unknown_branch_fails (exWorld "dev" exLinear false) 2 (by decide) (by decide)

/-- C7 fails: for the requested branch `dev`, absent from the registry, the status
reported by `commitsPage` is 500, which is not a request-error (4xx) status. -/
theorem commitsPage_unknown_branch_status_is_500 :
    (exWorld "dev" exLinear false).GetFormBranch.1 = "dev" ∧
    ((exWorld "dev" exLinear false).GetBranches "alice" "/" "db.sqlite").1.lookup "dev" = none ∧
    (commitsPage (exWorld "dev" exLinear false) 0).map (fun r => r.outcome) =
      some (Outcome.errorPage 500 "Branch 'dev' not found") ∧
    ¬ (400 ≤ 500 ∧ 500 < 500) := by
  decide

/-- C7 as amended: once the request has passed the checks that precede branch
resolution, a branch name (the requested one, or the default one when none is
requested and the default lookup succeeds) that is absent from the registry is
reported with status 500 Internal Server Error and the message
`Branch '<name>' not found`. -/
theorem commitsPage_unknown_branch_is_server_error (w : World) (ck : Checked) (name : String)
    (fuel : Nat)
    (hck : commitsPageChecks w = Except.ok ck)
    (hname : name = if ck.branchName = "" then
      (w.GetDefaultBranchName ck.dbOwner ck.dbFolder ck.dbName).1 else ck.branchName)
    (hdef : ck.branchName = "" →
      (w.GetDefaultBranchName ck.dbOwner ck.dbFolder ck.dbName).2 = none)
    (habsent : ck.branches.lookup name = none) :
    ∃ r, commitsPage w fuel = some r ∧
      r.outcome = Outcome.errorPage StatusInternalServerError
        ("Branch '" ++ name ++ "' not found") ∧
      StatusInternalServerError = 500 := by
  have hhead := commitsPageHead_unknown w ck name hname hdef habsent
  exact ⟨⟨if ck.branchName = "" then ck.calls ++ [Call.GetDefaultBranchName] else ck.calls,
    Outcome.errorPage StatusInternalServerError ("Branch '" ++ name ++ "' not found")⟩,
    by simp only [commitsPage, commitsPageResolve, hck, hhead], rfl, rfl⟩

/-- C7 as amended, at the scenario: branch `dev` requested. -/
theorem commitsPage_unknown_branch_is_server_error_witness :
    ∃ r, commitsPage (exWorld "dev" exLinear false) 0 = some r ∧
      r.outcome = Outcome.errorPage StatusInternalServerError
        ("Branch '" ++ "dev" ++ "' not found") ∧
      StatusInternalServerError = 500 :=
  commitsPage_unknown_branch_is_server_error (exWorld "dev" exLinear false)
    { loggedInUser := "", dbOwner := "alice", dbFolder := "/", dbName := "db.sqlite",
      branchName := "dev", branches := [("main", ⟨"c3", ""⟩), ("empty", ⟨"", ""⟩)],
      DB := default,
      calls := [Call.GetOD, Call.GetFormBranch, Call.CheckDBExists, Call.DBDetails,
        Call.GetBranches] }
    "dev" 0 rfl (by decide) (by decide) (by decide)

/-- C10 fails: the triples `("a/b", "c", 0)` and `("a", "b/c", 0)` differ in the sort
column and in the sort direction, and get the same tag `tablejson/a/b/c/0`. -/
theorem tableRowsTag_collision :
    (("a/b", "c", (0 : Int)) : String × String × Int) ≠ ("a", "b/c", 0) ∧
    tableRowsTag "a/b" "c" 0 = tableRowsTag "a" "b/c" 0 ∧
    tableRowsTag "a/b" "c" 0 = "tablejson/a/b/c/0" := by
  decide

/-- C10 as amended: among the triples whose sort direction holds no `/` (or among
those whose sort column holds no `/`), two triples that differ in the sort column,
the sort direction or the row offset get different tags. -/
theorem tableRowsTag_injective_without_slash (c₁ d₁ c₂ d₂ : String) (n₁ n₂ : Int)
    (hslash : ('/' ∉ d₁.data ∧ '/' ∉ d₂.data) ∨ ('/' ∉ c₁.data ∧ '/' ∉ c₂.data))
    (hne : (c₁, d₁, n₁) ≠ (c₂, d₂, n₂)) :
    tableRowsTag c₁ d₁ n₁ ≠ tableRowsTag c₂ d₂ n₂ := by
  intro heq
  apply hne
  have hdata := congrArg String.data heq
  rw [tableRowsTag_data, tableRowsTag_data] at hdata
  have hbody := List.append_cancel_left hdata
  have key : c₁.data = c₂.data ∧ d₁.data = d₂.data ∧ (fmtInt n₁).data = (fmtInt n₂).data := by
    rcases hslash with ⟨h1, h2⟩ | ⟨h1, h2⟩
    · have hassoc : ∀ (c d n : List Char),
          c ++ '/' :: (d ++ '/' :: n) = (c ++ '/' :: d) ++ '/' :: n := by
        intro c d n; simp
      rw [hassoc, hassoc] at hbody
      obtain ⟨hcd, hn⟩ := split_at_last '/' _ _ _ _ (fmtInt_no_slash n₁) (fmtInt_no_slash n₂)
        hbody
      obtain ⟨hc, hd⟩ := split_at_last '/' _ _ _ _ h1 h2 hcd
      exact ⟨hc, hd, hn⟩
    · obtain ⟨hc, hdn⟩ := split_at_first '/' _ _ _ _ h1 h2 hbody
      obtain ⟨hd, hn⟩ := split_at_last '/' _ _ _ _ (fmtInt_no_slash n₁) (fmtInt_no_slash n₂)
        hdn
      exact ⟨hc, hd, hn⟩
  obtain ⟨hc, hd, hn⟩ := key
  rw [String.ext hc, String.ext hd, fmtInt_injective n₁ n₂ hn]

/-- C10 as amended, at two requests that differ in the sort direction only. -/
theorem tableRowsTag_injective_without_slash_witness :
    tableRowsTag "id" "ASC" 0 ≠ tableRowsTag "id" "DESC" 0 :=
  tableRowsTag_injective_without_slash "id" "ASC" "id" "DESC" 0 0
    (Or.inl ⟨by decide, by decide⟩) (by decide)

/-- C13 fails: for the viewer carol the metadata key hits and the read of the
row-data key that follows (line 482) misses, but the read of line 628 hits; the
database is opened and the page rendered with the cached rows, which are written
back, and no row is read from the database. -/
theorem databasePage_row_hit_after_miss_skips_read :
    (exRaceWorld.GetCachedPage ["dwndb-meta", "carol", "alice", "/", "db.sqlite", "c3"]).1 =
      true ∧
    (exRaceWorld.GetCachedRows
      ["tablejson/id/ASC/0", "carol", "alice", "/", "db.sqlite", "c3", "t1", "25"]).1 = false ∧
    (databasePage exRaceWorld exRequest).calls =
      [DbCall.DBDetails, DbCall.CheckDBStarred, DbCall.PrefUserMaxRows,
        DbCall.GetCachedData ["dwndb-meta", "carol", "alice", "/", "db.sqlite", "c3"]
          CacheTarget.page true,
        DbCall.GetCachedData
          ["tablejson/id/ASC/0", "carol", "alice", "/", "db.sqlite", "c3", "t1", "25"]
          CacheTarget.rows false,
        DbCall.SocialStats, DbCall.OpenMinioObject, DbCall.Tables, DbCall.Columns,
        DbCall.ValidatePGTable, DbCall.ForkedFrom,
        DbCall.CacheData ["dwndb-meta", "carol", "alice", "/", "db.sqlite", "c3"]
          CacheTarget.page 1800,
        DbCall.GetCachedData
          ["tablejson/id/ASC/0", "carol", "alice", "/", "db.sqlite", "c3", "t1", "25"]
          CacheTarget.rows true,
        DbCall.CacheData
          ["tablejson/id/ASC/0", "carol", "alice", "/", "db.sqlite", "c3", "t1", "25"]
          CacheTarget.rows 1800] ∧
    DbCall.ReadSQLiteDB ∉ (databasePage exRaceWorld exRequest).calls ∧
    ∃ pd, (databasePage exRaceWorld exRequest).outcome = DbOutcome.rendered pd ∧
      pd.Data = exCachedRows :=
  ⟨rfl, rfl, by decide, by decide, _, rfl, rfl⟩

/-- C13 as amended: the page is rendered from cached data, without opening the blob
store, exactly when the lookup of the metadata key hits, the lookup of the row-data
key that follows it (line 482) hits and the social-stats refresh succeeds. When the
metadata key hits and that lookup misses, a page is rendered only after the database
object named by the cached SHA256 was opened and the row-data key looked up again
(line 628): if this lookup misses, the rows are read from the opened database, for
the resolved table and sort column and the row limit of the request, and the page
carries them; if it hits, the page carries the cached rows and nothing is read. In
both cases the rows rendered are the value written under the row-data key. -/
theorem databasePage_cached_iff_first_reads_hit (w : DBWorld) (q : DatabaseRequest) :
    (((∃ pd, (databasePage w q).outcome = DbOutcome.rendered pd) ∧
        DbCall.OpenMinioObject ∉ (databasePage w q).calls) ↔
      ∃ p, databasePagePrepare w q = Except.ok p ∧
        (w.GetCachedPage p.mdataCacheKey).1 = true ∧
        (w.GetCachedRows p.rowCacheKey).1 = true ∧
        (w.SocialStats q.dbOwner "/" q.dbName).2.2.2 = none) ∧
    (∀ p pd, databasePagePrepare w q = Except.ok p →
      (w.GetCachedPage p.mdataCacheKey).1 = true →
      (w.GetCachedRows p.rowCacheKey).1 = false →
      (databasePage w q).outcome = DbOutcome.rendered pd →
      ∃ sdb tbl col a x,
        sdb = (w.OpenMinioObject
          (((w.GetCachedPage p.mdataCacheKey).2.2 p.pageData).DB.Info.DBEntry.Sha256.take
            w.MinioFolderChars)
          (((w.GetCachedPage p.mdataCacheKey).2.2 p.pageData).DB.Info.DBEntry.Sha256.drop
            w.MinioFolderChars)).1 ∧
        (if p.dbTable = "" then (w.Tables sdb q.dbName).1.head? else some p.dbTable) =
          some tbl ∧
        tbl ∈ (w.Tables sdb q.dbName).1 ∧
        col = (if q.sortCol ≠ "" ∧ q.sortCol ∈ (w.Columns sdb "" tbl).1 then q.sortCol
          else "") ∧
        ((w.GetCachedRowsAgain p.rowCacheKey).1 = false →
          pd.Data =
            { (w.ReadSQLiteDB sdb tbl (rowLimitOf w) col q.sortDir q.rowOffset).1 with
              Tablename := tbl } ∧
          (databasePage w q).calls =
            a ++ DbCall.OpenMinioObject :: x ++
              [DbCall.GetCachedData p.rowCacheKey CacheTarget.rows false] ++
              logCacheGet (w.GetCachedRowsAgain p.rowCacheKey).2.1 ++
              [DbCall.ReadSQLiteDB,
                DbCall.CacheData p.rowCacheKey CacheTarget.rows w.CacheTime] ++
              logCachePut (w.CacheDataRows p.rowCacheKey pd.Data w.CacheTime)) ∧
        ((w.GetCachedRowsAgain p.rowCacheKey).1 = true →
          pd.Data =
            (w.GetCachedRowsAgain p.rowCacheKey).2.2
              ((w.GetCachedRows p.rowCacheKey).2.2
                ((w.GetCachedPage p.mdataCacheKey).2.2 p.pageData).Data) ∧
          DbCall.ReadSQLiteDB ∉ (databasePage w q).calls ∧
          (databasePage w q).calls =
            a ++ DbCall.OpenMinioObject :: x ++
              [DbCall.GetCachedData p.rowCacheKey CacheTarget.rows true] ++
              logCacheGet (w.GetCachedRowsAgain p.rowCacheKey).2.1 ++
              [DbCall.CacheData p.rowCacheKey CacheTarget.rows w.CacheTime] ++
              logCachePut (w.CacheDataRows p.rowCacheKey pd.Data w.CacheTime))) := by
  rcases databasePagePrepare_spec w q with ⟨r, hr, ⟨code, msg, hout⟩, _⟩ |
    ⟨p, hp, hu, _, hmax, _, _, _, hsub⟩
  · have hrun : databasePage w q = r := by simp [databasePage, hr]
    rw [hrun]
    refine ⟨⟨fun h => ?_, fun h => ?_⟩, fun p pd hp' => ?_⟩
    · obtain ⟨⟨pd, hpd⟩, _⟩ := h
      rw [hout] at hpd
      cases hpd
    · obtain ⟨p, hp', _⟩ := h
      rw [hr] at hp'
      cases hp'
    · rw [hr] at hp'
      cases hp'
  · obtain ⟨hpg, hpo, _, _, _⟩ := prepared_calls_plain p.calls hsub
    have hsame : ∀ p', databasePagePrepare w q = Except.ok p' → p' = p := by
      intro p' hp'
      rw [hp] at hp'
      cases hp'
      rfl
    have hpread : DbCall.ReadSQLiteDB ∉ p.calls := by
      intro hmem
      have := hsub hmem
      simp at this
    have hcread : DbCall.ReadSQLiteDB ∉ cachedCalls w p := by
      simp [cachedCalls, logCacheGet_read]
    rcases databasePage_of_prepared w q p hp with ⟨h1, hrun⟩ | ⟨h1, msg, hs, hrun⟩ |
      ⟨h1, hs, h2, hrun⟩ | ⟨h1, hs, h2, hrun⟩
    · -- metadata miss
      obtain ⟨_, _, hren⟩ := databasePageFresh_spec w q p
        ((w.GetCachedPage p.mdataCacheKey).2.2 p.pageData) _ rfl
      refine ⟨⟨fun h => ?_, fun h => ?_⟩, fun p' pd hp' hm => ?_⟩
      · obtain ⟨⟨pd, hpd⟩, hnoopen⟩ := h
        rw [hrun] at hpd hnoopen
        obtain ⟨⟨rest, hrest⟩, _⟩ := hren pd hpd
        exact absurd (by simp [DbResult.after, hrest]) hnoopen
      · obtain ⟨p', hp', hm, _⟩ := h
        rw [hsame p' hp', h1] at hm
        cases hm
      · rw [hsame p' hp', h1] at hm
        cases hm
    · -- metadata hit, SocialStats fails
      refine ⟨⟨fun h => ?_, fun h => ?_⟩, fun p' pd _ _ _ hpd => ?_⟩
      · obtain ⟨⟨pd, hpd⟩, _⟩ := h
        rw [hrun] at hpd
        cases hpd
      · obtain ⟨_, _, _, _, hs'⟩ := h
        rw [hs] at hs'
        cases hs'
      · rw [hrun] at hpd
        cases hpd
    · -- both keys hit
      refine ⟨⟨fun _ => ⟨p, hp, h1, h2, hs⟩, fun _ => ⟨⟨cachedPageData w q p, ?_⟩, ?_⟩⟩,
        fun p' pd hp' _ hm _ => ?_⟩
      · rw [hrun]
      · rw [hrun]
        intro hmem
        rcases List.mem_append.mp hmem with hmem | hmem
        · exact hpo hmem
        · exact (cachedCalls_plain w p).1 hmem
      · rw [hsame p' hp', h2] at hm
        cases hm
    · -- metadata hit, miss of the row-data key at line 482
      obtain ⟨_, _, hren⟩ := databasePageFresh_spec w q p (cachedPageData w q p) _ rfl
      refine ⟨⟨fun h => ?_, fun h => ?_⟩, fun p' pd hp' _ _ hpd => ?_⟩
      · obtain ⟨⟨pd, hpd⟩, hnoopen⟩ := h
        rw [hrun] at hpd hnoopen
        obtain ⟨⟨rest, hrest⟩, _⟩ := hren pd hpd
        exact absurd (by simp [DbResult.after, hrest]) hnoopen
      · obtain ⟨p', hp', _, hm, _⟩ := h
        rw [hsame p' hp', h2] at hm
        cases hm
      · rw [hsame p' hp']
        rw [hrun] at hpd ⊢
        obtain ⟨o, pd1, ho, hd1, hm1, hfresh⟩ :=
          databasePageFresh_rendered w q p (cachedPageData w q p) pd hpd
        obtain ⟨_, hsdb, _, _, htbl, hmem, hcol, _, _, hocalls, _, _⟩ :=
          databasePageOpen_ok w q p (cachedPageData w q p) o ho
        have hro : DbCall.ReadSQLiteDB ∉ o.calls := by
          rw [hocalls]
          by_cases hsc : q.sortCol = "" <;> simp [hsc]
        have hmax1 : pd1.DB.MaxRows = rowLimitOf w := by
          rw [hm1]
          simp [cachedPageData, hmax]
        rw [hfresh] at hpd ⊢
        refine ⟨o.sdb, o.dbTable, o.sortCol, p.calls ++ cachedCalls w p,
          [DbCall.Tables] ++ (if q.sortCol ≠ "" then [DbCall.Columns] else []) ++
            [DbCall.ValidatePGTable, DbCall.ForkedFrom,
              DbCall.CacheData p.mdataCacheKey CacheTarget.page w.CacheTime] ++
            logCachePut (w.CacheDataPage p.mdataCacheKey pd1 w.CacheTime),
          hsdb, htbl, hmem, hcol, fun hmiss => ?_, fun hhit => ?_⟩
        · cases hread : (w.ReadSQLiteDB o.sdb o.dbTable pd1.DB.MaxRows o.sortCol q.sortDir
              q.rowOffset).2 with
          | some msg =>
            rw [databasePageStore_read_error w q p o pd1 msg hmiss hread] at hpd
            cases hpd
          | none =>
            rw [databasePageStore_read w q p o pd1 hmiss hread] at hpd ⊢
            simp only [DbResult.after, DbOutcome.rendered.injEq] at hpd
            subst hpd
            refine ⟨by rw [hmax1], ?_⟩
            simp [DbResult.after, hocalls]
        · rw [databasePageStore_hit w q p o pd1 hhit] at hpd ⊢
          simp only [DbResult.after, DbOutcome.rendered.injEq] at hpd
          subst hpd
          refine ⟨?_, ?_, ?_⟩
          · simp [hd1, cachedPageData]
          · simp [DbResult.after, hpread, hcread, hro, logCacheGet_read, logCachePut_read]
          · simp [DbResult.after, hocalls]

/-- C16: a page rendered after opening the database comes with exactly one cache
write for the metadata key and one for the row-data key derived for the request, in
this order and both with the expiry `com.CacheTime`; and after a failed table check
the handler ends with the error page `Requested table not present` without having
written either key. -/
theorem databasePage_fresh_stores_both (w : DBWorld) (q : DatabaseRequest) :
    (∀ pd, (databasePage w q).outcome = DbOutcome.rendered pd →
      DbCall.OpenMinioObject ∈ (databasePage w q).calls →
      ∃ p, databasePagePrepare w q = Except.ok p ∧
        (databasePage w q).calls.filter DbCall.isPut =
          [DbCall.CacheData p.mdataCacheKey CacheTarget.page w.CacheTime,
            DbCall.CacheData p.rowCacheKey CacheTarget.rows w.CacheTime]) ∧
    (∀ t, DbCall.LogTableNotPresent q.dbOwner q.dbName t ∈ (databasePage w q).calls →
      (databasePage w q).calls.filter DbCall.isPut = [] ∧
        (databasePage w q).outcome =
          DbOutcome.errorPage StatusBadRequest "Requested table not present") := by
  have htl : ∀ (calls : List DbCall) (t : String),
      DbCall.LogTableNotPresent q.dbOwner q.dbName t ∈ calls →
      calls.filter DbCall.isTableLog ≠ [] := by
    intro calls t hmem hnil
    have : DbCall.LogTableNotPresent q.dbOwner q.dbName t ∈ calls.filter DbCall.isTableLog :=
      List.mem_filter.mpr ⟨hmem, rfl⟩
    rw [hnil] at this
    cases this
  rcases databasePagePrepare_spec w q with ⟨r, hr, ⟨code, msg, hout⟩, hsub⟩ |
    ⟨p, hp, _, _, _, _, _, _, hsub⟩
  · have hrun : databasePage w q = r := by simp [databasePage, hr]
    rw [hrun]
    obtain ⟨_, _, _, hpt, _⟩ := prepared_calls_plain r.calls hsub
    refine ⟨fun pd hpd => ?_, fun t hmem => absurd hpt (htl _ t hmem)⟩
    rw [hout] at hpd
    cases hpd
  · obtain ⟨_, hpo, hpp, hpt, _⟩ := prepared_calls_plain p.calls hsub
    obtain ⟨hco, hcp, hct⟩ := cachedCalls_plain w p
    rcases databasePage_of_prepared w q p hp with ⟨h1, hrun⟩ | ⟨h1, msg, hs, hrun⟩ |
      ⟨h1, hs, h2, hrun⟩ | ⟨h1, hs, h2, hrun⟩
    · rw [hrun]
      obtain ⟨htab, _, hren⟩ := databasePageFresh_spec w q p
        ((w.GetCachedPage p.mdataCacheKey).2.2 p.pageData) _ rfl
      refine ⟨fun pd hpd _ => ⟨p, hp, ?_⟩, fun t hmem => ?_⟩
      · obtain ⟨_, hput, _⟩ := hren pd hpd
        simp [DbResult.after, List.filter_append, List.filter_cons, hpp, DbCall.isPut,
          logCacheGet_isPut, hput]
      · have hne := htl _ t hmem
        simp only [DbResult.after, List.filter_append, List.filter_cons, hpt,
          DbCall.isTableLog, logCacheGet_isTableLog] at hne
        obtain ⟨hput, hout⟩ := htab (by simpa using hne)
        refine ⟨?_, hout⟩
        simp [DbResult.after, List.filter_append, List.filter_cons, hpp, DbCall.isPut,
          logCacheGet_isPut, hput]
    · rw [hrun]
      refine ⟨fun pd hpd => ?_, fun t hmem => ?_⟩
      · cases hpd
      have hne := htl _ t hmem
      simp [List.filter_append, hpt, hct] at hne
    · rw [hrun]
      refine ⟨fun pd _ hopen => ?_, fun t hmem => ?_⟩
      · rcases List.mem_append.mp hopen with h | h
        · exact absurd h hpo
        · exact absurd h hco
      · have hne := htl _ t hmem
        simp [List.filter_append, hpt, hct] at hne
    · rw [hrun]
      obtain ⟨htab, _, hren⟩ := databasePageFresh_spec w q p (cachedPageData w q p) _ rfl
      refine ⟨fun pd hpd _ => ⟨p, hp, ?_⟩, fun t hmem => ?_⟩
      · obtain ⟨_, hput, _⟩ := hren pd hpd
        simp [DbResult.after, List.filter_append, hpp, hcp, hput]
      · have hne := htl _ t hmem
        simp only [DbResult.after, List.filter_append, hpt, hct] at hne
        obtain ⟨hput, hout⟩ := htab (by simpa using hne)
        refine ⟨?_, hout⟩
        simp [DbResult.after, List.filter_append, hpp, hcp, hput]

/-- C17: after a hit of the metadata key, whatever the cached payload holds, a
rendered page has the user name of this request's viewer, this request's row limit
(the viewer's preference when logged in, the default number of display rows when
anonymous) and the star and fork counts just returned by `SocialStats`. -/
theorem databasePage_hit_keeps_viewer_settings (w : DBWorld) (q : DatabaseRequest)
    (p : Prepared) (pd : DatabasePageData)
    (hp : databasePagePrepare w q = Except.ok p)
    (hhit : DbCall.GetCachedData p.mdataCacheKey CacheTarget.page true ∈
      (databasePage w q).calls)
    (hout : (databasePage w q).outcome = DbOutcome.rendered pd) :
    pd.Meta.LoggedInUser = viewerOf w ∧ pd.DB.MaxRows = rowLimitOf w ∧
      pd.DB.Info.Stars = (w.SocialStats q.dbOwner "/" q.dbName).2.1 ∧
      pd.DB.Info.Forks = (w.SocialStats q.dbOwner "/" q.dbName).2.2.1 := by
  rcases databasePagePrepare_spec w q with ⟨r, hr, _⟩ | ⟨p', hp', hu, _, hmax, _, _, _, hsub⟩
  · rw [hr] at hp
    cases hp
  · rw [hp] at hp'
    cases hp'
    obtain ⟨hpg, _⟩ := prepared_calls_plain p.calls hsub
    have h1 : (w.GetCachedPage p.mdataCacheKey).1 = true := by
      rcases databasePage_gets w q p hp hpg _ hhit rfl with h | ⟨f, h⟩
      · simpa using h.symm
      · simp at h
    have hfields : (cachedPageData w q p).Meta.LoggedInUser = viewerOf w ∧
        (cachedPageData w q p).DB.MaxRows = rowLimitOf w ∧
        (cachedPageData w q p).DB.Info.Stars = (w.SocialStats q.dbOwner "/" q.dbName).2.1 ∧
        (cachedPageData w q p).DB.Info.Forks = (w.SocialStats q.dbOwner "/" q.dbName).2.2.1 := by
      simp [cachedPageData, hu, hmax]
    rcases databasePage_of_prepared w q p hp with ⟨h1', _⟩ | ⟨_, msg, hs, hrun⟩ |
      ⟨_, hs, h2, hrun⟩ | ⟨_, hs, h2, hrun⟩
    · rw [h1] at h1'
      cases h1'
    · rw [hrun] at hout
      cases hout
    · rw [hrun] at hout
      cases hout
      exact hfields
    · rw [hrun] at hout
      obtain ⟨_, _, hren⟩ := databasePageFresh_spec w q p (cachedPageData w q p) _ rfl
      obtain ⟨_, _, _, hu', hm', hs', hf', _⟩ := hren pd hout
      rw [hu', hm', hs', hf']
      exact hfields

/-- C18: on a page served from cache (both keys hit, the database is not opened)
the rendered star flag is the one decoded from the cached metadata payload, and the
response is the same if the star lookup answers the opposite flag; on a page computed
from the database file the rendered star flag is the one just looked up. -/
theorem databasePage_star_flag (w : DBWorld) (q : DatabaseRequest) (p : Prepared)
    (pd : DatabasePageData)
    (hp : databasePagePrepare w q = Except.ok p)
    (hout : (databasePage w q).outcome = DbOutcome.rendered pd) :
    (DbCall.OpenMinioObject ∉ (databasePage w q).calls →
      pd.MyStar = ((w.GetCachedPage p.mdataCacheKey).2.2 p.pageData).MyStar ∧
        p.pageData.MyStar = false ∧
        databasePage (flipStar w) q = databasePage w q) ∧
    (DbCall.OpenMinioObject ∈ (databasePage w q).calls →
      pd.MyStar = (w.CheckDBStarred (viewerOf w) q.dbOwner "/" q.dbName).1) := by
  rcases databasePagePrepare_spec w q with ⟨r, hr, _⟩ |
    ⟨p', hp', _, hstar, _, _, _, hpage, hsub⟩
  · rw [hr] at hp
    cases hp
  · rw [hp] at hp'
    cases hp'
    obtain ⟨_, hpo, _⟩ := prepared_calls_plain p.calls hsub
    have hopen : ∀ (pd0 pd' : DatabasePageData) (pre : List DbCall),
        (databasePageFresh w q p pd0).outcome = DbOutcome.rendered pd' →
        DbCall.OpenMinioObject ∈ ((databasePageFresh w q p pd0).after pre).calls ∧
          pd'.MyStar = (w.CheckDBStarred (viewerOf w) q.dbOwner "/" q.dbName).1 := by
      intro pd0 pd' pre h
      obtain ⟨⟨rest, hrest⟩, _, hs, _⟩ := (databasePageFresh_spec w q p pd0 _ rfl).2.2 pd' h
      exact ⟨by simp [DbResult.after, hrest], by rw [hs, hstar]⟩
    rcases databasePage_of_prepared w q p hp with ⟨h1, hrun⟩ | ⟨h1, msg, hs, hrun⟩ |
      ⟨h1, hs, h2, hrun⟩ | ⟨h1, hs, h2, hrun⟩
    · rw [hrun] at hout ⊢
      obtain ⟨ho, hs⟩ := hopen _ pd _ hout
      exact ⟨fun hno => absurd ho hno, fun _ => hs⟩
    · rw [hrun] at hout
      cases hout
    · refine ⟨fun _ => ⟨?_, ?_, ?_⟩, fun ho => ?_⟩
      · rw [hrun] at hout
        cases hout
        rfl
      · rw [hpage]
        rfl
      · have hp2 := databasePagePrepare_flipStar w q p hp
        rcases databasePage_of_prepared (flipStar w) q _ hp2 with ⟨h1', _⟩ | ⟨_, msg, hs', _⟩ |
          ⟨_, _, _, hrun'⟩ | ⟨_, _, h2', _⟩
        · have h1'' : (w.GetCachedPage p.mdataCacheKey).1 = false := h1'
          rw [h1] at h1''
          cases h1''
        · have hs'' : (w.SocialStats q.dbOwner "/" q.dbName).2.2.2 = some msg := hs'
          rw [hs] at hs''
          cases hs''
        · rw [hrun', hrun]
          rfl
        · have h2'' : (w.GetCachedRows p.rowCacheKey).1 = false := h2'
          rw [h2] at h2''
          cases h2''
      · rw [hrun] at ho
        rcases List.mem_append.mp ho with h | h
        · exact absurd h hpo
        · exact absurd h (cachedCalls_plain w p).1
    · rw [hrun] at hout ⊢
      obtain ⟨ho, hs⟩ := hopen _ pd _ hout
      exact ⟨fun hno => absurd ho hno, fun _ => hs⟩

/-- C11: replacing exactly one of the sort column, the sort direction and the row
offset by a different value, the other two being kept, changes the row-data
namespace tag; and identical triples give the identical tag. -/
theorem tableRowsTag_single_change (c d : String) (n : Int) :
    (∀ c', c' ≠ c → tableRowsTag c' d n ≠ tableRowsTag c d n) ∧
    (∀ d', d' ≠ d → tableRowsTag c d' n ≠ tableRowsTag c d n) ∧
    (∀ n', n' ≠ n → tableRowsTag c d n' ≠ tableRowsTag c d n) ∧
    (∀ c' d' n', (c', d', n') = (c, d, n) → tableRowsTag c' d' n' = tableRowsTag c d n) := by
  refine ⟨fun c' hne heq => hne ?_, fun d' hne heq => hne ?_, fun n' hne heq => hne ?_,
    fun c' d' n' h => ?_⟩
  · have hdata := congrArg String.data heq
    rw [tableRowsTag_data, tableRowsTag_data] at hdata
    exact String.ext (List.append_cancel_right (List.append_cancel_left hdata))
  · have hdata := congrArg String.data heq
    rw [tableRowsTag_data, tableRowsTag_data] at hdata
    have h1 := List.append_cancel_left (List.append_cancel_left hdata)
    exact String.ext (List.append_cancel_right (List.cons.inj h1).2)
  · have hdata := congrArg String.data heq
    rw [tableRowsTag_data, tableRowsTag_data] at hdata
    have h1 := List.append_cancel_left (List.append_cancel_left hdata)
    have h2 := List.append_cancel_left (List.cons.inj h1).2
    exact fmtInt_injective n' n (List.cons.inj h2).2
  · cases h
    rfl

/-- C11 at the request sorted by `id`: each single change gives another tag. -/
theorem tableRowsTag_single_change_witness :
    tableRowsTag "name" "ASC" 0 ≠ tableRowsTag "id" "ASC" 0 ∧
    tableRowsTag "id" "DESC" 0 ≠ tableRowsTag "id" "ASC" 0 ∧
    tableRowsTag "id" "ASC" 50 ≠ tableRowsTag "id" "ASC" 0 ∧
    tableRowsTag "id" "ASC" 0 = tableRowsTag "id" "ASC" 0 :=
  ⟨(tableRowsTag_single_change "id" "ASC" 0).1 "name" (by decide),
    (tableRowsTag_single_change "id" "ASC" 0).2.1 "DESC" (by decide),
    (tableRowsTag_single_change "id" "ASC" 0).2.2.1 50 (by decide),
    (tableRowsTag_single_change "id" "ASC" 0).2.2.2 "id" "ASC" 0 rfl⟩

/-- C12: two requests whose viewers differ (two different user names, or a logged-in
viewer and an anonymous one) derive different metadata cache keys and different
row-data cache keys, whatever the owner, database, commit and table, and neither
request reads the metadata key of the other. -/
theorem databasePage_keys_scoped_by_viewer (w₁ w₂ : DBWorld) (q₁ q₂ : DatabaseRequest)
    (p₁ p₂ : Prepared)
    (h₁ : databasePagePrepare w₁ q₁ = Except.ok p₁)
    (h₂ : databasePagePrepare w₂ q₂ = Except.ok p₂)
    (hviewer : viewerOf w₁ ≠ viewerOf w₂) :
    p₁.mdataCacheKey ≠ p₂.mdataCacheKey ∧ p₁.rowCacheKey ≠ p₂.rowCacheKey ∧
      (∀ f, DbCall.GetCachedData p₂.mdataCacheKey CacheTarget.page f ∉
        (databasePage w₁ q₁).calls) ∧
      (∀ f, DbCall.GetCachedData p₁.mdataCacheKey CacheTarget.page f ∉
        (databasePage w₂ q₂).calls) := by
  have hkeys : ∀ (w : DBWorld) (q : DatabaseRequest) (p : Prepared),
      databasePagePrepare w q = Except.ok p →
      p.mdataCacheKey =
          MetadataCacheKey "dwndb-meta" (viewerOf w) q.dbOwner "/" q.dbName q.commitID ∧
        p.rowCacheKey =
          TableRowsCacheKey (tableRowsTag q.sortCol q.sortDir q.rowOffset) (viewerOf w)
            q.dbOwner "/" q.dbName q.commitID p.dbTable (rowLimitOf w) ∧
        ∀ c ∈ p.calls, c.isGet = false := by
    intro w q p hp
    rcases databasePagePrepare_spec w q with ⟨r, hr, _⟩ | ⟨p', hp', _, _, _, hm, hrow, _, hsub⟩
    · rw [hr] at hp
      cases hp
    · rw [hp] at hp'
      cases hp'
      exact ⟨hm, hrow, (prepared_calls_plain p.calls hsub).1⟩
  obtain ⟨hm₁, hr₁, hg₁⟩ := hkeys w₁ q₁ p₁ h₁
  obtain ⟨hm₂, hr₂, hg₂⟩ := hkeys w₂ q₂ p₂ h₂
  have hmne : p₁.mdataCacheKey ≠ p₂.mdataCacheKey := by
    rw [hm₁, hm₂]
    intro h
    simp only [MetadataCacheKey, List.cons.injEq] at h
    exact hviewer h.2.1
  have hrne : p₁.rowCacheKey ≠ p₂.rowCacheKey := by
    rw [hr₁, hr₂]
    intro h
    simp only [TableRowsCacheKey, List.cons.injEq] at h
    exact hviewer h.2.1
  refine ⟨hmne, hrne, fun f hmem => ?_, fun f hmem => ?_⟩
  · rcases databasePage_gets w₁ q₁ p₁ h₁ hg₁ _ hmem rfl with h | ⟨f', h⟩
    · simp only [DbCall.GetCachedData.injEq] at h
      exact hmne h.1.symm
    · simp at h
  · rcases databasePage_gets w₂ q₂ p₂ h₂ hg₂ _ hmem rfl with h | ⟨f', h⟩
    · simp only [DbCall.GetCachedData.injEq] at h
      exact hmne h.1
    · simp at h

/-- C14 fails: when both cache reads report the error `boom` together with the flag
found, the handler logs the error twice and renders the page from the cached data,
without opening the database and without reading any row from it. -/
theorem databasePage_get_error_with_found_is_a_hit :
    ((exDBWorld none true true (some "boom") none false).GetCachedPage
        ["dwndb-meta", "", "alice", "/", "db.sqlite", "c3"]).2.1 = some "boom" ∧
    (databasePage (exDBWorld none true true (some "boom") none false) exRequest).calls =
      [DbCall.DBDetails, DbCall.CheckDBStarred,
        DbCall.GetCachedData ["dwndb-meta", "", "alice", "/", "db.sqlite", "c3"]
          CacheTarget.page true,
        DbCall.LogCacheGetError "boom",
        DbCall.GetCachedData
          ["tablejson/id/ASC/0", "", "alice", "/", "db.sqlite", "c3", "t1", "10"]
          CacheTarget.rows true,
        DbCall.LogCacheGetError "boom", DbCall.SocialStats] ∧
    (databasePage (exDBWorld none true true (some "boom") none false)
      exRequest).outcome.isRendered = true := by
  decide

/-- C14 as amended: the error of a cache read is only logged and the found flag
alone decides. Replacing the error of every cache read by nil, with the same found
flags and decoded data, changes neither the response nor the collaborator calls, so
no error page is ever due to a cache error; and a read that answers not found, with
or without an error, is a miss: after such a read of the metadata key, or of the
row-data key at line 482, a page is rendered only after the database was opened, and
after such a read of the row-data key at line 628, made once the database is open,
only after the rows were read from the database. -/
theorem databasePage_ignores_get_errors (w : DBWorld) (q : DatabaseRequest) :
    (databasePage (silenceGets w) q).outcome = (databasePage w q).outcome ∧
    callsOnly (databasePage (silenceGets w) q).calls = callsOnly (databasePage w q).calls ∧
    (∀ p pd, databasePagePrepare w q = Except.ok p →
      (w.GetCachedPage p.mdataCacheKey).1 = false →
      (databasePage w q).outcome = DbOutcome.rendered pd →
      DbCall.OpenMinioObject ∈ (databasePage w q).calls) ∧
    (∀ p pd, databasePagePrepare w q = Except.ok p →
      (w.GetCachedRows p.rowCacheKey).1 = false →
      (databasePage w q).outcome = DbOutcome.rendered pd →
      DbCall.OpenMinioObject ∈ (databasePage w q).calls) ∧
    (∀ p pd, databasePagePrepare w q = Except.ok p →
      (w.GetCachedRowsAgain p.rowCacheKey).1 = false →
      (databasePage w q).outcome = DbOutcome.rendered pd →
      DbCall.OpenMinioObject ∈ (databasePage w q).calls →
      DbCall.ReadSQLiteDB ∈ (databasePage w q).calls) := by
  have hsame : SameResponse (databasePage (silenceGets w) q) (databasePage w q) :=
    databasePage_congr w (silenceGets w) q rfl (databasePageCached_silenceGets w q)
      (fun p pd => databasePageFresh_congr w (silenceGets w) q p pd rfl (fun _ => rfl)
        (databasePageStore_silenceGets w q p))
  refine ⟨hsame.1, hsame.2, fun p pd hp hmiss hout => ?_, fun p pd hp hmiss hout => ?_,
    fun p pd hp hmiss hout hopen => ?_⟩
  · obtain ⟨pd0, pre, hrun, hren⟩ :=
      databasePage_rendered_fresh w q p pd hp hout (Or.inl hmiss)
    obtain ⟨⟨rest, hrest⟩, _⟩ := (databasePageFresh_spec w q p pd0 _ rfl).2.2 pd hren
    rw [hrun]
    simp [DbResult.after, hrest]
  · obtain ⟨pd0, pre, hrun, hren⟩ :=
      databasePage_rendered_fresh w q p pd hp hout (Or.inr (Or.inl hmiss))
    obtain ⟨⟨rest, hrest⟩, _⟩ := (databasePageFresh_spec w q p pd0 _ rfl).2.2 pd hren
    rw [hrun]
    simp [DbResult.after, hrest]
  · obtain ⟨pd0, pre, hrun, hren⟩ :=
      databasePage_rendered_fresh w q p pd hp hout (Or.inr (Or.inr hopen))
    obtain ⟨_, _, _, _, _, _, _, hread⟩ := (databasePageFresh_spec w q p pd0 _ rfl).2.2 pd hren
    obtain ⟨x, z, _, _, _, hcalls, _⟩ := hread hmiss
    rw [hrun]
    simp [DbResult.after, hcalls]

/-- C15: the response and the collaborator calls of the handler are the same whatever
the two cache writes answer; and a page rendered after opening the database comes
with the write of the row-data key, also when the write of the metadata key failed. -/
theorem databasePage_ignores_put_errors (w : DBWorld) (q : DatabaseRequest)
    (f : CacheKey → DatabasePageData → Nat → GoError)
    (g : CacheKey → SQLiteRecordSet → Nat → GoError) :
    (databasePage (withPuts w f g) q).outcome = (databasePage w q).outcome ∧
    callsOnly (databasePage (withPuts w f g) q).calls = callsOnly (databasePage w q).calls ∧
    (∀ p pd, databasePagePrepare w q = Except.ok p →
      (databasePage w q).outcome = DbOutcome.rendered pd →
      DbCall.OpenMinioObject ∈ (databasePage w q).calls →
      DbCall.CacheData p.rowCacheKey CacheTarget.rows w.CacheTime ∈
        (databasePage w q).calls) := by
  have hsame : SameResponse (databasePage (withPuts w f g) q) (databasePage w q) := by
    refine databasePage_congr w (withPuts w f g) q rfl (fun p => ?_)
      (fun p pd => databasePageFresh_congr w (withPuts w f g) q p pd rfl (fun _ => rfl)
        (databasePageStore_withPuts w f g q p))
    have hc : databasePageCached (withPuts w f g) q p = databasePageCached w q p := rfl
    rw [hc]
    cases databasePageCached w q p with
    | error r => exact sameResponse_refl r
    | ok x => exact ⟨rfl, rfl⟩
  refine ⟨hsame.1, hsame.2, fun p pd hp hout hopen => ?_⟩
  obtain ⟨pd0, pre, hrun, hren⟩ :=
    databasePage_rendered_fresh w q p pd hp hout (Or.inr (Or.inr hopen))
  obtain ⟨_, hput, _⟩ := (databasePageFresh_spec w q p pd0 _ rfl).2.2 pd hren
  have hmem : DbCall.CacheData p.rowCacheKey CacheTarget.rows w.CacheTime ∈
      (databasePageFresh w q p pd0).calls.filter DbCall.isPut := by
    rw [hput]
    simp
  rw [hrun]
  exact List.mem_append_right _ (List.mem_filter.mp hmem).1

/-- C13 as amended, for the viewer carol with a hit of the metadata key and a miss
of both reads of the row-data key: the database `sdb` is opened, the rows of table
`t1` sorted by `id` are read from it with the row limit 25, rendered and stored. -/
theorem databasePage_cached_iff_first_reads_hit_witness :
    ∃ p pd,
      databasePagePrepare (exDBWorld (some "carol") true false none none false) exRequest =
        Except.ok p ∧
      ((exDBWorld (some "carol") true false none none false).GetCachedPage
        p.mdataCacheKey).1 = true ∧
      ((exDBWorld (some "carol") true false none none false).GetCachedRows
        p.rowCacheKey).1 = false ∧
      (databasePage (exDBWorld (some "carol") true false none none false) exRequest).outcome =
        DbOutcome.rendered pd ∧
      pd.Data = ⟨["id"], 0, [["7"]], "id", "ASC", "t1", 1⟩ ∧
      ∃ sdb tbl col a x,
        sdb = ((exDBWorld (some "carol") true false none none false).OpenMinioObject
          ((((exDBWorld (some "carol") true false none none false).GetCachedPage
            p.mdataCacheKey).2.2 p.pageData).DB.Info.DBEntry.Sha256.take
              (exDBWorld (some "carol") true false none none false).MinioFolderChars)
          ((((exDBWorld (some "carol") true false none none false).GetCachedPage
            p.mdataCacheKey).2.2 p.pageData).DB.Info.DBEntry.Sha256.drop
              (exDBWorld (some "carol") true false none none false).MinioFolderChars)).1 ∧
        (if p.dbTable = "" then
            ((exDBWorld (some "carol") true false none none false).Tables sdb
              exRequest.dbName).1.head?
          else some p.dbTable) = some tbl ∧
        tbl ∈ ((exDBWorld (some "carol") true false none none false).Tables sdb
          exRequest.dbName).1 ∧
        col = (if exRequest.sortCol ≠ "" ∧ exRequest.sortCol ∈
            ((exDBWorld (some "carol") true false none none false).Columns sdb "" tbl).1
          then exRequest.sortCol else "") ∧
        (((exDBWorld (some "carol") true false none none false).GetCachedRowsAgain
            p.rowCacheKey).1 = false →
          pd.Data =
            { ((exDBWorld (some "carol") true false none none false).ReadSQLiteDB sdb tbl
                (rowLimitOf (exDBWorld (some "carol") true false none none false)) col
                exRequest.sortDir exRequest.rowOffset).1 with Tablename := tbl } ∧
          (databasePage (exDBWorld (some "carol") true false none none false)
              exRequest).calls =
            a ++ DbCall.OpenMinioObject :: x ++
              [DbCall.GetCachedData p.rowCacheKey CacheTarget.rows false] ++
              logCacheGet ((exDBWorld (some "carol") true false none none false).GetCachedRowsAgain
                p.rowCacheKey).2.1 ++
              [DbCall.ReadSQLiteDB,
                DbCall.CacheData p.rowCacheKey CacheTarget.rows
                  (exDBWorld (some "carol") true false none none false).CacheTime] ++
              logCachePut ((exDBWorld (some "carol") true false none none false).CacheDataRows
                p.rowCacheKey pd.Data
                (exDBWorld (some "carol") true false none none false).CacheTime)) ∧
        (((exDBWorld (some "carol") true false none none false).GetCachedRowsAgain
            p.rowCacheKey).1 = true →
          pd.Data =
            ((exDBWorld (some "carol") true false none none false).GetCachedRowsAgain
                p.rowCacheKey).2.2
              (((exDBWorld (some "carol") true false none none false).GetCachedRows
                  p.rowCacheKey).2.2
                (((exDBWorld (some "carol") true false none none false).GetCachedPage
                  p.mdataCacheKey).2.2 p.pageData).Data) ∧
          DbCall.ReadSQLiteDB ∉
            (databasePage (exDBWorld (some "carol") true false none none false)
              exRequest).calls ∧
          (databasePage (exDBWorld (some "carol") true false none none false)
              exRequest).calls =
            a ++ DbCall.OpenMinioObject :: x ++
              [DbCall.GetCachedData p.rowCacheKey CacheTarget.rows true] ++
              logCacheGet ((exDBWorld (some "carol") true false none none false).GetCachedRowsAgain
                p.rowCacheKey).2.1 ++
              [DbCall.CacheData p.rowCacheKey CacheTarget.rows
                (exDBWorld (some "carol") true false none none false).CacheTime] ++
              logCachePut ((exDBWorld (some "carol") true false none none false).CacheDataRows
                p.rowCacheKey pd.Data
                (exDBWorld (some "carol") true false none none false).CacheTime)) :=
  ⟨_, _, rfl, rfl, rfl, rfl, rfl,
    (databasePage_cached_iff_first_reads_hit
      (exDBWorld (some "carol") true false none none false) exRequest).2 _ _ rfl rfl rfl rfl⟩

/-- C12 for the viewer carol against an anonymous viewer of the same database, commit
and table: the keys differ and neither request reads the key of the other. -/
theorem databasePage_keys_scoped_by_viewer_witness :
    ∃ p₁ p₂,
      databasePagePrepare (exDBWorld (some "carol") true true none none false) exRequest =
        Except.ok p₁ ∧
      databasePagePrepare (exDBWorld none true true none none false) exRequest =
        Except.ok p₂ ∧
      viewerOf (exDBWorld (some "carol") true true none none false) ≠
        viewerOf (exDBWorld none true true none none false) ∧
      p₁.mdataCacheKey ≠ p₂.mdataCacheKey ∧ p₁.rowCacheKey ≠ p₂.rowCacheKey ∧
      (∀ f, DbCall.GetCachedData p₂.mdataCacheKey CacheTarget.page f ∉
        (databasePage (exDBWorld (some "carol") true true none none false) exRequest).calls) ∧
      (∀ f, DbCall.GetCachedData p₁.mdataCacheKey CacheTarget.page f ∉
        (databasePage (exDBWorld none true true none none false) exRequest).calls) :=
  ⟨_, _, rfl, rfl, by decide,
    databasePage_keys_scoped_by_viewer (exDBWorld (some "carol") true true none none false)
      (exDBWorld none true true none none false) exRequest exRequest _ _ rfl rfl (by decide)⟩

/-- C14 as amended, for an anonymous viewer whose cache reads answer not found
together with the error `boom`: the page is rendered after opening the database and
reading the rows from it. -/
theorem databasePage_ignores_get_errors_witness :
    ∃ p pd,
      databasePagePrepare (exDBWorld none false false (some "boom") none false) exRequest =
        Except.ok p ∧
      ((exDBWorld none false false (some "boom") none false).GetCachedPage
        p.mdataCacheKey).1 = false ∧
      ((exDBWorld none false false (some "boom") none false).GetCachedPage
        p.mdataCacheKey).2.1 = some "boom" ∧
      (databasePage (exDBWorld none false false (some "boom") none false) exRequest).outcome =
        DbOutcome.rendered pd ∧
      DbCall.OpenMinioObject ∈
        (databasePage (exDBWorld none false false (some "boom") none false) exRequest).calls ∧
      ((exDBWorld none false false (some "boom") none false).GetCachedRowsAgain
        p.rowCacheKey).1 = false ∧
      ((exDBWorld none false false (some "boom") none false).GetCachedRowsAgain
        p.rowCacheKey).2.1 = some "boom" ∧
      DbCall.ReadSQLiteDB ∈
        (databasePage (exDBWorld none false false (some "boom") none false) exRequest).calls :=
  ⟨_, _, rfl, rfl, rfl, rfl,
    (databasePage_ignores_get_errors (exDBWorld none false false (some "boom") none false)
      exRequest).2.2.1 _ _ rfl rfl rfl, rfl, rfl,
    (databasePage_ignores_get_errors (exDBWorld none false false (some "boom") none false)
      exRequest).2.2.2.2 _ _ rfl rfl rfl (by decide)⟩

/-- C15 for the viewer carol when both cache writes fail with `disk full`: the page
is rendered after opening the database and the row-data key is still written. -/
theorem databasePage_ignores_put_errors_witness :
    ∃ p pd,
      databasePagePrepare (exDBWorld (some "carol") false false none (some "disk full") false)
        exRequest = Except.ok p ∧
      (databasePage (exDBWorld (some "carol") false false none (some "disk full") false)
        exRequest).outcome = DbOutcome.rendered pd ∧
      DbCall.OpenMinioObject ∈
        (databasePage (exDBWorld (some "carol") false false none (some "disk full") false)
          exRequest).calls ∧
      DbCall.CacheData p.rowCacheKey CacheTarget.rows
          (exDBWorld (some "carol") false false none (some "disk full") false).CacheTime ∈
        (databasePage (exDBWorld (some "carol") false false none (some "disk full") false)
          exRequest).calls :=
  ⟨_, _, rfl, rfl, by decide,
    (databasePage_ignores_put_errors
      (exDBWorld (some "carol") false false none (some "disk full") false) exRequest
      (fun _ _ _ => none) (fun _ _ _ => none)).2.2 _ _ rfl rfl (by decide)⟩

/-- C16 for the viewer carol with an empty cache: both keys are written with the
expiry 1800; and for a request of the absent table `nope` no key is written. -/
theorem databasePage_fresh_stores_both_witness :
    (∃ pd,
      (databasePage (exDBWorld (some "carol") false false none none false) exRequest).outcome =
        DbOutcome.rendered pd ∧
      DbCall.OpenMinioObject ∈
        (databasePage (exDBWorld (some "carol") false false none none false) exRequest).calls ∧
      ∃ p,
        databasePagePrepare (exDBWorld (some "carol") false false none none false) exRequest =
          Except.ok p ∧
        (databasePage (exDBWorld (some "carol") false false none none false)
            exRequest).calls.filter DbCall.isPut =
          [DbCall.CacheData p.mdataCacheKey CacheTarget.page 1800,
            DbCall.CacheData p.rowCacheKey CacheTarget.rows 1800]) ∧
    (DbCall.LogTableNotPresent "alice" "db.sqlite" "nope" ∈
        (databasePage (exDBWorld (some "carol") false false none none false)
          ⟨"alice", "db.sqlite", "c3", "nope", "id", "ASC", 0⟩).calls ∧
      (databasePage (exDBWorld (some "carol") false false none none false)
          ⟨"alice", "db.sqlite", "c3", "nope", "id", "ASC", 0⟩).calls.filter DbCall.isPut = [] ∧
      (databasePage (exDBWorld (some "carol") false false none none false)
          ⟨"alice", "db.sqlite", "c3", "nope", "id", "ASC", 0⟩).outcome =
        DbOutcome.errorPage StatusBadRequest "Requested table not present") :=
  ⟨⟨_, rfl, by decide,
      (databasePage_fresh_stores_both (exDBWorld (some "carol") false false none none false)
        exRequest).1 _ rfl (by decide)⟩,
    by decide,
    (databasePage_fresh_stores_both (exDBWorld (some "carol") false false none none false)
      ⟨"alice", "db.sqlite", "c3", "nope", "id", "ASC", 0⟩).2 "nope" (by decide)⟩

/-- C17 for the viewer carol served from a payload cached for bob with 99 rows: the
page names carol, her row limit 25 and the counts just returned by `SocialStats`. -/
theorem databasePage_hit_keeps_viewer_settings_witness :
    ∃ p pd,
      databasePagePrepare (exDBWorld (some "carol") true true none none false) exRequest =
        Except.ok p ∧
      DbCall.GetCachedData p.mdataCacheKey CacheTarget.page true ∈
        (databasePage (exDBWorld (some "carol") true true none none false) exRequest).calls ∧
      (databasePage (exDBWorld (some "carol") true true none none false) exRequest).outcome =
        DbOutcome.rendered pd ∧
      exCachedPage.Meta.LoggedInUser = "bob" ∧ exCachedPage.DB.MaxRows = 99 ∧
      pd.Meta.LoggedInUser = "carol" ∧ pd.DB.MaxRows = 25 ∧
      pd.DB.Info.Stars =
        ((exDBWorld (some "carol") true true none none false).SocialStats "alice" "/"
          "db.sqlite").2.1 ∧
      pd.DB.Info.Forks =
        ((exDBWorld (some "carol") true true none none false).SocialStats "alice" "/"
          "db.sqlite").2.2.1 :=
  ⟨_, _, rfl, by decide, rfl, rfl, rfl,
    databasePage_hit_keeps_viewer_settings (exDBWorld (some "carol") true true none none false)
      exRequest _ _ rfl (by decide) rfl⟩

/-- C18 for the viewer carol, whose star lookup answers false: served from the
payload cached with the flag true the page shows true; computed from the database
file it shows false. -/
theorem databasePage_star_flag_witness :
    (∃ p pd,
      databasePagePrepare (exDBWorld (some "carol") true true none none false) exRequest =
        Except.ok p ∧
      (databasePage (exDBWorld (some "carol") true true none none false) exRequest).outcome =
        DbOutcome.rendered pd ∧
      DbCall.OpenMinioObject ∉
        (databasePage (exDBWorld (some "carol") true true none none false) exRequest).calls ∧
      pd.MyStar = true ∧ p.pageData.MyStar = false ∧
      databasePage (flipStar (exDBWorld (some "carol") true true none none false)) exRequest =
        databasePage (exDBWorld (some "carol") true true none none false) exRequest) ∧
    (∃ p pd,
      databasePagePrepare (exDBWorld (some "carol") false false none none false) exRequest =
        Except.ok p ∧
      (databasePage (exDBWorld (some "carol") false false none none false) exRequest).outcome =
        DbOutcome.rendered pd ∧
      DbCall.OpenMinioObject ∈
        (databasePage (exDBWorld (some "carol") false false none none false) exRequest).calls ∧
      pd.MyStar = false) :=
  ⟨⟨_, _, rfl, rfl, by decide,
      (databasePage_star_flag (exDBWorld (some "carol") true true none none false) exRequest
        _ _ rfl rfl).1 (by decide)⟩,
    ⟨_, _, rfl, rfl, by decide,
      (databasePage_star_flag (exDBWorld (some "carol") false false none none false) exRequest
        _ _ rfl rfl).2 (by decide)⟩⟩

end DBHub
